import Mathlib

/-!
# Verification of the telcell dynamic-schema record store

This file gives a shallow embedding, in Lean, of the type-directed
serialization layer (`telcell/data/serialization.py`), the cell-identifier
value type (`telcell/data/cell_identity.py`) as far as serialization needs
it, and the dynamic-schema sqlite-backed collection
(`telcell/data/collection_sqlite.py`), together with proofs and refutations
of the specification's claims about them.

Modelling conventions:

* Python machine floats are modelled as exact rationals (`ℚ`).  Every float
  operation used by this subsystem (identity pass-through, `str`/`float`
  round trip, which CPython guarantees to be exact) is exact, so no rounding
  is modelled.  The decimal string `str(x)` of a float `x` is modelled by
  the tagged constructor `PyVal.floatStr x` (the string denoting `x`), and
  `float(s)` on such a string returns `x` exactly.  Likewise
  `datetime.isoformat` output is modelled by `PyVal.isoStr` and
  `timedelta` payloads by integer microseconds.
* Python `datetime` values are modelled as microseconds since the epoch
  plus an optional UTC offset in minutes; `isoformat`/`fromisoformat` are
  exact inverses on this data, as they are in CPython.
* Cell identifiers render their `unique_identifier` as a dash-separated
  string.  That string is modelled by its component list
  (`PyVal.cellUid`): a component is `none` when Python renders `'?'`
  (the field is `None` or `0`, by `x or '?'`).  `int()` applied to a
  component fails when the component is `none` (the text `'?'`) or
  negative (a negative number makes the dash split of the joined string
  produce an empty piece, so `int('')` fails).
* Python `dict`s are modelled as insertion-ordered association lists with
  unique keys; assignment of an existing key updates in place, assignment
  of a fresh key appends, matching CPython semantics.
-/

namespace Telcell

/-- Results of fallible operations are compared in many statements below;
`Except` needs decidable equality for that. -/
instance {ε α : Type} [DecidableEq ε] [DecidableEq α] : DecidableEq (Except ε α)
  | .error a, .error b =>
    if h : a = b then .isTrue (by rw [h])
    else .isFalse (fun hh => h (by injection hh))
  | .error _, .ok _ => .isFalse (fun h => Except.noConfusion h)
  | .ok _, .error _ => .isFalse (fun h => Except.noConfusion h)
  | .ok a, .ok b =>
    if h : a = b then .isTrue (by rw [h])
    else .isFalse (fun hh => h (by injection hh))

/-! ## Python string primitives used by the serializers -/

/-- Python's `s.endswith(t)`. -/
def pyEndsWith (s t : String) : Bool := t.data.isSuffixOf s.data

/-- Python's `s.startswith(t)`. -/
def pyStartsWith (s t : String) : Bool := t.data.isPrefixOf s.data

/-- Python's `key.split("_")[0]`: the characters before the first `'_'`. -/
def firstUnderscoreSeg (s : String) : String := ⟨s.data.takeWhile (· ≠ '_')⟩

/-- Python's `key.split(".")[0]`: the characters before the first `'.'`. -/
def firstDotSeg (s : String) : String := ⟨s.data.takeWhile (· ≠ '.')⟩

/-- Python's `key[n:]` for `n ≥ 0`. -/
def pyDrop (s : String) (n : Nat) : String := ⟨s.data.drop n⟩

/-- Python's `key[:-n]` for `n > 0` (empty result when `n ≥ len(key)`). -/
def pyDropRight (s : String) (n : Nat) : String := ⟨s.data.take (s.data.length - n)⟩

/-- Python's `".".join(key.split(".")[:-1])`: everything before the last
`'.'` of the key, or `""` when the key has no `'.'`. -/
def parentKey (s : String) : String :=
  ⟨(s.data.reverse.dropWhile (· ≠ '.')).drop 1 |>.reverse⟩

/-- `True` when the string contains no `'.'`. -/
def dotFree (s : String) : Bool := s.data.all (· ≠ '.')

/-! ## Errors

One constructor per kind of Python exception this subsystem can raise.  The
constructor names follow the exception classes; no finer payload is kept. -/

inductive PyErr where
  /-- `ValueError`, e.g. `int('?')` or an out-of-range `WgsPoint`. -/
  | valueError
  /-- `TypeError`, e.g. `'x' in None` or `None & 0xFFFF`. -/
  | typeError
  /-- `AssertionError` from a failed `assert`. -/
  | assertionError
  /-- `AttributeError`, e.g. `.lower()` on a non-string. -/
  | attributeError
  /-- `sqlite3.OperationalError`, e.g. renaming a column onto an existing
  name, or creating a table with no columns. -/
  | operationalError
  /-- `RecursionError`.  The recursive flattening functions below take
  explicit fuel; the public entry points supply fuel exceeding the
  recursion depth Python would use, so this is never returned by them. -/
  | recursionLimit
  deriving DecidableEq, Repr

/-! ## Cell identifiers (`telcell/data/cell_identity.py`)

One constructor per concrete Python class.  All numeric fields are kept as
`Option Int` exactly as in the source (`None` allowed).  The `UMTSCell`
constructor masks `ci` with `0xFFFF`; `mkUMTS` below applies that mask. -/

inductive CellIdentity where
  /-- class `CellIdentity` itself (radio `None`). -/
  | plain (mcc mnc : Option Int)
  /-- class `CellGlobalIdentity` (radio `None`). -/
  | cgi (mcc mnc lac ci : Option Int)
  /-- class `GSMCell`. -/
  | gsm (mcc mnc lac ci : Option Int)
  /-- class `UMTSCell` (field `ci` already masked to 16 bits). -/
  | umts (mcc mnc lac ci : Option Int)
  /-- class `ECellGlobalIdentity` (radio `None`). -/
  | ecgi (mcc mnc eci : Option Int)
  /-- class `LTECell`. -/
  | lte (mcc mnc eci : Option Int)
  /-- class `NRCell`. -/
  | nr (mcc mnc eci : Option Int)
  deriving DecidableEq, Repr

namespace CellIdentity

/-- The `radio` property of each class. -/
def radio : CellIdentity → Option String
  | .plain _ _ => none
  | .cgi _ _ _ _ => none
  | .gsm _ _ _ _ => some "GSM"
  | .umts _ _ _ _ => some "UMTS"
  | .ecgi _ _ _ => none
  | .lte _ _ _ => some "LTE"
  | .nr _ _ _ => some "NR"

/-- One dash-separated component of the `unique_identifier` string, after
Python's `x or '?'`: `none` stands for `'?'` (field `None` or `0`). -/
def uidComp : Option Int → Option Int
  | none => none
  | some n => if n = 0 then none else some n

/-- The components of the `unique_identifier` string: `plmn` for the base
class, `cgi` (`plmn-lac-ci`) for the CGI family, `ecgi` (`plmn-eci`) for
the eCGI family. -/
def uidComps : CellIdentity → List (Option Int)
  | .plain mcc mnc => [uidComp mcc, uidComp mnc]
  | .cgi mcc mnc lac ci => [uidComp mcc, uidComp mnc, uidComp lac, uidComp ci]
  | .gsm mcc mnc lac ci => [uidComp mcc, uidComp mnc, uidComp lac, uidComp ci]
  | .umts mcc mnc lac ci => [uidComp mcc, uidComp mnc, uidComp lac, uidComp ci]
  | .ecgi mcc mnc eci => [uidComp mcc, uidComp mnc, uidComp eci]
  | .lte mcc mnc eci => [uidComp mcc, uidComp mnc, uidComp eci]
  | .nr mcc mnc eci => [uidComp mcc, uidComp mnc, uidComp eci]

/-- Python's `str.upper()`. -/
def pyUpper (s : String) : String := ⟨s.data.map Char.toUpper⟩

/-- `RADIO_TR.get(radio, radio)`. -/
def radioTr (r : String) : String :=
  if r = "2G" then "GSM"
  else if r = "3G" then "UMTS"
  else if r = "4G" then "LTE"
  else if r = "5G" then "NR"
  else r

/-- `UMTSCell.__init__`: masks `ci` with `0xFFFF` (`None & 0xFFFF` raises
`TypeError`).  Python's `&` on ints is two's-complement, which for the
positive mask `0xFFFF` equals `% 65536` with a nonnegative result. -/
def mkUMTS (mcc mnc lac ci : Option Int) : Except PyErr CellIdentity :=
  match ci with
  | none => .error .typeError
  | some c => .ok (.umts mcc mnc lac (some (c % 65536)))

/-- `CellIdentity.create`.  The source's chained test
`eci is not None and ci is lac is not None or ci is not None` parses as
`(eci is not None and (ci is lac) and (lac is not None)) or (ci is not None)`;
`is` between the two int-or-None fields is modelled as equality (the branch
is reachable only with `ci` present, where the first disjunct is absorbed
by the second).  `None > 0xFFFF` raises `TypeError`. -/
def create (radio : Option String) (mcc mnc lac ci eci : Option Int) :
    Except PyErr CellIdentity :=
  let radio := radio.map (fun r => radioTr (pyUpper r))
  if radio = some "GSM" then .ok (.gsm mcc mnc lac ci)
  else if radio = some "UMTS" then mkUMTS mcc mnc lac ci
  else if radio = some "LTE" then .ok (.lte mcc mnc eci)
  else if radio ≠ none then .error .valueError
  else if eci ≠ none ∧ (ci = none ∨ lac = none) then .ok (.lte mcc mnc eci)
  else if ci ≠ none ∧ lac ≠ none ∧ eci = none then .ok (.cgi mcc mnc lac ci)
  else if (eci ≠ none ∧ ci = lac ∧ lac ≠ none) ∨ ci ≠ none then
    match ci with
    | some c =>
      if c > 0xFFFF then .ok (.lte mcc mnc eci) else .ok (.cgi mcc mnc lac ci)
    | none => .error .typeError
  else .ok (.plain mcc mnc)

/-- `int()` applied to one dash-separated component of a rendered
`unique_identifier`.  A `none` component is the text `'?'`, which
`int` rejects; a negative component means the rendered string contained an
extra `'-'`, so the dash split produced an empty piece and `int('')`
raised; both are `ValueError`, as in the source. -/
def pyIntOfUidComp : Option Int → Except PyErr Int
  | none => .error .valueError
  | some n => if n < 0 then .error .valueError else .ok n

/-- `CellIdentity.parse`, acting on the component list of the rendered
identifier string (see the module conventions). -/
def parse (comps : List (Option Int)) (radio : Option String) :
    Except PyErr CellIdentity := do
  let elems ← comps.mapM pyIntOfUidComp
  match elems with
  | [mcc, mnc, lac, ci] =>
    create radio (some mcc) (some mnc) (some lac) (some ci) none
  | [mcc, mnc, eci] => create radio (some mcc) (some mnc) none none (some eci)
  | [mcc, mnc] => create radio (some mcc) (some mnc) none none none
  | _ => .error .valueError

/-- Python `==` between two cell identities, following the class-specific
`__eq__` methods of the left operand (note the `isinstance` checks make
this asymmetric: a bare `CellIdentity` compares equal to any subclass with
the same `mcc`/`mnc`, but not conversely). -/
def cellPyEq : CellIdentity → CellIdentity → Bool
  | .plain mcc mnc, b =>
    match b with
    | .plain mcc' mnc' | .cgi mcc' mnc' _ _ | .gsm mcc' mnc' _ _
    | .umts mcc' mnc' _ _ | .ecgi mcc' mnc' _ | .lte mcc' mnc' _
    | .nr mcc' mnc' _ => mcc = mcc' && mnc = mnc'
  | .cgi mcc mnc lac ci, b | .gsm mcc mnc lac ci, b | .umts mcc mnc lac ci, b =>
    match b with
    | .cgi mcc' mnc' lac' ci' | .gsm mcc' mnc' lac' ci'
    | .umts mcc' mnc' lac' ci' =>
      mcc = mcc' && mnc = mnc' && lac = lac' && ci = ci'
    | _ => false
  | a@(.ecgi mcc mnc eci), b | a@(.lte mcc mnc eci), b | a@(.nr mcc mnc eci), b =>
    match b with
    | .ecgi mcc' mnc' eci' | .lte mcc' mnc' eci' | .nr mcc' mnc' eci' =>
      mcc = mcc' && mnc = mnc' &&
        (CellIdentity.radio a == CellIdentity.radio b) && eci = eci'
    | _ => false

/-- The sub-domain of cell identifiers whose rendered identifier parses
back to an equal value: every numeric field present and positive (zero or
`None` renders `'?'`, negatives corrupt the dash split), a UMTS `ci`
within its 16-bit mask, and none of the radio-less eCGI or NR classes
(whose parse reconstructs an `LTECell`, or is rejected by `create`). -/
def cellOK : CellIdentity → Bool
  | .plain mcc mnc => posF mcc && posF mnc
  | .cgi mcc mnc lac ci => posF mcc && posF mnc && posF lac && posF ci
  | .gsm mcc mnc lac ci => posF mcc && posF mnc && posF lac && posF ci
  | .umts mcc mnc lac ci =>
    posF mcc && posF mnc && posF lac &&
      (match ci with | some c => decide (0 < c ∧ c ≤ 0xFFFF) | none => false)
  | .ecgi _ _ _ => false
  | .lte mcc mnc eci => posF mcc && posF mnc && posF eci
  | .nr _ _ _ => false
where
  /-- the field is present and positive. -/
  posF : Option Int → Bool
  | some n => decide (0 < n)
  | none => false

end CellIdentity

/-! ## Runtime values

One universe for the Python values this subsystem passes around, both in
their typed and in their serialized form.  `floatStr`, `isoStr` and
`cellUid` are Python *strings* (the decimal text of a float, the ISO-8601
text of a datetime, the dash-joined identifier of a cell), modelled by the
data they denote; the plain `str` constructor stands for any other text.
`PropL` is an insertion-ordered Python `dict` with string keys. -/

mutual
inductive PyVal where
  /-- Python `None`. -/
  | vnone
  /-- a Python `str` (other than the tagged string forms below). -/
  | str (s : String)
  /-- a Python `bool`. -/
  | bool (b : Bool)
  /-- a Python `int` (that is not a `bool`). -/
  | int (n : Int)
  /-- a Python `float`, modelled exactly. -/
  | float (q : ℚ)
  /-- the string `str(x)` of the float `x`; `float()` recovers `x`. -/
  | floatStr (q : ℚ)
  /-- the string `isoformat()` of a datetime (UTC epoch microseconds plus
  optional UTC offset in minutes). -/
  | isoStr (us : Int) (tz : Option Int)
  /-- the `unique_identifier` string of a cell, by its dash components. -/
  | cellUid (comps : List (Option Int))
  /-- a `geography.Angle`, by its `degrees` field. -/
  | angle (deg : ℚ)
  /-- a `datetime.datetime`: UTC epoch microseconds, optional offset. -/
  | datetime (us : Int) (tz : Option Int)
  /-- a `datetime.timedelta`, in microseconds. -/
  | timedelta (us : Int)
  /-- a `coord.WgsPoint` (the only `Point` in scope; the projection math
  of `RdPoint` is outside this subsystem). -/
  | point (lon lat : ℚ)
  /-- a `cell_identity.CellIdentity`. -/
  | cell (c : CellIdentity)
  /-- a `properties.LocationInfo` (a `dict` subclass). -/
  | geo (m : PropL)
  /-- a plain `dict` (or `Properties`). -/
  | dict (m : PropL)
  deriving DecidableEq, Repr

/-- An insertion-ordered Python `dict` from strings to values. -/
inductive PropL where
  | nil
  | cons (key : String) (val : PyVal) (rest : PropL)
  deriving DecidableEq, Repr
end

namespace PropL

/-- The keys, in insertion order. -/
def keys : PropL → List String
  | .nil => []
  | .cons k _ rest => k :: keys rest

/-- `key in d` / `d[key]` (first binding wins, as keys are unique). -/
def lookup : PropL → String → Option PyVal
  | .nil, _ => none
  | .cons k v rest, key => if k = key then some v else lookup rest key

/-- `d[key] = value`: update in place if the key exists, else append. -/
def upsert : PropL → String → PyVal → PropL
  | .nil, key, value => .cons key value .nil
  | .cons k v rest, key, value =>
    if k = key then .cons k value rest else .cons k v (upsert rest key value)

/-- `d.update(items)`: left fold of `upsert`. -/
def upsertMany : PropL → PropL → PropL
  | d, .nil => d
  | d, .cons k v rest => upsertMany (upsert d k v) rest

/-- Prefix every key with `pre`. -/
def prefixKeys (pre : String) : PropL → PropL
  | .nil => .nil
  | .cons k v rest => .cons (pre ++ k) v (prefixKeys pre rest)

/-- The entries whose key starts with `item ++ "."`, with that prefix
stripped from the key (the `properties` sub-dict of `_expand_dict`). -/
def subProps (item : String) : PropL → PropL
  | .nil => .nil
  | .cons k v rest =>
    if pyStartsWith k (item ++ ".") then
      .cons (pyDrop k (item.length + 1)) v (subProps item rest)
    else subProps item rest

/-- Number of entries. -/
def length : PropL → Nat
  | .nil => 0
  | .cons _ _ rest => length rest + 1

/-- List append (used to state results; real dict building uses `upsert`). -/
def append : PropL → PropL → PropL
  | .nil, d => d
  | .cons k v rest, d => .cons k v (append rest d)

end PropL

/-! ## Weights for termination

`pvW`/`plW` bound the size of whatever `_serialize_property` can return:
the serializers map a value either to itself, to a tagged scalar of the
same weight, or (for points and cells) to a fresh two-entry dict of
scalars of weight 5, so `point` and `cell` weigh 7.  A `LocationInfo`
passes through as itself (weight `2 + plW m`, one more than the plain
dict of the same entries). -/

mutual
def pvW : PyVal → Nat
  | .geo m => 2 + plW m
  | .dict m => 1 + plW m
  | .point _ _ => 7
  | .cell _ => 7
  | _ => 1
def plW : PropL → Nat
  | .nil => 0
  | .cons _ v rest => 1 + pvW v + plW rest
end

/-- Total key length measure of a dict, used for `_expand_dict`'s
termination: stripping a nonempty first-segment prefix strictly shrinks
it. -/
def fieldsW : PropL → Nat
  | .nil => 0
  | .cons k _ rest => k.length + 1 + fieldsW rest

/-! ## Python built-in coercions -/

/-- Truncation toward zero, Python `int()` on a float. -/
def ratTrunc (q : ℚ) : Int := if q < 0 then -(⌊-q⌋) else ⌊q⌋

/-- Python `round`-to-microsecond as used by `timedelta(seconds=...)`:
round half to even. -/
def pyRoundHalfEven (q : ℚ) : Int :=
  let f : Int := ⌊q⌋
  let r : ℚ := q - f
  if r < 1/2 then f
  else if r > 1/2 then f + 1
  else if f % 2 = 0 then f else f + 1

/-- Python `str.lower()`. -/
def pyLower (s : String) : String := ⟨s.data.map Char.toLower⟩

/-- A decimal-digit character's value. -/
def digitVal (c : Char) : Option Nat :=
  if '0' ≤ c ∧ c ≤ '9' then some (c.toNat - '0'.toNat) else none

/-- Parse a nonempty digit run; `none` on any non-digit or on empty. -/
def decNat : List Char → Option Nat
  | [] => none
  | cs => cs.foldl (fun acc c =>
      match acc, digitVal c with
      | some a, some d => some (a * 10 + d)
      | _, _ => none) (some 0)

/-- Python `int()` on a string: optional sign and a digit run (the forms
reachable in this subsystem; `ValueError` otherwise). -/
def pyIntParse (s : String) : Except PyErr Int :=
  match s.data with
  | '-' :: cs =>
    match decNat cs with
    | some n => .ok (-(n : Int))
    | none => .error .valueError
  | '+' :: cs =>
    match decNat cs with
    | some n => .ok (n : Int)
    | none => .error .valueError
  | cs =>
    match decNat cs with
    | some n => .ok (n : Int)
    | none => .error .valueError

/-- Split a character list on `'-'` (Python `s.split("-")`). -/
def splitDash : List Char → List (List Char)
  | [] => [[]]
  | c :: cs =>
    match splitDash cs with
    | [] => [[c]]
    | p :: ps => if c = '-' then [] :: p :: ps else (c :: p) :: ps

/-- Python `float()` on a string: optional sign, digits, optional dot and
fraction digits (the forms reachable in this subsystem). -/
def pyFloatParse (s : String) : Except PyErr ℚ :=
  let (sgn, cs) : ℚ × List Char :=
    match s.data with
    | '-' :: cs => (-1, cs)
    | '+' :: cs => (1, cs)
    | cs => (1, cs)
  let ip := cs.takeWhile (· ≠ '.')
  let rest := cs.dropWhile (· ≠ '.')
  match rest with
  | [] =>
    match decNat ip with
    | some n => .ok (sgn * n)
    | none => .error .valueError
  | '.' :: fp =>
    match ip, fp with
    | [], [] => .error .valueError
    | [], fp =>
      match decNat fp with
      | some f => .ok (sgn * (f : ℚ) / ((10 : ℚ) ^ fp.length))
      | none => .error .valueError
    | ip, [] =>
      match decNat ip with
      | some n => .ok (sgn * n)
      | none => .error .valueError
    | ip, fp =>
      match decNat ip, decNat fp with
      | some n, some f => .ok (sgn * ((n : ℚ) + (f : ℚ) / ((10 : ℚ) ^ fp.length)))
      | _, _ => .error .valueError
  | _ => .error .valueError

/-- Python `int()` on a value.  A `cellUid` is a string of dash-joined
components: it parses as an int only when it is a single rendered
number. -/
def pyIntFn : PyVal → Except PyErr Int
  | .int n => .ok n
  | .bool b => .ok (if b then 1 else 0)
  | .float q => .ok (ratTrunc q)
  | .str s => pyIntParse s
  | .floatStr _ => .error .valueError
  | .isoStr _ _ => .error .valueError
  | .cellUid [some n] => .ok n
  | .cellUid _ => .error .valueError
  | _ => .error .typeError

/-- Python `float()` on a value. -/
def pyFloatFn : PyVal → Except PyErr ℚ
  | .float q => .ok q
  | .floatStr q => .ok q
  | .int n => .ok (n : ℚ)
  | .bool b => .ok (if b then 1 else 0)
  | .str s => pyFloatParse s
  | .isoStr _ _ => .error .valueError
  | .cellUid [some n] => .ok (n : ℚ)
  | .cellUid _ => .error .valueError
  | _ => .error .typeError

/-- `WgsPoint.__init__`: validates the coordinate ranges. -/
def mkWgsPoint (lon lat : ℚ) : Except PyErr PyVal :=
  if (-90 ≤ lat ∧ lat ≤ 90) ∧ (-180 ≤ lon ∧ lon ≤ 180) then .ok (.point lon lat)
  else .error .valueError

/-! ## The serializers (`telcell/data/serialization.py`) -/

/-- Identifies each serializer instance of the registry (standing for
object identity in the blacklist membership test). -/
inductive SerId where
  | wgs84 | degrees | timestamp | timedelta | cellId | geoInfo
  | intSer | floatSer | boolSer
  deriving DecidableEq, Repr

/-- A `Dictionizer`/`Dedictionizer` pair.  `toDict`/`fromDict` return
`Except` because several of them can raise on values of an unexpected
runtime type. -/
structure Serializer where
  sid : SerId
  isDictable : String → PyVal → Bool
  toDict : String → PyVal → Except PyErr (String × PyVal)
  isDedictable : String → PyVal → Bool
  fromDict : String → PyVal → Except PyErr (String × PyVal)

/-- `BasicDictionizerDedictionizer.is_dedictable`. -/
def basicIsDedictable (tn key : String) : Bool :=
  key = tn || pyEndsWith key ("_" ++ tn)

/-- `BasicDictionizerDedictionizer.add_type_indicator`. -/
def addTypeIndicator (tn key : String) : String :=
  if key = tn || pyEndsWith key ("_" ++ tn) then key else key ++ "_" ++ tn

/-- `BasicDictionizerDedictionizer.remove_type_indicator`
(`key[: -len(type_name) - 1]`). -/
def removeTypeIndicator (tn key : String) : String :=
  if key = tn then key else pyDropRight key (tn.length + 1)

/-- `SerializeWgs84`.  `"lat" in value` on a string is a substring test;
on a non-container it raises `TypeError`.  The tagged string forms never
contain the letters `lat`. -/
def serializeWgs84 : Serializer where
  sid := .wgs84
  isDictable := fun _ v => match v with | .point _ _ => true | _ => false
  toDict := fun key v =>
    match v with
    | .point lon lat =>
      .ok (addTypeIndicator "wgs84" key,
        .dict (.cons "lat" (.float lat) (.cons "lon" (.float lon) .nil)))
    | _ => .error .attributeError
  isDedictable := fun key _ => basicIsDedictable "wgs84" key
  fromDict := fun key v =>
    let key := removeTypeIndicator "wgs84" key
    match v with
    | .dict m | .geo m =>
      match m.lookup "lat", m.lookup "lon" with
      | some latv, some lonv => do
        let lat ← pyFloatFn latv
        let lon ← pyFloatFn lonv
        let p ← mkWgsPoint lon lat
        .ok (key, p)
      | _, _ => .ok (key, .vnone)
    | .str s =>
      if decide ("lat".data <:+: s.data) && decide ("lon".data <:+: s.data) then
        .error .typeError
      else .ok (key, .vnone)
    | .floatStr _ | .isoStr _ _ | .cellUid _ => .ok (key, .vnone)
    | _ => .error .typeError

/-- `SerializeAngle`: `str(value.degrees)` out, `Angle(float(value))`
back. -/
def serializeAngle : Serializer where
  sid := .degrees
  isDictable := fun _ v => match v with | .angle _ => true | _ => false
  toDict := fun key v =>
    match v with
    | .angle deg => .ok (addTypeIndicator "degrees" key, .floatStr deg)
    | _ => .error .attributeError
  isDedictable := fun key _ => basicIsDedictable "degrees" key
  fromDict := fun key v => do
    let q ← pyFloatFn v
    .ok (removeTypeIndicator "degrees" key, .angle q)

/-- `SerializeTimestamp`: `isoformat()` out, `fromisoformat` back (plain
`str` stands for non-ISO text, which `fromisoformat` rejects). -/
def serializeTimestamp : Serializer where
  sid := .timestamp
  isDictable := fun _ v => match v with | .datetime _ _ => true | _ => false
  toDict := fun key v =>
    match v with
    | .datetime us tz => .ok (addTypeIndicator "timestamp" key, .isoStr us tz)
    | _ => .error .attributeError
  isDedictable := fun key _ => basicIsDedictable "timestamp" key
  fromDict := fun key v =>
    match v with
    | .isoStr us tz => .ok (removeTypeIndicator "timestamp" key, .datetime us tz)
    | .str _ => .error .valueError
    | .floatStr _ | .cellUid _ => .error .valueError
    | _ => .error .typeError

/-- `SerializeDuration`: `str(value.total_seconds())` out,
`timedelta(seconds=float(value))` back (rounded to whole microseconds,
half to even). -/
def serializeDuration : Serializer where
  sid := .timedelta
  isDictable := fun _ v => match v with | .timedelta _ => true | _ => false
  toDict := fun key v =>
    match v with
    | .timedelta us =>
      .ok (addTypeIndicator "timedelta" key, .floatStr ((us : ℚ) / 1000000))
    | _ => .error .attributeError
  isDedictable := fun key _ => basicIsDedictable "timedelta" key
  fromDict := fun key v => do
    let q ← pyFloatFn v
    .ok (removeTypeIndicator "timedelta" key, .timedelta (pyRoundHalfEven (q * 1000000)))

/-- `CellIdentity.parse` after the component integers have been read:
dispatch on the component count.  The `radio` argument's `.upper()` is
only evaluated inside `create`, i.e. after the count check. -/
def parseCellElems (elems : List Int) (radio : Option String) :
    Except PyErr CellIdentity :=
  match elems with
  | [mcc, mnc, lac, ci] =>
    CellIdentity.create radio (some mcc) (some mnc) (some lac) (some ci) none
  | [mcc, mnc, eci] =>
    CellIdentity.create radio (some mcc) (some mnc) none none (some eci)
  | [mcc, mnc] => CellIdentity.create radio (some mcc) (some mnc) none none none
  | _ => .error .valueError

/-- `SerializeCell`: `{"radio": value.radio, "identifier":
value.unique_identifier}` out; back via `CellIdentity.parse` unless the
identifier is absent or `None`. -/
def serializeCell : Serializer where
  sid := .cellId
  isDictable := fun _ v => match v with | .cell _ => true | _ => false
  toDict := fun key v =>
    match v with
    | .cell c =>
      .ok (addTypeIndicator "cell" key,
        .dict (.cons "radio"
          (match CellIdentity.radio c with | some r => .str r | none => .vnone)
          (.cons "identifier" (.cellUid (CellIdentity.uidComps c)) .nil)))
    | _ => .error .attributeError
  isDedictable := fun key _ => basicIsDedictable "cell" key
  fromDict := fun key v =>
    let key := removeTypeIndicator "cell" key
    match v with
    | .dict m | .geo m =>
      match m.lookup "identifier" with
      | none | some .vnone => .ok (key, .vnone)
      | some idv => do
        let elems ←
          match idv with
          | .cellUid comps => comps.mapM CellIdentity.pyIntOfUidComp
          | .str s => (splitDash s.data).mapM (fun piece =>
              pyIntParse ⟨piece⟩)
          | _ => .error .attributeError
        match elems with
        | [_, _] | [_, _, _] | [_, _, _, _] => do
          let radio ←
            match m.lookup "radio" with
            | none | some .vnone => pure (none : Option String)
            | some (.str r) => pure (some r)
            | some _ => .error .attributeError
          let c ← parseCellElems elems radio
          .ok (key, .cell c)
        | _ => .error .valueError
    | _ => .error .attributeError

/-- `SerializeLocationInfo`: passes the `LocationInfo` through unchanged;
back with `LocationInfo(**value)`. -/
def serializeLocationInfo : Serializer where
  sid := .geoInfo
  isDictable := fun _ v => match v with | .geo _ => true | _ => false
  toDict := fun key v => .ok (addTypeIndicator "geo" key, v)
  isDedictable := fun key _ => basicIsDedictable "geo" key
  fromDict := fun key v =>
    match v with
    | .dict m | .geo m => .ok (removeTypeIndicator "geo" key, .geo m)
    | _ => .error .typeError

/-- `SerializeInteger` (`isinstance(value, int) and not isinstance(value,
bool)`). -/
def serializeInteger : Serializer where
  sid := .intSer
  isDictable := fun _ v => match v with | .int _ => true | _ => false
  toDict := fun key v => .ok (addTypeIndicator "int" key, v)
  isDedictable := fun key _ => basicIsDedictable "int" key
  fromDict := fun key v => do
    let n ← pyIntFn v
    .ok (removeTypeIndicator "int" key, .int n)

/-- `SerializeFloat`. -/
def serializeFloat : Serializer where
  sid := .floatSer
  isDictable := fun _ v => match v with | .float _ => true | _ => false
  toDict := fun key v => .ok (addTypeIndicator "float" key, v)
  isDedictable := fun key _ => basicIsDedictable "float" key
  fromDict := fun key v => do
    let q ← pyFloatFn v
    .ok (removeTypeIndicator "float" key, .float q)

/-- `SerializeBoolean`: applies to any field whose key starts with the
segment `is` or `has`; stores the value unchanged; decodes ints via
`bool()` and strings via `.lower() in {"1", "true"}` (a rendered float,
ISO or identifier string is never `"1"` or `"true"`, except the
one-component identifier `"1"`). -/
def serializeBoolean : Serializer where
  sid := .boolSer
  isDictable := fun key _ =>
    firstUnderscoreSeg key = "is" || firstUnderscoreSeg key = "has"
  toDict := fun key v => .ok (key, v)
  isDedictable := fun key _ =>
    firstUnderscoreSeg key = "is" || firstUnderscoreSeg key = "has"
  fromDict := fun key v =>
    match v with
    | .bool b => .ok (key, .bool b)
    | .int n => .ok (key, .bool (n ≠ 0))
    | .str s => .ok (key, .bool (pyLower s = "1" || pyLower s = "true"))
    | .floatStr _ | .isoStr _ _ => .ok (key, .bool false)
    | .cellUid comps => .ok (key, .bool (comps = [some 1]))
    | _ => .error .attributeError

/-- The registry, in the source's order. -/
def CELL_MEASUREMENT_SERIALIZERS : List Serializer :=
  [serializeWgs84, serializeAngle, serializeTimestamp, serializeDuration,
   serializeCell, serializeLocationInfo, serializeInteger, serializeFloat,
   serializeBoolean]

/-- `_deserialize_property`: first serializer claiming the key decodes;
otherwise the pair passes through unchanged. -/
def deserializeProp : List Serializer → String → PyVal → Except PyErr (String × PyVal)
  | [], key, value => .ok (key, value)
  | s :: rest, key, value =>
    if s.isDedictable key value then s.fromDict key value
    else deserializeProp rest key value

/-- `_serialize_property`: first non-blacklisted serializer claiming the
pair encodes; otherwise the value must already be `None`, a string or a
dict (`assert`), and passes through. -/
def serializeProp : List Serializer → List SerId → String → PyVal →
    Except PyErr (String × PyVal)
  | [], _, key, value =>
    match value with
    | .vnone | .str _ | .floatStr _ | .isoStr _ _ | .cellUid _
    | .dict _ | .geo _ => .ok (key, value)
    | _ => .error .assertionError
  | s :: rest, bl, key, value =>
    if s.isDictable key value && !bl.contains s.sid then s.toDict key value
    else serializeProp rest bl key value

/-! ## Weight lemmas for termination of the flattening engine -/

/-- `pvW` is positive. -/
theorem pvW_pos (v : PyVal) : 0 < pvW v := by
  cases v <;> simp [pvW]

/-- `to_dict` of the geo-point serializer returns a two-entry dict of
floats, lighter than a `point`. -/
theorem toDict_weight_wgs84 (k : String) (v : PyVal) (k' : String) (v' : PyVal)
    (h : serializeWgs84.toDict k v = .ok (k', v')) : pvW v' ≤ pvW v := by
  cases v <;> simp [serializeWgs84] at h
  simp [← h.2, pvW, plW]

/-- `to_dict` of the angle serializer returns a tagged string. -/
theorem toDict_weight_angle (k : String) (v : PyVal) (k' : String) (v' : PyVal)
    (h : serializeAngle.toDict k v = .ok (k', v')) : pvW v' ≤ pvW v := by
  cases v <;> simp [serializeAngle] at h
  simp [← h.2, pvW]

/-- `to_dict` of the timestamp serializer returns a tagged string. -/
theorem toDict_weight_timestamp (k : String) (v : PyVal) (k' : String) (v' : PyVal)
    (h : serializeTimestamp.toDict k v = .ok (k', v')) : pvW v' ≤ pvW v := by
  cases v <;> simp [serializeTimestamp] at h
  simp [← h.2, pvW]

/-- `to_dict` of the duration serializer returns a tagged string. -/
theorem toDict_weight_duration (k : String) (v : PyVal) (k' : String) (v' : PyVal)
    (h : serializeDuration.toDict k v = .ok (k', v')) : pvW v' ≤ pvW v := by
  cases v <;> simp [serializeDuration] at h
  simp [← h.2, pvW]

/-- `to_dict` of the cell serializer returns a two-entry dict of strings,
lighter than a `cell`. -/
theorem toDict_weight_cell (k : String) (v : PyVal) (k' : String) (v' : PyVal)
    (h : serializeCell.toDict k v = .ok (k', v')) : pvW v' ≤ pvW v := by
  cases v <;> simp [serializeCell] at h
  rename_i c
  cases hr : CellIdentity.radio c <;> simp [hr] at h <;> simp [← h.2, pvW, plW]

/-- `to_dict` of the remaining serializers returns the value itself. -/
theorem toDict_weight_id (s : Serializer)
    (hs : s = serializeLocationInfo ∨ s = serializeInteger ∨
      s = serializeFloat ∨ s = serializeBoolean)
    (k : String) (v : PyVal) (k' : String) (v' : PyVal)
    (h : s.toDict k v = .ok (k', v')) : pvW v' ≤ pvW v := by
  rcases hs with h' | h' | h' | h' <;> subst h' <;>
    simp [serializeLocationInfo, serializeInteger, serializeFloat,
      serializeBoolean] at h <;>
    simp [← h.2]

/-- Every serializer's `to_dict` returns a value no heavier than its
input. -/
theorem toDict_weight :
    ∀ s ∈ CELL_MEASUREMENT_SERIALIZERS, ∀ k v k' v',
      s.toDict k v = .ok (k', v') → pvW v' ≤ pvW v := by
  intro s hs k v k' v' h
  simp only [CELL_MEASUREMENT_SERIALIZERS, List.mem_cons, List.not_mem_nil,
    or_false] at hs
  rcases hs with h' | h' | h' | h' | h' | h' | h' | h' | h'
  · exact toDict_weight_wgs84 k v k' v' (h' ▸ h)
  · exact toDict_weight_angle k v k' v' (h' ▸ h)
  · exact toDict_weight_timestamp k v k' v' (h' ▸ h)
  · exact toDict_weight_duration k v k' v' (h' ▸ h)
  · exact toDict_weight_cell k v k' v' (h' ▸ h)
  · exact toDict_weight_id s (Or.inl h') k v k' v' h
  · exact toDict_weight_id s (Or.inr (Or.inl h')) k v k' v' h
  · exact toDict_weight_id s (Or.inr (Or.inr (Or.inl h'))) k v k' v' h
  · exact toDict_weight_id s (Or.inr (Or.inr (Or.inr h'))) k v k' v' h

/-- `_serialize_property` returns a value no heavier than its input (the
fallback passes the value through unchanged). -/
theorem serializeProp_weight (sers : List Serializer)
    (H : ∀ s ∈ sers, ∀ k v k' v', s.toDict k v = .ok (k', v') → pvW v' ≤ pvW v)
    (bl : List SerId) (k : String) (v : PyVal) (k' : String) (v' : PyVal)
    (h : serializeProp sers bl k v = .ok (k', v')) : pvW v' ≤ pvW v := by
  induction sers with
  | nil =>
    cases v <;> simp [serializeProp] at h <;> simp [← h.2]
  | cons s rest ih =>
    simp only [serializeProp] at h
    split at h
    · exact H s (List.mem_cons_self s rest) k v k' v' h
    · exact ih (fun s' hs' => H s' (List.mem_cons_of_mem s hs')) h

/-! ## The flattening engine (`_collapse_dict` / `_expand_dict`) -/

/-- The per-entry key/value rewrite step of `_collapse_dict` (`if value
is not None: key, value = _serialize_property(...)`). -/
def collapseStep (bl : List SerId) (key : String) (value : PyVal) :
    Except PyErr (String × PyVal) :=
  match value with
  | .vnone => .ok (key, .vnone)
  | v => serializeProp CELL_MEASUREMENT_SERIALIZERS bl key v

/-- The rewrite step never increases the value weight. -/
theorem collapseStep_weight (bl : List SerId) (key : String) (value : PyVal)
    (key' : String) (v' : PyVal)
    (h : collapseStep bl key value = .ok (key', v')) : pvW v' ≤ pvW value := by
  cases value <;> simp [collapseStep] at h <;>
    first
      | simp [← h.2]
      | exact serializeProp_weight _ toDict_weight _ _ _ _ _ h

/-- Worker for `_collapse_dict`, accumulating into `acc` (the Python
`result` dict).  A `LocationInfo` is a `dict` subclass, so it takes the
`isinstance(value, dict)` branch.  Structural recursion on `fuel`; each
call consumes one unit, and any chain of calls strictly decreases `plW`
(by `collapseStep_weight`), so `plW d + 1` fuel always suffices. -/
def collapseGo : Nat → List SerId → PropL → PropL → Except PyErr PropL
  | 0, _, _, _ => .error .recursionLimit
  | _ + 1, _, acc, .nil => .ok acc
  | fuel + 1, bl, acc, .cons key value rest =>
    match collapseStep bl key value with
    | .error e => .error e
    | .ok (key', .dict m) =>
      match collapseGo fuel bl .nil m with
      | .error e => .error e
      | .ok sub =>
        collapseGo fuel bl (acc.upsertMany (sub.prefixKeys (key' ++ "."))) rest
    | .ok (key', .geo m) =>
      match collapseGo fuel bl .nil m with
      | .error e => .error e
      | .ok sub =>
        collapseGo fuel bl (acc.upsertMany (sub.prefixKeys (key' ++ "."))) rest
    | .ok (key', v') => collapseGo fuel bl (acc.upsert key' v') rest

/-- `_collapse_dict`. -/
def collapseDict (bl : List SerId) (d : PropL) : Except PyErr PropL :=
  collapseGo (plW d + 1) bl .nil d

/-- First-occurrence deduplication: the order in which the Python `set`
of top-level prefixes is iterated is unspecified; it is modelled as
first-occurrence order (results are compared by dict equality, which does
not see the order). -/
def dedupFO : List String → List String
  | [] => []
  | x :: xs => x :: (dedupFO xs).filter (· ≠ x)

/-- The `top_level` prefixes of `_expand_dict`. -/
def topLevel (m : PropL) : List String := dedupFO (m.keys.map firstDotSeg)

/-- Length of a Python slice `key[n:]`. -/
theorem length_pyDrop (s : String) (n : Nat) :
    (pyDrop s n).length = s.length - n := by
  show (s.data.drop n).length = s.data.length - n
  exact List.length_drop _ _

/-- A string prefix is no longer than the whole. -/
theorem pyStartsWith_length {s t : String} (h : pyStartsWith s t = true) :
    t.length ≤ s.length :=
  (List.isPrefixOf_iff_prefix.mp h).length_le

/-- Length of a string append. -/
theorem length_strApp (s t : String) : (s ++ t).length = s.length + t.length := by
  show (s.data ++ t.data).length = s.data.length + t.data.length
  exact List.length_append _ _

/-- `subProps` never increases the key-length measure. -/
theorem fieldsW_subProps_le (item : String) (m : PropL) :
    fieldsW (m.subProps item) ≤ fieldsW m := by
  match m with
  | .nil => simp [PropL.subProps, fieldsW]
  | .cons k v rest =>
    have ih := fieldsW_subProps_le item rest
    simp only [PropL.subProps]
    split
    · simp only [fieldsW, length_pyDrop]
      omega
    · simp only [fieldsW]; omega

/-- Keys selected by `subProps` are at least as long as the stripped
prefix, so a nonempty `subProps` strictly shrinks the measure. -/
theorem fieldsW_subProps_lt (item : String) (m : PropL)
    (h : m.subProps item ≠ .nil) : fieldsW (m.subProps item) < fieldsW m := by
  match m with
  | .nil => simp [PropL.subProps] at h
  | .cons k v rest =>
    simp only [PropL.subProps] at h ⊢
    cases hpre : pyStartsWith k (item ++ ".") with
    | true =>
      simp only [hpre, if_true]
      have hple : item.length + 1 ≤ k.length := by
        have := pyStartsWith_length hpre
        rw [length_strApp] at this
        simpa using this
      have hrest := fieldsW_subProps_le item rest
      simp only [fieldsW, length_pyDrop]
      omega
    | false =>
      simp only [hpre, Bool.false_eq_true, if_false] at h ⊢
      have := fieldsW_subProps_lt item rest h
      simp only [fieldsW]
      omega

/-- Worker for `_expand_dict`: iterates the `top_level` prefixes in
`items`, building the `extra` dict in `acc`.  Structural recursion on
`fuel`: a step to the next prefix keeps `fieldsW fields` and shortens
`items`; a recursive descent into `properties` strictly decreases
`fieldsW` (`fieldsW_subProps_lt`) and starts a fresh `top_level` list no
longer than `fieldsW`, so `fieldsW fields * fieldsW fields +
items.length + 1` fuel always suffices. -/
def expandGo : Nat → PropL → PropL → List String → Except PyErr PropL
  | 0, _, _, _ => .error .recursionLimit
  | _ + 1, _, acc, [] => .ok acc
  | fuel + 1, fields, acc, item :: rest =>
    match fields.lookup item with
    | some v =>
      let ekv : Except PyErr (String × PyVal) :=
        match v with
        | .vnone => .ok (item, .vnone)
        | v => deserializeProp CELL_MEASUREMENT_SERIALIZERS item v
      match ekv with
      | .error e => .error e
      | .ok (k, val) => expandGo fuel fields (acc.upsert k val) rest
    | none =>
      let props := fields.subProps item
      match expandGo fuel props .nil (topLevel props) with
      | .error e => .error e
      | .ok sub =>
        match deserializeProp CELL_MEASUREMENT_SERIALIZERS item (.dict sub) with
        | .error e => .error e
        | .ok (k, val) => expandGo fuel fields (acc.upsert k val) rest

/-- `_expand_dict`. -/
def expandDict (fields : PropL) : Except PyErr PropL :=
  expandGo (fieldsW fields * fieldsW fields + (topLevel fields).length + 1)
    fields .nil (topLevel fields)

/-! ## Python `==` on values and items

Follows CPython: numeric types compare across `bool`/`int`/`float`,
`Angle.__eq__` compares its degrees to a bare number, `dict` equality
ignores insertion order and dict subclassing (`LocationInfo`,
`Properties` and `dict` with the same entries are all equal), and the
cell classes compare with their `isinstance`-based `__eq__` (left
operand's method).  The tagged string forms compare structurally among
themselves (their texts are equal iff their data are); a tagged string
never compares equal to a plain `str` here, which is only sound because
no statement below compares those. -/

mutual
def pyEqVal : PyVal → PyVal → Bool
  | .vnone, .vnone => true
  | .str s, .str t => s == t
  | .floatStr q, .floatStr r => q == r
  | .isoStr a b, .isoStr c d => a == c && b == d
  | .cellUid a, .cellUid b => a == b
  | .bool a, .bool b => a == b
  | .bool a, .int n => ((if a then 1 else 0) : Int) == n
  | .int n, .bool a => ((if a then 1 else 0) : Int) == n
  | .bool a, .float q => ((if a then (1 : ℚ) else 0)) == q
  | .float q, .bool a => ((if a then (1 : ℚ) else 0)) == q
  | .int n, .int m => n == m
  | .int n, .float q => (n : ℚ) == q
  | .float q, .int n => (n : ℚ) == q
  | .float q, .float r => q == r
  | .angle a, .angle b => a == b
  | .angle a, .int n => a == (n : ℚ)
  | .int n, .angle a => a == (n : ℚ)
  | .angle a, .float q => a == q
  | .float q, .angle a => a == q
  | .angle a, .bool b => a == (if b then (1 : ℚ) else 0)
  | .bool b, .angle a => a == (if b then (1 : ℚ) else 0)
  | .datetime us tz, .datetime us' tz' => us == us' && tz.isSome == tz'.isSome
  | .timedelta a, .timedelta b => a == b
  | .point lon lat, .point lon' lat' => lon == lon' && lat == lat'
  | .cell a, .cell b => CellIdentity.cellPyEq a b
  | .geo a, .geo b => PropL.length a == PropL.length b && pyEqSub a b
  | .geo a, .dict b => PropL.length a == PropL.length b && pyEqSub a b
  | .dict a, .geo b => PropL.length a == PropL.length b && pyEqSub a b
  | .dict a, .dict b => PropL.length a == PropL.length b && pyEqSub a b
  | _, _ => false

/-- The left-to-right entry scan of `dict.__eq__`. -/
def pyEqSub : PropL → PropL → Bool
  | .nil, _ => true
  | .cons k v rest, d2 =>
    (match d2.lookup k with
     | some v2 => pyEqVal v v2
     | none => false) && pyEqSub rest d2
end

/-- Python `dict.__eq__`: same size and every left entry matched. -/
def pyEqItem (d1 d2 : PropL) : Bool :=
  PropL.length d1 == PropL.length d2 && pyEqSub d1 d2

/-! ## Association-list helpers for the sqlite model

`List (String × α)` models the Python-side `_fields` dict (insertion
ordered) and a stored row (column name → SQL literal). -/

/-- `d[k]`, first binding. -/
def alookup {α : Type} : List (String × α) → String → Option α
  | [], _ => none
  | (k', v) :: rest, k => if k' = k then some v else alookup rest k

/-- `d[k] = v`: update in place or append. -/
def aupsert {α : Type} : List (String × α) → String → α → List (String × α)
  | [], k, v => [(k, v)]
  | (k', v') :: rest, k, v =>
    if k' = k then (k', v) :: rest else (k', v') :: aupsert rest k v

/-- `del d[k]`. -/
def adel {α : Type} (l : List (String × α)) (k : String) : List (String × α) :=
  l.filter (fun p => p.1 ≠ k)

/-- Rename a key (`ALTER TABLE ... RENAME COLUMN` on a stored row). -/
def arename {α : Type} (old new_ : String) (l : List (String × α)) :
    List (String × α) :=
  l.map (fun p => if p.1 = old then (new_, p.2) else p)

/-- First-occurrence deduplication (models building a Python `set`). -/
def dedupL {α : Type} [DecidableEq α] : List α → List α
  | [] => []
  | x :: xs => x :: (dedupL xs).filter (· ≠ x)

/-! ## The sqlite-backed collection (`telcell/data/collection_sqlite.py`) -/

/-- An SQL literal as built by `sql_literal`, kept structured: `NULL`,
`TRUE`/`FALSE`, a bare int, a quoted ISO timestamp, a bare float
(`timedelta.total_seconds()`), or the quoted `str()` text of any other
value. -/
inductive SqlLit where
  | null
  | sbool (b : Bool)
  | sint (n : Int)
  | sdatetime (us : Int) (tz : Option Int)
  | sreal (q : ℚ)
  | stext (v : PyVal)
  deriving DecidableEq, Repr

/-- `sql_literal`, branch for branch. -/
def sqlLiteral : PyVal → SqlLit
  | .vnone => .null
  | .bool b => .sbool b
  | .int n => .sint n
  | .datetime us tz => .sdatetime us tz
  | .timedelta us => .sreal ((us : ℚ) / 1000000)
  | v => .stext v

/-- Python's `key.split(".")[-1]`. -/
def lastDotSeg (s : String) : String :=
  ⟨(s.data.reverse.takeWhile (· ≠ '.')).reverse⟩

/-- `SQL_TYPES`, in the source's order. -/
def SQL_TYPES : List (Serializer × String) :=
  [(serializeBoolean, "INT"), (serializeInteger, "INT"),
   (serializeFloat, "FLOAT"), (serializeAngle, "FLOAT"),
   (serializeTimestamp, "DATETIME"), (serializeDuration, "FLOAT")]

/-- `get_sql_type`: first serializer whose `is_dedictable` accepts the
key's last path segment decides the column type. -/
def get_sql_type (key : String) (value : PyVal) : String :=
  match SQL_TYPES.find? (fun p => p.1.isDedictable (lastDotSeg key) value) with
  | some p => p.2
  | none => "VARCHAR"

/-- `_get_fields_for_item`. -/
def getFieldsForItem : PropL → List (String × String)
  | .nil => []
  | .cons k v rest => (k, get_sql_type k v) :: getFieldsForItem rest

/-- One stored row: column name → SQL literal.  A column missing from a
row (added after the row was inserted) reads as SQL `NULL`. -/
abbrev Row := List (String × SqlLit)

/-- The backing table of a `SqliteCollection`: the Python-side `_fields`
dict (`none` while the schema is unknown, i.e. before any `add`) and the
stored rows in insertion order. -/
structure Coll where
  fields : Option (List (String × String))
  rows : List Row
  deriving DecidableEq, Repr

/-- A collection that has never seen an item. -/
def emptyColl : Coll := { fields := none, rows := [] }

/-- Number of columns in the schema (`0` while unknown). -/
def schemaCount (c : Coll) : Nat :=
  match c.fields with
  | none => 0
  | some fs => fs.length

/-- The new-field loop of `add`: for each field of the item missing from
`_fields`, resolve a promotion conflict by renaming the parent column to
`parent.value` (an `ALTER TABLE ... RENAME COLUMN` onto an existing
column name is an sqlite `duplicate column name` error), then add the
column (`ALTER TABLE ... ADD COLUMN` of an existing name is likewise an
error; the Python-side `_fields` entry is written before the statement
runs, so it survives the raise).  On an error the loop stops where
Python's exception would leave the object. -/
def reconcileFields (fs : List (String × String)) (rows : List Row) :
    List (String × String) →
      List (String × String) × List Row × Option PyErr
  | [] => (fs, rows, none)
  | (fname, ftype) :: restNew =>
    if (alookup fs fname).isSome then reconcileFields fs rows restNew
    else
      match alookup fs (parentKey fname) with
      | some ptype =>
        let parent := parentKey fname
        if (alookup fs (parent ++ ".value")).isSome then
          (fs, rows, some .operationalError)
        else
          let fs' := adel (aupsert fs (parent ++ ".value") ptype) parent
          let rows' := rows.map (arename parent (parent ++ ".value"))
          let dup := (alookup fs' fname).isSome
          let fs'' := aupsert fs' fname ftype
          if dup then (fs'', rows', some .operationalError)
          else reconcileFields fs'' rows' restNew
      | none =>
        let dup := (alookup fs fname).isSome
        let fs' := aupsert fs fname ftype
        if dup then (fs', rows, some .operationalError)
        else reconcileFields fs' rows restNew

/-- The `INSERT` at the end of `add`: one literal per current column,
`item.get(field, None)`. -/
def insertRow (c : Coll) (item : PropL) : Coll × Option PyErr :=
  match c.fields with
  | none => (c, some .operationalError)
  | some fs =>
    let row : Row := fs.map (fun p => (p.1, sqlLiteral ((item.lookup p.1).getD .vnone)))
    ({ fields := c.fields, rows := c.rows ++ [row] }, none)

/-- `SqliteCollection.add`, taking the already-serialized flat item.
Returns the updated state and the exception Python would raise, if any
(`_create_table` writes `_fields` before executing `CREATE TABLE`, which
fails on an empty column list). -/
def addFlat (c : Coll) (item : PropL) : Coll × Option PyErr :=
  match c.fields with
  | none =>
    let fs := getFieldsForItem item
    if fs.isEmpty then ({ fields := some fs, rows := c.rows }, some .operationalError)
    else insertRow { fields := some fs, rows := c.rows } item
  | some fs =>
    match reconcileFields fs c.rows (getFieldsForItem item) with
    | (fs', rows', some e) => ({ fields := some fs', rows := rows' }, some e)
    | (fs', rows', none) => insertRow { fields := some fs', rows := rows' } item

/-- A derived view's deferred query exactly as `_create_view` records it:
a snapshot of the parent's columns and the constraints handed to
`_build_query`.  Nothing is evaluated until the view is iterated. -/
structure ViewDef where
  name : String
  columns : List String
  equalsConstraints : List (String × PyVal) := []
  inConstraints : List (String × List PyVal) := []
  rangeConstraints : List (String × (Option PyVal × Option PyVal)) := []
  sortKeys : List String := []
  limitCount : Option Int := none
  deriving DecidableEq, Repr

/-- A `SqliteCollection` object plus the sqlite objects it can touch on
the shared connection: its table, the temporary views, and the indexes
on the root table. -/
structure Store where
  table : Coll
  views : List ViewDef
  indexes : List String
  deriving DecidableEq, Repr

/-- What a query operation hands back: `create_collection()` (a brand
new, empty, unconnected collection) when the schema is unknown, else a
child collection backed by a fresh temporary view. -/
inductive QueryResult where
  | freshEmpty
  | view (v : ViewDef)
  deriving DecidableEq, Repr

/-- `_create_index`: a no-op while the schema is unknown; otherwise
`CREATE INDEX IF NOT EXISTS` on the root table. -/
def createIndex (s : Store) (field : String) : Store :=
  match s.table.fields with
  | none => s
  | some _ =>
    if s.indexes.contains field then s
    else { s with views := s.views, indexes := s.indexes ++ [field] }

/-- `_create_view`: `create_collection()` when the schema is unknown;
otherwise registers a fresh temporary view over the current columns (the
random 10-letter name is modelled by a counter-derived fresh name) and
returns the child collection bound to it. -/
def createView (s : Store)
    (equalsConstraints : List (String × PyVal))
    (inConstraints : List (String × List PyVal))
    (rangeConstraints : List (String × (Option PyVal × Option PyVal)))
    (sortKeys : List String) (limitCount : Option Int) :
    Store × QueryResult :=
  match s.table.fields with
  | none => (s, .freshEmpty)
  | some fs =>
    let v : ViewDef :=
      { name := "view" ++ toString s.views.length
        columns := fs.map Prod.fst
        equalsConstraints := equalsConstraints
        inConstraints := inConstraints
        rangeConstraints := rangeConstraints
        sortKeys := sortKeys
        limitCount := limitCount }
    ({ s with views := s.views ++ [v] }, .view v)

/-- `select_by_value`. -/
def selectByValue (s : Store) (constraints : List (String × PyVal)) :
    Store × QueryResult :=
  let s := constraints.foldl (fun st p => createIndex st p.1) s
  createView s constraints [] [] [] none

/-- `select_by_range`. -/
def selectByRange (s : Store)
    (constraints : List (String × (Option PyVal × Option PyVal))) :
    Store × QueryResult :=
  let s := constraints.foldl (fun st p => createIndex st p.1) s
  createView s [] [] constraints [] none

/-- `select_by_values`. -/
def selectByValues (s : Store) (constraints : List (String × List PyVal)) :
    Store × QueryResult :=
  let s := constraints.foldl (fun st p => createIndex st p.1) s
  createView s [] constraints [] [] none

/-- `limit`. -/
def limitColl (s : Store) (count : Int) : Store × QueryResult :=
  createView s [] [] [] [] (some count)

/-- `sort_by`: indexes only the keys present in `_fields`; the membership
test `field_name in self._fields` raises `TypeError` when `_fields` is
still `None` and at least one key is given. -/
def sortBy (s : Store) (keys : List String) : Store × Except PyErr QueryResult :=
  match s.table.fields with
  | none =>
    if keys.isEmpty then (s, .ok (createView s [] [] [] keys none).2)
    else (s, .error .typeError)
  | some fs =>
    let s := keys.foldl
      (fun st k => if (alookup fs k).isSome then createIndex st k else st) s
    let r := createView s [] [] [] keys none
    (r.1, .ok r.2)

/-- `__len__`. -/
def lenColl (s : Store) : Nat :=
  match s.table.fields with
  | none => 0
  | some _ => s.table.rows.length

/-- `__iter__` (for a table-backed collection: the stored rows in
insertion order; deserialization is the flattening engine above). -/
def iterColl (s : Store) : List Row :=
  match s.table.fields with
  | none => []
  | some _ => s.table.rows

/-- `get_unique_values`: the empty set while the schema is unknown; an
`AssertionError` if a requested field is not a column; otherwise the
distinct tuples of the requested columns. -/
def getUniqueValues (s : Store) (fieldNames : List String) :
    Store × Except PyErr (List (List (Option SqlLit))) :=
  match s.table.fields with
  | none => (s, .ok [])
  | some fs =>
    if fieldNames.all (fun f => (alookup fs f).isSome) then
      let s' := fieldNames.foldl createIndex s
      (s', .ok (dedupL (s.table.rows.map (fun r => fieldNames.map (alookup r)))))
    else (s, .error .assertionError)

/-! ## Tabular import (`_read_dictable_from_csv`) -/

/-- `dict(zip(header, row))`. -/
def zipToProp : List String → List PyVal → PropL
  | k :: ks, v :: vs => .cons k v (zipToProp ks vs)
  | _, _ => .nil

/-- The row loop of `_read_dictable_from_csv`: empty cells become
`None`, the flat dict is expanded, and then `record["id"]` is assigned
`f"{resource_name}:{rownum+2}"` (`rownum` counts data rows from 0, as
`enumerate` does after the header was consumed; the header is file
row 1). -/
def readCsvGo (resourceName : String) (header : List String) :
    Nat → List (List String) → Except PyErr (List PropL)
  | _, [] => .ok []
  | rownum, row :: rest => do
    let rowVals := row.map (fun v => if v = "" then PyVal.vnone else .str v)
    let record ← expandDict (zipToProp header rowVals)
    let tail ← readCsvGo resourceName header (rownum + 1) rest
    .ok (record.upsert "id"
      (.str (resourceName ++ ":" ++ toString (rownum + 2))) :: tail)

/-- `_read_dictable_from_csv`, from the already-split header and data
rows. -/
def readCsvRecords (resourceName : String) (header : List String)
    (rows : List (List String)) : Except PyErr (List PropL) :=
  readCsvGo resourceName header 0 rows

/-! ## Key hygiene

The round-trip results below hold for keys that do not already carry a
type-indicator suffix (and are not a bare type name): on those,
`add_type_indicator` appends the tag and the decoding scan strips exactly
it.  The counterexamples show the round trip genuinely fails outside this
domain. -/

/-- The `type_name`s of the eight `BasicDictionizerDedictionizer`s. -/
def typeNames : List String :=
  ["wgs84", "degrees", "timestamp", "timedelta", "cell", "geo", "int", "float"]

/-- A key that is no bare type name and carries no type-indicator
suffix. -/
def cleanKey (k : String) : Bool :=
  typeNames.all (fun tn => (k != tn) && !(pyEndsWith k ("_" ++ tn)))

/-- Two would-be suffixes of the same string are suffixes of one
another; so a tag that neither contains nor is contained in `t` is not a
suffix of `k ++ t`, whatever `k` is. -/
theorem pyEndsWith_append_false (k t t' : String)
    (h1 : ¬ t'.data <:+ t.data) (h2 : ¬ t.data <:+ t'.data) :
    pyEndsWith (k ++ t) t' = false := by
  cases h : pyEndsWith (k ++ t) t' with
  | false => rfl
  | true =>
    simp only [pyEndsWith] at h
    have hs : t'.data <:+ k.data ++ t.data := List.isSuffixOf_iff_suffix.mp h
    have ht : t.data <:+ k.data ++ t.data := List.suffix_append _ _
    rcases List.suffix_or_suffix_of_suffix hs ht with hh | hh
    · exact absurd hh h1
    · exact absurd hh h2

/-- `k ++ t` cannot equal a string that does not end in `t`. -/
theorem append_tag_ne (k t tn : String) (h : ¬ t.data <:+ tn.data) :
    (k ++ t) ≠ tn := by
  intro he
  apply h
  have hsuf : t.data <:+ (k ++ t).data := List.suffix_append _ _
  rwa [he] at hsuf

/-- A basic serializer with another type name rejects a tagged key. -/
theorem basicIsDedictable_append_false (tn' t k : String)
    (h1 : ¬ ("_" ++ tn').data <:+ t.data)
    (h2 : ¬ t.data <:+ ("_" ++ tn').data)
    (h3 : ¬ t.data <:+ tn'.data) :
    basicIsDedictable tn' (k ++ t) = false := by
  unfold basicIsDedictable
  rw [pyEndsWith_append_false k t ("_" ++ tn') h1 h2]
  simp [append_tag_ne k t tn' h3]

/-- A basic serializer accepts a key tagged with its own type name. -/
theorem basicIsDedictable_tagged_true (tn k : String) :
    basicIsDedictable tn (k ++ ("_" ++ tn)) = true := by
  unfold basicIsDedictable
  have : pyEndsWith (k ++ ("_" ++ tn)) ("_" ++ tn) = true := by
    simp only [pyEndsWith]
    exact List.isSuffixOf_iff_suffix.mpr (List.suffix_append _ _)
  rw [this]
  simp

/-- Stripping the tag it just added returns the original key. -/
theorem removeTypeIndicator_append (tn k : String) :
    removeTypeIndicator tn (k ++ ("_" ++ tn)) = k := by
  unfold removeTypeIndicator
  have hne : (k ++ ("_" ++ tn)) ≠ tn := by
    apply append_tag_ne
    intro hsuf
    have hle := hsuf.length_le
    have hdd : ("_" ++ tn).data = '_' :: tn.data := rfl
    rw [hdd] at hle
    simp only [List.length_cons] at hle
    omega
  rw [if_neg hne]
  unfold pyDropRight
  have hd : (k ++ ("_" ++ tn)).data = k.data ++ ('_' :: tn.data) := rfl
  rw [hd]
  have hl : (k.data ++ ('_' :: tn.data)).length - (tn.length + 1)
      = k.data.length := by
    simp only [List.length_append, List.length_cons]
    have : tn.length = tn.data.length := rfl
    omega
  rw [hl]
  have : (k.data ++ ('_' :: tn.data)).take k.data.length = k.data :=
    List.take_left _ _
  rw [this]

/-- On a clean key, `add_type_indicator` appends the tag. -/
theorem addTypeIndicator_clean (tn k : String) (hne : k ≠ tn)
    (hsuf : pyEndsWith k ("_" ++ tn) = false) :
    addTypeIndicator tn k = k ++ "_" ++ tn := by
  unfold addTypeIndicator
  simp [hne, hsuf]

/-- On a key tagged `_wgs84`, the decoding scan reaches exactly the wgs84 serializer. -/
theorem deserialize_tag_wgs84 (k : String) (v : PyVal) :
    deserializeProp CELL_MEASUREMENT_SERIALIZERS (k ++ "_" ++ "wgs84") v
      = serializeWgs84.fromDict (k ++ "_" ++ "wgs84") v := by
  rw [String.append_assoc]
  simp only [deserializeProp, CELL_MEASUREMENT_SERIALIZERS, serializeWgs84,
    serializeAngle, serializeTimestamp, serializeDuration, serializeCell,
    serializeLocationInfo, serializeInteger, serializeFloat]
  rw [basicIsDedictable_tagged_true "wgs84" k]
  simp

/-- On a key tagged `_degrees`, the decoding scan reaches exactly the degrees serializer. -/
theorem deserialize_tag_angle (k : String) (v : PyVal) :
    deserializeProp CELL_MEASUREMENT_SERIALIZERS (k ++ "_" ++ "degrees") v
      = serializeAngle.fromDict (k ++ "_" ++ "degrees") v := by
  rw [String.append_assoc]
  simp only [deserializeProp, CELL_MEASUREMENT_SERIALIZERS, serializeWgs84,
    serializeAngle, serializeTimestamp, serializeDuration, serializeCell,
    serializeLocationInfo, serializeInteger, serializeFloat]
  rw [basicIsDedictable_append_false "wgs84" ("_" ++ "degrees") k (by decide) (by decide) (by decide)]
  rw [basicIsDedictable_tagged_true "degrees" k]
  simp

/-- On a key tagged `_timestamp`, the decoding scan reaches exactly the timestamp serializer. -/
theorem deserialize_tag_timestamp (k : String) (v : PyVal) :
    deserializeProp CELL_MEASUREMENT_SERIALIZERS (k ++ "_" ++ "timestamp") v
      = serializeTimestamp.fromDict (k ++ "_" ++ "timestamp") v := by
  rw [String.append_assoc]
  simp only [deserializeProp, CELL_MEASUREMENT_SERIALIZERS, serializeWgs84,
    serializeAngle, serializeTimestamp, serializeDuration, serializeCell,
    serializeLocationInfo, serializeInteger, serializeFloat]
  rw [basicIsDedictable_append_false "wgs84" ("_" ++ "timestamp") k (by decide) (by decide) (by decide)]
  rw [basicIsDedictable_append_false "degrees" ("_" ++ "timestamp") k (by decide) (by decide) (by decide)]
  rw [basicIsDedictable_tagged_true "timestamp" k]
  simp

/-- On a key tagged `_timedelta`, the decoding scan reaches exactly the timedelta serializer. -/
theorem deserialize_tag_duration (k : String) (v : PyVal) :
    deserializeProp CELL_MEASUREMENT_SERIALIZERS (k ++ "_" ++ "timedelta") v
      = serializeDuration.fromDict (k ++ "_" ++ "timedelta") v := by
  rw [String.append_assoc]
  simp only [deserializeProp, CELL_MEASUREMENT_SERIALIZERS, serializeWgs84,
    serializeAngle, serializeTimestamp, serializeDuration, serializeCell,
    serializeLocationInfo, serializeInteger, serializeFloat]
  rw [basicIsDedictable_append_false "wgs84" ("_" ++ "timedelta") k (by decide) (by decide) (by decide)]
  rw [basicIsDedictable_append_false "degrees" ("_" ++ "timedelta") k (by decide) (by decide) (by decide)]
  rw [basicIsDedictable_append_false "timestamp" ("_" ++ "timedelta") k (by decide) (by decide) (by decide)]
  rw [basicIsDedictable_tagged_true "timedelta" k]
  simp

/-- On a key tagged `_cell`, the decoding scan reaches exactly the cell serializer. -/
theorem deserialize_tag_cell (k : String) (v : PyVal) :
    deserializeProp CELL_MEASUREMENT_SERIALIZERS (k ++ "_" ++ "cell") v
      = serializeCell.fromDict (k ++ "_" ++ "cell") v := by
  rw [String.append_assoc]
  simp only [deserializeProp, CELL_MEASUREMENT_SERIALIZERS, serializeWgs84,
    serializeAngle, serializeTimestamp, serializeDuration, serializeCell,
    serializeLocationInfo, serializeInteger, serializeFloat]
  rw [basicIsDedictable_append_false "wgs84" ("_" ++ "cell") k (by decide) (by decide) (by decide)]
  rw [basicIsDedictable_append_false "degrees" ("_" ++ "cell") k (by decide) (by decide) (by decide)]
  rw [basicIsDedictable_append_false "timestamp" ("_" ++ "cell") k (by decide) (by decide) (by decide)]
  rw [basicIsDedictable_append_false "timedelta" ("_" ++ "cell") k (by decide) (by decide) (by decide)]
  rw [basicIsDedictable_tagged_true "cell" k]
  simp

/-- On a key tagged `_geo`, the decoding scan reaches exactly the geo serializer. -/
theorem deserialize_tag_geo (k : String) (v : PyVal) :
    deserializeProp CELL_MEASUREMENT_SERIALIZERS (k ++ "_" ++ "geo") v
      = serializeLocationInfo.fromDict (k ++ "_" ++ "geo") v := by
  rw [String.append_assoc]
  simp only [deserializeProp, CELL_MEASUREMENT_SERIALIZERS, serializeWgs84,
    serializeAngle, serializeTimestamp, serializeDuration, serializeCell,
    serializeLocationInfo, serializeInteger, serializeFloat]
  rw [basicIsDedictable_append_false "wgs84" ("_" ++ "geo") k (by decide) (by decide) (by decide)]
  rw [basicIsDedictable_append_false "degrees" ("_" ++ "geo") k (by decide) (by decide) (by decide)]
  rw [basicIsDedictable_append_false "timestamp" ("_" ++ "geo") k (by decide) (by decide) (by decide)]
  rw [basicIsDedictable_append_false "timedelta" ("_" ++ "geo") k (by decide) (by decide) (by decide)]
  rw [basicIsDedictable_append_false "cell" ("_" ++ "geo") k (by decide) (by decide) (by decide)]
  rw [basicIsDedictable_tagged_true "geo" k]
  simp

/-- On a key tagged `_int`, the decoding scan reaches exactly the int serializer. -/
theorem deserialize_tag_int (k : String) (v : PyVal) :
    deserializeProp CELL_MEASUREMENT_SERIALIZERS (k ++ "_" ++ "int") v
      = serializeInteger.fromDict (k ++ "_" ++ "int") v := by
  rw [String.append_assoc]
  simp only [deserializeProp, CELL_MEASUREMENT_SERIALIZERS, serializeWgs84,
    serializeAngle, serializeTimestamp, serializeDuration, serializeCell,
    serializeLocationInfo, serializeInteger, serializeFloat]
  rw [basicIsDedictable_append_false "wgs84" ("_" ++ "int") k (by decide) (by decide) (by decide)]
  rw [basicIsDedictable_append_false "degrees" ("_" ++ "int") k (by decide) (by decide) (by decide)]
  rw [basicIsDedictable_append_false "timestamp" ("_" ++ "int") k (by decide) (by decide) (by decide)]
  rw [basicIsDedictable_append_false "timedelta" ("_" ++ "int") k (by decide) (by decide) (by decide)]
  rw [basicIsDedictable_append_false "cell" ("_" ++ "int") k (by decide) (by decide) (by decide)]
  rw [basicIsDedictable_append_false "geo" ("_" ++ "int") k (by decide) (by decide) (by decide)]
  rw [basicIsDedictable_tagged_true "int" k]
  simp

/-- On a key tagged `_float`, the decoding scan reaches exactly the float serializer. -/
theorem deserialize_tag_float (k : String) (v : PyVal) :
    deserializeProp CELL_MEASUREMENT_SERIALIZERS (k ++ "_" ++ "float") v
      = serializeFloat.fromDict (k ++ "_" ++ "float") v := by
  rw [String.append_assoc]
  simp only [deserializeProp, CELL_MEASUREMENT_SERIALIZERS, serializeWgs84,
    serializeAngle, serializeTimestamp, serializeDuration, serializeCell,
    serializeLocationInfo, serializeInteger, serializeFloat]
  rw [basicIsDedictable_append_false "wgs84" ("_" ++ "float") k (by decide) (by decide) (by decide)]
  rw [basicIsDedictable_append_false "degrees" ("_" ++ "float") k (by decide) (by decide) (by decide)]
  rw [basicIsDedictable_append_false "timestamp" ("_" ++ "float") k (by decide) (by decide) (by decide)]
  rw [basicIsDedictable_append_false "timedelta" ("_" ++ "float") k (by decide) (by decide) (by decide)]
  rw [basicIsDedictable_append_false "cell" ("_" ++ "float") k (by decide) (by decide) (by decide)]
  rw [basicIsDedictable_append_false "geo" ("_" ++ "float") k (by decide) (by decide) (by decide)]
  rw [basicIsDedictable_append_false "int" ("_" ++ "float") k (by decide) (by decide) (by decide)]
  rw [basicIsDedictable_tagged_true "float" k]
  simp

/-- On a clean `is_`/`has_` key, the decoding scan reaches the boolean
serializer. -/
theorem deserialize_clean_flag (k : String) (hc : cleanKey k = true)
    (hf : firstUnderscoreSeg k = "is" ∨ firstUnderscoreSeg k = "has")
    (v : PyVal) :
    deserializeProp CELL_MEASUREMENT_SERIALIZERS k v
      = serializeBoolean.fromDict k v := by
  simp only [cleanKey, typeNames, List.all_cons, List.all_nil, Bool.and_true,
    Bool.and_eq_true, bne_iff_ne, ne_eq, Bool.not_eq_true'] at hc
  obtain ⟨⟨h1, h1e⟩, ⟨h2, h2e⟩, ⟨h3, h3e⟩, ⟨h4, h4e⟩, ⟨h5, h5e⟩, ⟨h6, h6e⟩,
    ⟨h7, h7e⟩, ⟨h8, h8e⟩⟩ := hc
  simp only [deserializeProp, CELL_MEASUREMENT_SERIALIZERS, serializeWgs84,
    serializeAngle, serializeTimestamp, serializeDuration, serializeCell,
    serializeLocationInfo, serializeInteger, serializeFloat, serializeBoolean,
    basicIsDedictable]
  rcases hf with hf | hf <;> simp_all

/-- A clean key has the facts `addTypeIndicator_clean` needs, for each
type name. -/
theorem cleanKey_spec (k : String) (hc : cleanKey k = true) (tn : String)
    (htn : tn ∈ typeNames) :
    k ≠ tn ∧ pyEndsWith k ("_" ++ tn) = false := by
  simp only [cleanKey, List.all_eq_true, Bool.and_eq_true, bne_iff_ne, ne_eq,
    Bool.not_eq_true'] at hc
  exact ⟨(hc tn htn).1, (hc tn htn).2⟩


/-! ## Round trip at the property level (`decode(encode(k, v))`) -/

/-- Encoding picks the serializer by the value's runtime type; these are
definitional for every non-boolean codec. -/
theorem serialize_val_int (k : String) (n : Int) :
    serializeProp CELL_MEASUREMENT_SERIALIZERS [] k (.int n)
      = .ok (addTypeIndicator "int" k, .int n) := rfl

theorem serialize_val_float (k : String) (q : ℚ) :
    serializeProp CELL_MEASUREMENT_SERIALIZERS [] k (.float q)
      = .ok (addTypeIndicator "float" k, .float q) := rfl

theorem serialize_val_angle (k : String) (q : ℚ) :
    serializeProp CELL_MEASUREMENT_SERIALIZERS [] k (.angle q)
      = .ok (addTypeIndicator "degrees" k, .floatStr q) := rfl

theorem serialize_val_datetime (k : String) (us : Int) (tz : Option Int) :
    serializeProp CELL_MEASUREMENT_SERIALIZERS [] k (.datetime us tz)
      = .ok (addTypeIndicator "timestamp" k, .isoStr us tz) := rfl

theorem serialize_val_timedelta (k : String) (us : Int) :
    serializeProp CELL_MEASUREMENT_SERIALIZERS [] k (.timedelta us)
      = .ok (addTypeIndicator "timedelta" k, .floatStr ((us : ℚ) / 1000000)) := rfl

theorem serialize_val_point (k : String) (lon lat : ℚ) :
    serializeProp CELL_MEASUREMENT_SERIALIZERS [] k (.point lon lat)
      = .ok (addTypeIndicator "wgs84" k,
          .dict (.cons "lat" (.float lat) (.cons "lon" (.float lon) .nil))) := rfl

theorem serialize_val_cell (k : String) (c : CellIdentity) :
    serializeProp CELL_MEASUREMENT_SERIALIZERS [] k (.cell c)
      = .ok (addTypeIndicator "cell" k,
          .dict (.cons "radio"
            (match CellIdentity.radio c with | some r => .str r | none => .vnone)
            (.cons "identifier" (.cellUid (CellIdentity.uidComps c)) .nil))) := rfl

theorem serialize_val_geo (k : String) (m : PropL) :
    serializeProp CELL_MEASUREMENT_SERIALIZERS [] k (.geo m)
      = .ok (addTypeIndicator "geo" k, .geo m) := rfl

/-- A boolean is claimed only by the boolean serializer, and only on an
`is_`/`has_` key; the pair passes through unchanged. -/
theorem serialize_val_bool (k : String)
    (hf : firstUnderscoreSeg k = "is" ∨ firstUnderscoreSeg k = "has")
    (b : Bool) :
    serializeProp CELL_MEASUREMENT_SERIALIZERS [] k (.bool b)
      = .ok (k, .bool b) := by
  rcases hf with hf | hf <;>
    simp [serializeProp, CELL_MEASUREMENT_SERIALIZERS, serializeWgs84,
      serializeAngle, serializeTimestamp, serializeDuration, serializeCell,
      serializeLocationInfo, serializeInteger, serializeFloat,
      serializeBoolean, hf]

/-- `decode(encode(k, v))` with the full registry and no blacklist. -/
def roundTripProp (k : String) (v : PyVal) : Except PyErr (String × PyVal) :=
  match serializeProp CELL_MEASUREMENT_SERIALIZERS [] k v with
  | .error e => .error e
  | .ok (k2, v2) => deserializeProp CELL_MEASUREMENT_SERIALIZERS k2 v2

theorem roundTrip_int (k : String) (hne : k ≠ "int")
    (hsuf : pyEndsWith k ("_" ++ "int") = false) (n : Int) :
    roundTripProp k (.int n) = .ok (k, .int n) := by
  unfold roundTripProp
  rw [serialize_val_int, addTypeIndicator_clean "int" k hne hsuf]
  show deserializeProp CELL_MEASUREMENT_SERIALIZERS (k ++ "_" ++ "int")
    (PyVal.int n) = Except.ok (k, PyVal.int n)
  rw [deserialize_tag_int]
  simp only [serializeInteger, pyIntFn]
  rw [String.append_assoc, removeTypeIndicator_append]
  rfl

theorem roundTrip_float (k : String) (hne : k ≠ "float")
    (hsuf : pyEndsWith k ("_" ++ "float") = false) (q : ℚ) :
    roundTripProp k (.float q) = .ok (k, .float q) := by
  unfold roundTripProp
  rw [serialize_val_float, addTypeIndicator_clean "float" k hne hsuf]
  show deserializeProp CELL_MEASUREMENT_SERIALIZERS (k ++ "_" ++ "float")
    (PyVal.float q) = Except.ok (k, PyVal.float q)
  rw [deserialize_tag_float]
  simp only [serializeFloat, pyFloatFn]
  rw [String.append_assoc, removeTypeIndicator_append]
  rfl

theorem roundTrip_angle (k : String) (hne : k ≠ "degrees")
    (hsuf : pyEndsWith k ("_" ++ "degrees") = false) (q : ℚ) :
    roundTripProp k (.angle q) = .ok (k, .angle q) := by
  unfold roundTripProp
  rw [serialize_val_angle, addTypeIndicator_clean "degrees" k hne hsuf]
  show deserializeProp CELL_MEASUREMENT_SERIALIZERS (k ++ "_" ++ "degrees")
    (PyVal.floatStr q) = Except.ok (k, PyVal.angle q)
  rw [deserialize_tag_angle]
  simp only [serializeAngle, pyFloatFn]
  rw [String.append_assoc, removeTypeIndicator_append]
  rfl

theorem roundTrip_datetime (k : String) (hne : k ≠ "timestamp")
    (hsuf : pyEndsWith k ("_" ++ "timestamp") = false) (us : Int)
    (tz : Option Int) :
    roundTripProp k (.datetime us tz) = .ok (k, .datetime us tz) := by
  unfold roundTripProp
  rw [serialize_val_datetime, addTypeIndicator_clean "timestamp" k hne hsuf]
  show deserializeProp CELL_MEASUREMENT_SERIALIZERS (k ++ "_" ++ "timestamp")
    (PyVal.isoStr us tz) = Except.ok (k, PyVal.datetime us tz)
  rw [deserialize_tag_timestamp]
  simp only [serializeTimestamp]
  rw [String.append_assoc, removeTypeIndicator_append]

/-- The duration payload is exact: `total_seconds` is `us / 10^6` and
re-scaling recovers the microseconds with no rounding. -/
theorem roundTrip_timedelta (k : String) (hne : k ≠ "timedelta")
    (hsuf : pyEndsWith k ("_" ++ "timedelta") = false) (us : Int) :
    roundTripProp k (.timedelta us) = .ok (k, .timedelta us) := by
  unfold roundTripProp
  rw [serialize_val_timedelta, addTypeIndicator_clean "timedelta" k hne hsuf]
  show deserializeProp CELL_MEASUREMENT_SERIALIZERS (k ++ "_" ++ "timedelta")
    (PyVal.floatStr ((us : ℚ) / 1000000)) = Except.ok (k, PyVal.timedelta us)
  rw [deserialize_tag_duration]
  simp only [serializeDuration, pyFloatFn]
  rw [String.append_assoc, removeTypeIndicator_append]
  show Except.ok (k, PyVal.timedelta (pyRoundHalfEven ((us : ℚ) / 1000000 * 1000000)))
    = Except.ok (k, PyVal.timedelta us)
  have hq : ((us : ℚ) / 1000000) * 1000000 = (us : ℚ) := by
    field_simp
  rw [hq]
  have hr : pyRoundHalfEven ((us : ℚ)) = us := by
    unfold pyRoundHalfEven
    norm_num
  rw [hr]

theorem roundTrip_point (k : String) (hne : k ≠ "wgs84")
    (hsuf : pyEndsWith k ("_" ++ "wgs84") = false) (lon lat : ℚ)
    (h1 : -90 ≤ lat) (h2 : lat ≤ 90) (h3 : -180 ≤ lon) (h4 : lon ≤ 180) :
    roundTripProp k (.point lon lat) = .ok (k, .point lon lat) := by
  unfold roundTripProp
  rw [serialize_val_point, addTypeIndicator_clean "wgs84" k hne hsuf]
  show deserializeProp CELL_MEASUREMENT_SERIALIZERS (k ++ "_" ++ "wgs84")
      (.dict (.cons "lat" (.float lat) (.cons "lon" (.float lon) .nil)))
    = Except.ok (k, PyVal.point lon lat)
  rw [deserialize_tag_wgs84]
  simp only [serializeWgs84, PropL.lookup]
  rw [String.append_assoc, removeTypeIndicator_append]
  show (do
      let la ← pyFloatFn (.float lat)
      let lo ← pyFloatFn (.float lon)
      let p ← mkWgsPoint lo la
      Except.ok (k, p)) = Except.ok (k, PyVal.point lon lat)
  show (do
      let p ← mkWgsPoint lon lat
      Except.ok (k, p)) = Except.ok (k, PyVal.point lon lat)
  unfold mkWgsPoint
  rw [if_pos ⟨⟨h1, h2⟩, h3, h4⟩]
  rfl

theorem roundTrip_geo (k : String) (hne : k ≠ "geo")
    (hsuf : pyEndsWith k ("_" ++ "geo") = false) (m : PropL) :
    roundTripProp k (.geo m) = .ok (k, .geo m) := by
  unfold roundTripProp
  rw [serialize_val_geo, addTypeIndicator_clean "geo" k hne hsuf]
  show deserializeProp CELL_MEASUREMENT_SERIALIZERS (k ++ "_" ++ "geo")
    (PyVal.geo m) = Except.ok (k, PyVal.geo m)
  rw [deserialize_tag_geo]
  simp only [serializeLocationInfo]
  rw [String.append_assoc, removeTypeIndicator_append]

theorem roundTrip_bool (k : String) (hc : cleanKey k = true)
    (hf : firstUnderscoreSeg k = "is" ∨ firstUnderscoreSeg k = "has")
    (b : Bool) :
    roundTripProp k (.bool b) = .ok (k, .bool b) := by
  unfold roundTripProp
  rw [serialize_val_bool k hf b]
  show deserializeProp CELL_MEASUREMENT_SERIALIZERS k (PyVal.bool b)
    = Except.ok (k, PyVal.bool b)
  rw [deserialize_clean_flag k hc hf]
  rfl


/-- `int()` of a rendered positive field recovers it. -/
theorem pyIntOfUidComp_pos (n : Int) (h : 0 < n) :
    CellIdentity.pyIntOfUidComp (CellIdentity.uidComp (some n)) = .ok n := by
  have h1 : ¬ n = 0 := by omega
  have h2 : ¬ n < 0 := by omega
  simp [CellIdentity.uidComp, CellIdentity.pyIntOfUidComp, h1, h2]

/-- A complete, positive-field cell identifier parses back to an equal
value (`decode(encode)` for the cell serializer). -/
theorem roundTrip_cell (k : String) (hne : k ≠ "cell")
    (hsuf : pyEndsWith k ("_" ++ "cell") = false) (c : CellIdentity)
    (hok : CellIdentity.cellOK c = true) :
    roundTripProp k (.cell c) = .ok (k, .cell c) := by
  unfold roundTripProp
  rw [serialize_val_cell, addTypeIndicator_clean "cell" k hne hsuf]
  show deserializeProp CELL_MEASUREMENT_SERIALIZERS (k ++ "_" ++ "cell")
      (.dict (.cons "radio"
        (match CellIdentity.radio c with | some r => .str r | none => .vnone)
        (.cons "identifier" (.cellUid (CellIdentity.uidComps c)) .nil)))
    = Except.ok (k, .cell c)
  rw [deserialize_tag_cell]
  rw [String.append_assoc]
  cases c with
  | plain mcc mnc =>
    match mcc, mnc with
    | some m, some n =>
      simp only [CellIdentity.cellOK, CellIdentity.cellOK.posF,
        Bool.and_eq_true, decide_eq_true_eq] at hok
      obtain ⟨hm, hn⟩ := hok
      simp only [serializeCell, CellIdentity.radio, CellIdentity.uidComps,
        PropL.lookup, removeTypeIndicator_append]
      simp [List.mapM, List.mapM.loop, Bind.bind, Except.instMonad, Except.bind, Pure.pure, Except.pure, pyIntOfUidComp_pos _ hm,
        pyIntOfUidComp_pos _ hn, parseCellElems, CellIdentity.create]
    | none, _ => simp [CellIdentity.cellOK, CellIdentity.cellOK.posF] at hok
    | some _, none => simp [CellIdentity.cellOK, CellIdentity.cellOK.posF] at hok
  | cgi mcc mnc lac ci =>
    match mcc, mnc, lac, ci with
    | some m, some n, some l, some ci =>
      simp only [CellIdentity.cellOK, CellIdentity.cellOK.posF,
        Bool.and_eq_true, decide_eq_true_eq] at hok
      obtain ⟨⟨⟨hm, hn⟩, hl⟩, hci⟩ := hok
      simp only [serializeCell, CellIdentity.radio, CellIdentity.uidComps,
        PropL.lookup, removeTypeIndicator_append]
      simp [List.mapM, List.mapM.loop, Bind.bind, Except.instMonad, Except.bind, Pure.pure, Except.pure, pyIntOfUidComp_pos _ hm,
        pyIntOfUidComp_pos _ hn, pyIntOfUidComp_pos _ hl,
        pyIntOfUidComp_pos _ hci, parseCellElems, CellIdentity.create]
    | none, _, _, _ => simp [CellIdentity.cellOK, CellIdentity.cellOK.posF] at hok
    | some _, none, _, _ => simp [CellIdentity.cellOK, CellIdentity.cellOK.posF] at hok
    | some _, some _, none, _ => simp [CellIdentity.cellOK, CellIdentity.cellOK.posF] at hok
    | some _, some _, some _, none => simp [CellIdentity.cellOK, CellIdentity.cellOK.posF] at hok
  | gsm mcc mnc lac ci =>
    match mcc, mnc, lac, ci with
    | some m, some n, some l, some ci =>
      simp only [CellIdentity.cellOK, CellIdentity.cellOK.posF,
        Bool.and_eq_true, decide_eq_true_eq] at hok
      obtain ⟨⟨⟨hm, hn⟩, hl⟩, hci⟩ := hok
      simp only [serializeCell, CellIdentity.radio, CellIdentity.uidComps,
        PropL.lookup, removeTypeIndicator_append]
      simp [List.mapM, List.mapM.loop, Bind.bind, Except.instMonad, Except.bind, Pure.pure, Except.pure, pyIntOfUidComp_pos _ hm,
        pyIntOfUidComp_pos _ hn, pyIntOfUidComp_pos _ hl,
        pyIntOfUidComp_pos _ hci, parseCellElems, CellIdentity.create,
        show CellIdentity.radioTr (CellIdentity.pyUpper "GSM") = "GSM" from by decide]
    | none, _, _, _ => simp [CellIdentity.cellOK, CellIdentity.cellOK.posF] at hok
    | some _, none, _, _ => simp [CellIdentity.cellOK, CellIdentity.cellOK.posF] at hok
    | some _, some _, none, _ => simp [CellIdentity.cellOK, CellIdentity.cellOK.posF] at hok
    | some _, some _, some _, none => simp [CellIdentity.cellOK, CellIdentity.cellOK.posF] at hok
  | umts mcc mnc lac ci =>
    match mcc, mnc, lac, ci with
    | some m, some n, some l, some ci =>
      simp only [CellIdentity.cellOK, CellIdentity.cellOK.posF,
        Bool.and_eq_true, decide_eq_true_eq] at hok
      obtain ⟨⟨⟨hm, hn⟩, hl⟩, hci, hci16⟩ := hok
      simp only [serializeCell, CellIdentity.radio, CellIdentity.uidComps,
        PropL.lookup, removeTypeIndicator_append]
      have hmod : ci % 65536 = ci := Int.emod_eq_of_lt (by omega) (by omega)
      simp [List.mapM, List.mapM.loop, Bind.bind, Except.instMonad, Except.bind, Pure.pure, Except.pure, pyIntOfUidComp_pos _ hm,
        pyIntOfUidComp_pos _ hn, pyIntOfUidComp_pos _ hl,
        pyIntOfUidComp_pos _ hci, parseCellElems, CellIdentity.create,
        CellIdentity.mkUMTS, hmod,
        show CellIdentity.radioTr (CellIdentity.pyUpper "UMTS") = "UMTS" from by decide]
    | none, _, _, _ => simp [CellIdentity.cellOK, CellIdentity.cellOK.posF] at hok
    | some _, none, _, _ => simp [CellIdentity.cellOK, CellIdentity.cellOK.posF] at hok
    | some _, some _, none, _ => simp [CellIdentity.cellOK, CellIdentity.cellOK.posF] at hok
    | some _, some _, some _, none => simp [CellIdentity.cellOK, CellIdentity.cellOK.posF] at hok
  | ecgi mcc mnc eci => simp [CellIdentity.cellOK] at hok
  | lte mcc mnc eci =>
    match mcc, mnc, eci with
    | some m, some n, some e =>
      simp only [CellIdentity.cellOK, CellIdentity.cellOK.posF,
        Bool.and_eq_true, decide_eq_true_eq] at hok
      obtain ⟨⟨hm, hn⟩, he⟩ := hok
      simp only [serializeCell, CellIdentity.radio, CellIdentity.uidComps,
        PropL.lookup, removeTypeIndicator_append]
      simp [List.mapM, List.mapM.loop, Bind.bind, Except.instMonad, Except.bind, Pure.pure, Except.pure, pyIntOfUidComp_pos _ hm,
        pyIntOfUidComp_pos _ hn, pyIntOfUidComp_pos _ he, parseCellElems,
        CellIdentity.create,
        show CellIdentity.radioTr (CellIdentity.pyUpper "LTE") = "LTE" from by decide]
    | none, _, _ => simp [CellIdentity.cellOK, CellIdentity.cellOK.posF] at hok
    | some _, none, _ => simp [CellIdentity.cellOK, CellIdentity.cellOK.posF] at hok
    | some _, some _, none => simp [CellIdentity.cellOK, CellIdentity.cellOK.posF] at hok
  | nr mcc mnc eci => simp [CellIdentity.cellOK] at hok


/-! ## Pass-through behaviour of the encoder (strings, dicts, `None`,
and the fallback assertion) -/

/-- A plain string passes through the encoder unchanged under any key:
no typed serializer claims it, and the boolean serializer's `to_dict` is
the identity. -/
theorem serialize_val_str (k : String) (t : String) :
    serializeProp CELL_MEASUREMENT_SERIALIZERS [] k (.str t)
      = .ok (k, .str t) := by
  by_cases h1 : firstUnderscoreSeg k = "is" <;>
    by_cases h2 : firstUnderscoreSeg k = "has" <;>
      simp [serializeProp, CELL_MEASUREMENT_SERIALIZERS, serializeWgs84,
        serializeAngle, serializeTimestamp, serializeDuration, serializeCell,
        serializeLocationInfo, serializeInteger, serializeFloat,
        serializeBoolean, h1, h2]

/-- A nested plain map passes through the encoder unchanged under any
key. -/
theorem serialize_val_dict (k : String) (m : PropL) :
    serializeProp CELL_MEASUREMENT_SERIALIZERS [] k (.dict m)
      = .ok (k, .dict m) := by
  by_cases h1 : firstUnderscoreSeg k = "is" <;>
    by_cases h2 : firstUnderscoreSeg k = "has" <;>
      simp [serializeProp, CELL_MEASUREMENT_SERIALIZERS, serializeWgs84,
        serializeAngle, serializeTimestamp, serializeDuration, serializeCell,
        serializeLocationInfo, serializeInteger, serializeFloat,
        serializeBoolean, h1, h2]

/-- `None` passes through the encoder unchanged under any key. -/
theorem serialize_val_vnone (k : String) :
    serializeProp CELL_MEASUREMENT_SERIALIZERS [] k .vnone
      = .ok (k, .vnone) := by
  by_cases h1 : firstUnderscoreSeg k = "is" <;>
    by_cases h2 : firstUnderscoreSeg k = "has" <;>
      simp [serializeProp, CELL_MEASUREMENT_SERIALIZERS, serializeWgs84,
        serializeAngle, serializeTimestamp, serializeDuration, serializeCell,
        serializeLocationInfo, serializeInteger, serializeFloat,
        serializeBoolean, h1, h2]

/-- A boolean under a key without the `is_`/`has_` prefix reaches the
fallback, whose assertion rejects it (`AssertionError`). -/
theorem serialize_val_bool_noflag (k : String)
    (h1 : firstUnderscoreSeg k ≠ "is") (h2 : firstUnderscoreSeg k ≠ "has")
    (b : Bool) :
    serializeProp CELL_MEASUREMENT_SERIALIZERS [] k (.bool b)
      = .error .assertionError := by
  simp [serializeProp, CELL_MEASUREMENT_SERIALIZERS, serializeWgs84,
    serializeAngle, serializeTimestamp, serializeDuration, serializeCell,
    serializeLocationInfo, serializeInteger, serializeFloat,
    serializeBoolean, h1, h2]

/-! ## Claim C1 -/

/-- C1, counterexample.  The claim "`decode(encode(k, v)) == (k, v)` for
every supported leaf type and **every key k**" is false: (1) a key that
already ends in a type-indicator suffix comes back renamed — encoding
`("foo_int", 5)` keeps the key `"foo_int"`, and decoding strips the
suffix, returning key `"foo"`; (2) a cell identifier with absent fields
renders them as `'?'`, and decoding raises `ValueError` from `int('?')`
instead of returning the pair. -/
theorem C1_roundtrip_counterexample :
    (roundTripProp "foo_int" (.int 5) = .ok ("foo", .int 5) ∧
      ("foo" : String) ≠ "foo_int") ∧
    roundTripProp "x" (.cell (.plain none none)) = .error .valueError :=
  ⟨⟨by decide, by decide⟩, by decide⟩

/-- C1 (amended): `decode(encode(k, v)) == (k, v)` holds for every
supported leaf type and value — boolean-flagged booleans, integers,
floats, angles, timestamps, durations, geo points (within their class's
coordinate ranges), complete cell identifiers with positive fields (not
the radio-less eCGI/NR classes), and property bags — for every key `k`
that carries no type-indicator suffix and is not a bare type name (and,
for booleans, is `is_`/`has_`-flagged).  Equality is exact: bit-exact
payloads for numerics, identical microseconds/offset for timestamps and
durations, identical degrees for angles. -/
theorem C1_roundtrip (k : String) (hc : cleanKey k = true) :
    (∀ n : Int, roundTripProp k (.int n) = .ok (k, .int n)) ∧
    (∀ q : ℚ, roundTripProp k (.float q) = .ok (k, .float q)) ∧
    (∀ q : ℚ, roundTripProp k (.angle q) = .ok (k, .angle q)) ∧
    (∀ (us : Int) (tz : Option Int),
      roundTripProp k (.datetime us tz) = .ok (k, .datetime us tz)) ∧
    (∀ us : Int, roundTripProp k (.timedelta us) = .ok (k, .timedelta us)) ∧
    (∀ lon lat : ℚ, -90 ≤ lat → lat ≤ 90 → -180 ≤ lon → lon ≤ 180 →
      roundTripProp k (.point lon lat) = .ok (k, .point lon lat)) ∧
    (∀ c : CellIdentity, CellIdentity.cellOK c = true →
      roundTripProp k (.cell c) = .ok (k, .cell c)) ∧
    (∀ m : PropL, roundTripProp k (.geo m) = .ok (k, .geo m)) ∧
    (∀ b : Bool,
      firstUnderscoreSeg k = "is" ∨ firstUnderscoreSeg k = "has" →
      roundTripProp k (.bool b) = .ok (k, .bool b)) := by
  refine ⟨fun n => ?_, fun q => ?_, fun q => ?_, fun us tz => ?_,
    fun us => ?_, fun lon lat h1 h2 h3 h4 => ?_, fun c hok => ?_,
    fun m => ?_, fun b hf => ?_⟩
  · obtain ⟨hne, hsuf⟩ := cleanKey_spec k hc "int" (by decide)
    exact roundTrip_int k hne hsuf n
  · obtain ⟨hne, hsuf⟩ := cleanKey_spec k hc "float" (by decide)
    exact roundTrip_float k hne hsuf q
  · obtain ⟨hne, hsuf⟩ := cleanKey_spec k hc "degrees" (by decide)
    exact roundTrip_angle k hne hsuf q
  · obtain ⟨hne, hsuf⟩ := cleanKey_spec k hc "timestamp" (by decide)
    exact roundTrip_datetime k hne hsuf us tz
  · obtain ⟨hne, hsuf⟩ := cleanKey_spec k hc "timedelta" (by decide)
    exact roundTrip_timedelta k hne hsuf us
  · obtain ⟨hne, hsuf⟩ := cleanKey_spec k hc "wgs84" (by decide)
    exact roundTrip_point k hne hsuf lon lat h1 h2 h3 h4
  · obtain ⟨hne, hsuf⟩ := cleanKey_spec k hc "cell" (by decide)
    exact roundTrip_cell k hne hsuf c hok
  · obtain ⟨hne, hsuf⟩ := cleanKey_spec k hc "geo" (by decide)
    exact roundTrip_geo k hne hsuf m
  · exact roundTrip_bool k hc hf b

/-- C1, witness: the amended round trip at concrete clean keys, an
integer, a GSM cell and a flagged boolean. -/
theorem C1_roundtrip_witness :
    roundTripProp "height" (.int 7) = .ok ("height", .int 7) ∧
    roundTripProp "antenna" (.cell (.gsm (some 204) (some 16) (some 2) (some 3)))
      = .ok ("antenna", .cell (.gsm (some 204) (some 16) (some 2) (some 3))) ∧
    roundTripProp "is_active" (.bool true) = .ok ("is_active", .bool true) := by
  refine ⟨(C1_roundtrip "height" (by decide)).1 7, ?_, ?_⟩
  · exact (C1_roundtrip "antenna" (by decide)).2.2.2.2.2.2.1 _ (by decide)
  · exact (C1_roundtrip "is_active" (by decide)).2.2.2.2.2.2.2.2 true
      (by decide)

/-! ## Claim C4 -/

/-- C4, counterexample.  The claim puts the boolean-flagged codec first,
so that "for every value stored under a key prefixed `is_`/`has_`, the
boolean codec is the codec selected".  In the code the boolean serializer
is **last**: encoding `("is_count", 5)` selects the integer serializer,
which tags the key (`"is_count_int"`), while the boolean codec would
have left the key unchanged. -/
theorem C4_priority_counterexample :
    serializeProp CELL_MEASUREMENT_SERIALIZERS [] "is_count" (.int 5)
      = .ok ("is_count_int", .int 5) ∧
    ("is_count_int" : String) ≠ "is_count" :=
  ⟨by decide, by decide⟩

/-- C4 (amended): encoding scans the fixed registry order `wgs84, angle,
timestamp, duration, cell, location-info, integer, float, boolean` and
the first matching codec wins; the boolean codec, being last, is
selected for an `is_`/`has_`-flagged key only when no earlier codec
matches the value — in particular it is selected for every *boolean*
value under such a key, while an integer under such a key goes to the
integer codec. -/
theorem C4_priority (k : String)
    (hf : firstUnderscoreSeg k = "is" ∨ firstUnderscoreSeg k = "has") :
    (∀ b : Bool, serializeProp CELL_MEASUREMENT_SERIALIZERS [] k (.bool b)
      = .ok (k, .bool b)) ∧
    (∀ n : Int, cleanKey k = true →
      serializeProp CELL_MEASUREMENT_SERIALIZERS [] k (.int n)
        = .ok (k ++ "_" ++ "int", .int n)) := by
  refine ⟨fun b => serialize_val_bool k hf b, fun n hc => ?_⟩
  obtain ⟨hne, hsuf⟩ := cleanKey_spec k hc "int" (by decide)
  rw [serialize_val_int, addTypeIndicator_clean "int" k hne hsuf]

/-- C4, witness: at the key `"is_count"`. -/
theorem C4_priority_witness :
    serializeProp CELL_MEASUREMENT_SERIALIZERS [] "is_count" (.bool true)
      = .ok ("is_count", .bool true) ∧
    serializeProp CELL_MEASUREMENT_SERIALIZERS [] "is_count" (.int 5)
      = .ok ("is_count" ++ "_" ++ "int", .int 5) :=
  ⟨(C4_priority "is_count" (by decide)).1 true,
    (C4_priority "is_count" (by decide)).2 5 (by decide)⟩

/-! ## Claim C5 -/

/-- C5, counterexample.  The claim says a value no codec recognizes
passes through by identity when it "is already a primitive (string,
number, boolean, null)".  A boolean under a non-flagged key is such a
value, yet the fallback's assertion rejects it (an `AssertionError`, not
the typed `UnsupportedValueType` the spec names). -/
theorem C5_fallback_counterexample :
    serializeProp CELL_MEASUREMENT_SERIALIZERS [] "x" (.bool true)
      = .error .assertionError :=
  by decide

/-- C5 (amended): the fallback passes through only `None`, strings and
dicts; a boolean under a non-flagged key — although a primitive — is
rejected with an `AssertionError` (the code has no `UnsupportedValueType`
type).  No value is ever silently stringified. -/
theorem C5_fallback (k : String) :
    (∀ t : String, serializeProp CELL_MEASUREMENT_SERIALIZERS [] k (.str t)
      = .ok (k, .str t)) ∧
    (∀ m : PropL, serializeProp CELL_MEASUREMENT_SERIALIZERS [] k (.dict m)
      = .ok (k, .dict m)) ∧
    (serializeProp CELL_MEASUREMENT_SERIALIZERS [] k .vnone
      = .ok (k, .vnone)) ∧
    (∀ b : Bool, firstUnderscoreSeg k ≠ "is" → firstUnderscoreSeg k ≠ "has" →
      serializeProp CELL_MEASUREMENT_SERIALIZERS [] k (.bool b)
        = .error .assertionError) :=
  ⟨fun t => serialize_val_str k t, fun m => serialize_val_dict k m,
    serialize_val_vnone k, fun b h1 h2 => serialize_val_bool_noflag k h1 h2 b⟩

/-- C5, witness. -/
theorem C5_fallback_witness :
    serializeProp CELL_MEASUREMENT_SERIALIZERS [] "note" (.str "hello")
      = .ok ("note", .str "hello") ∧
    serializeProp CELL_MEASUREMENT_SERIALIZERS [] "note" (.bool false)
      = .error .assertionError :=
  ⟨(C5_fallback "note").1 "hello",
    (C5_fallback "note").2.2.2 false (by decide) (by decide)⟩


/-! ## Association-list lemmas -/

/-- A key is absent iff `alookup` misses. -/
theorem alookup_eq_none_iff {α : Type} (l : List (String × α)) (k : String) :
    alookup l k = none ↔ k ∉ l.map Prod.fst := by
  induction l with
  | nil => simp [alookup]
  | cons p rest ih =>
    by_cases hk : p.1 = k
    · simp [alookup, hk]
    · simp only [alookup, if_neg hk, List.map_cons, List.mem_cons, ih]
      constructor
      · rintro h (he | hm)
        · exact hk he.symm
        · exact h hm
      · intro h hm
        exact h (Or.inr hm)

/-- Assigning a fresh key appends. -/
theorem aupsert_of_none {α : Type} (l : List (String × α)) (k : String)
    (v : α) (h : alookup l k = none) : aupsert l k v = l ++ [(k, v)] := by
  induction l with
  | nil => rfl
  | cons p rest ih =>
    simp only [alookup] at h
    by_cases hk : p.1 = k
    · simp [hk] at h
    · simp only [aupsert, if_neg hk, List.cons_append, List.cons.injEq, true_and]
      exact ih (by simpa [hk] using h)

/-- Updating a present key keeps the key list. -/
theorem aupsert_keys_of_some {α : Type} (l : List (String × α)) (k : String)
    (v : α) (h : (alookup l k).isSome) :
    (aupsert l k v).map Prod.fst = l.map Prod.fst := by
  induction l with
  | nil => simp [alookup] at h
  | cons p rest ih =>
    simp only [alookup] at h
    by_cases hk : p.1 = k
    · simp [aupsert, hk]
    · simp only [aupsert, if_neg hk, List.map_cons, List.cons.injEq, true_and]
      exact ih (by simpa [hk] using h)

/-- `aupsert` never shrinks the list. -/
theorem length_aupsert_ge {α : Type} (l : List (String × α)) (k : String)
    (v : α) : l.length ≤ (aupsert l k v).length := by
  induction l with
  | nil => simp [aupsert]
  | cons p rest ih =>
    simp only [aupsert]
    split <;> simp only [List.length_cons] <;> omega

/-- `aupsert` preserves key-nodup. -/
theorem nodup_aupsert {α : Type} (l : List (String × α)) (k : String)
    (v : α) (hnd : (l.map Prod.fst).Nodup) :
    ((aupsert l k v).map Prod.fst).Nodup := by
  cases h : alookup l k with
  | none =>
    rw [aupsert_of_none l k v h]
    simp only [List.map_append, List.map_cons, List.map_nil]
    apply List.Nodup.append hnd (List.nodup_singleton _)
    intro a ha hb
    simp only [List.mem_singleton] at hb
    subst hb
    exact (alookup_eq_none_iff l a).mp h ha
  | some w =>
    rw [aupsert_keys_of_some l k v (by simp [h])]
    exact hnd

/-- The keys of `adel` are the keys with `k` filtered out. -/
theorem adel_keys {α : Type} (l : List (String × α)) (k : String) :
    (adel l k).map Prod.fst = (l.map Prod.fst).filter (fun x => x ≠ k) := by
  simp only [adel, ne_eq, decide_not]
  induction l with
  | nil => rfl
  | cons p rest ih =>
    by_cases hk : p.1 = k
    · simp [List.filter_cons, hk, ih]
    · simp [List.filter_cons, hk, ih]

/-- Filtering one occurrence out of a duplicate-free list shrinks it by
exactly one. -/
theorem length_filter_ne_of_nodup (l : List String) (k : String)
    (hnd : l.Nodup) (hk : k ∈ l) :
    (l.filter (fun x => x ≠ k)).length = l.length - 1 := by
  simp only [ne_eq, decide_not]
  induction l with
  | nil => cases hk
  | cons a rest ih =>
    have hnd' := List.nodup_cons.mp hnd
    by_cases ha : a = k
    · subst ha
      have he : rest.filter (fun x => !decide (x = a)) = rest := by
        apply List.filter_eq_self.mpr
        intro x hx
        have hxa : ¬ x = a := fun hxa => hnd'.1 (hxa ▸ hx)
        simpa using hxa
      simp [List.filter_cons, he]
    · have hmem : k ∈ rest := by
        rcases List.mem_cons.mp hk with h | h
        · exact absurd h.symm ha
        · exact h
      have hi := ih hnd'.2 hmem
      have hpos : 0 < rest.length := List.length_pos.mpr (List.ne_nil_of_mem hmem)
      simp only [List.filter_cons]
      simp [ha, hi]
      omega

/-- `adel` of a key present in a duplicate-free list shrinks it by
exactly one. -/
theorem length_adel_nodup {α : Type} (l : List (String × α)) (k : String)
    (hnd : (l.map Prod.fst).Nodup) (h : (alookup l k).isSome) :
    (adel l k).length = l.length - 1 := by
  have hm : k ∈ l.map Prod.fst := by
    by_contra hc
    rw [(alookup_eq_none_iff l k).mpr hc] at h
    simp at h
  have hf := length_filter_ne_of_nodup (l.map Prod.fst) k hnd hm
  calc (adel l k).length
      = ((adel l k).map Prod.fst).length := (List.length_map _ _).symm
    _ = ((l.map Prod.fst).filter (fun x => x ≠ k)).length := by rw [adel_keys]
    _ = (l.map Prod.fst).length - 1 := hf
    _ = l.length - 1 := by rw [List.length_map]

/-- `adel` preserves key-nodup. -/
theorem nodup_adel {α : Type} (l : List (String × α)) (k : String)
    (hnd : (l.map Prod.fst).Nodup) : ((adel l k).map Prod.fst).Nodup := by
  rw [adel_keys]
  exact hnd.filter _

/-- `alookup` finds under the new name, after a rename, what the old name
held — provided the new name was not already bound. -/
theorem alookup_arename {α : Type} (old new_ : String) (r : List (String × α))
    (hnew : alookup r new_ = none) :
    alookup (arename old new_ r) new_ = alookup r old := by
  induction r with
  | nil => rfl
  | cons p rest ih =>
    have hp : p.1 ≠ new_ := by
      intro he
      simp [alookup, he] at hnew
    have hnew' : alookup rest new_ = none := by
      simpa [alookup, hp] using hnew
    by_cases hk : p.1 = old
    · have harr : arename old new_ (p :: rest)
          = (new_, p.2) :: arename old new_ rest := by
        simp [arename, hk]
      rw [harr]
      simp [alookup, hk]
    · have harr : arename old new_ (p :: rest) = p :: arename old new_ rest := by
        simp [arename, hk]
      rw [harr]
      simp [alookup, hk, hp, ih hnew']


/-- Looking up a different key ignores a deletion. -/
theorem alookup_adel_ne {α : Type} (l : List (String × α)) (k k' : String)
    (h : k' ≠ k) : alookup (adel l k) k' = alookup l k' := by
  induction l with
  | nil => rfl
  | cons p rest ih =>
    by_cases hp : p.1 = k
    · have hne : p.1 ≠ k' := fun he => h (he ▸ hp)
      have hd : adel (p :: rest) k = adel rest k := by
        simp [adel, List.filter_cons, hp]
      rw [hd, ih]
      simp [alookup, hne]
    · have hd : adel (p :: rest) k = p :: adel rest k := by
        simp [adel, List.filter_cons, hp]
      rw [hd]
      by_cases hp' : p.1 = k'
      · simp [alookup, hp']
      · simp [alookup, hp', ih]

/-- The deleted key is gone. -/
theorem alookup_adel_self {α : Type} (l : List (String × α)) (k : String) :
    alookup (adel l k) k = none := by
  induction l with
  | nil => rfl
  | cons p rest ih =>
    by_cases hp : p.1 = k
    · have hd : adel (p :: rest) k = adel rest k := by
        simp [adel, List.filter_cons, hp]
      rw [hd, ih]
    · have hd : adel (p :: rest) k = p :: adel rest k := by
        simp [adel, List.filter_cons, hp]
      rw [hd]
      simp [alookup, hp, ih]

/-- Lookup over an append with a single appended binding. -/
theorem alookup_append_single {α : Type} (l : List (String × α))
    (a k : String) (b : α) :
    alookup (l ++ [(a, b)]) k
      = match alookup l k with
        | some v => some v
        | none => if a = k then some b else none := by
  induction l with
  | nil => rfl
  | cons p rest ih =>
    by_cases hp : p.1 = k
    · simp [alookup, hp]
    · simp only [List.cons_append, alookup, if_neg hp]
      exact ih

/-- A successful lookup survives an append. -/
theorem alookup_append_left {α : Type} (l l2 : List (String × α))
    (k : String) (w : α) (h : alookup l k = some w) :
    alookup (l ++ l2) k = some w := by
  induction l with
  | nil => simp [alookup] at h
  | cons p rest ih =>
    by_cases hp : p.1 = k
    · simpa [alookup, hp] using h
    · simp only [alookup, if_neg hp] at h
      simp only [List.cons_append, alookup, if_neg hp]
      exact ih h

/-- No string equals itself extended by `".value"`. -/
theorem ne_append_value (p : String) : p ≠ p ++ ".value" := by
  intro h
  have := congrArg String.length h
  rw [length_strApp] at this
  have h6 : (".value" : String).length = 6 := by decide
  omega


/-! ## Claim C3 -/

/-- C3, counterexample.  The claim covers every state in which the new
key's first-level prefix is an existing scalar column; but when a column
named `prefix.value` *also* already exists (reachable by adding
`x.value` first, then `x`), the `ALTER TABLE ... RENAME COLUMN` hits a
duplicate column name, `add` raises, the rename does not happen and the
new column is not added. -/
theorem C3_promotion_counterexample :
    (let c1 := (addFlat emptyColl (.cons "x.value" (.int 1) .nil)).1
     let c2 := (addFlat c1 (.cons "x" (.int 2) .nil)).1
     let r := addFlat c2 (.cons "x.a" (.int 3) .nil)
     r.2 = some .operationalError ∧
       (r.1.fields.getD []).map Prod.fst = ["x.value", "x"] ∧
       r.1.rows.length = 2) := by
  decide

/-- C3 (amended): when `add` meets a new flat key whose first-level
prefix is an existing scalar column **and no `prefix.value` column
exists yet** (and the new key is not itself `prefix.value`), the rename
and addition go through exactly as claimed: no error, the old column is
renamed to `prefix.value` keeping its declared type, the old name is
gone, the new column is added, and every previously stored value is
retrievable under the renamed column unchanged.  If a `prefix.value`
column already exists the statement fails as in the counterexample:
`add` raises a duplicate-column error instead. -/
theorem C3_promotion (c : Coll) (fs : List (String × String)) (fname : String)
    (v : PyVal) (ptype : String)
    (hfs : c.fields = some fs)
    (hnew : alookup fs fname = none)
    (hp : alookup fs (parentKey fname) = some ptype)
    (hpv : alookup fs (parentKey fname ++ ".value") = none)
    (hfn : fname ≠ parentKey fname ++ ".value")
    (hrows : ∀ r ∈ c.rows, alookup r (parentKey fname ++ ".value") = none) :
    (addFlat c (.cons fname v .nil)).2 = none ∧
    alookup ((addFlat c (.cons fname v .nil)).1.fields.getD []) fname
      = some (get_sql_type fname v) ∧
    alookup ((addFlat c (.cons fname v .nil)).1.fields.getD [])
      (parentKey fname ++ ".value") = some ptype ∧
    alookup ((addFlat c (.cons fname v .nil)).1.fields.getD [])
      (parentKey fname) = none ∧
    (∀ i (hi : i < c.rows.length),
      ∃ hi2 : i < (addFlat c (.cons fname v .nil)).1.rows.length,
        alookup ((addFlat c (.cons fname v .nil)).1.rows.get ⟨i, hi2⟩)
            (parentKey fname ++ ".value")
          = alookup (c.rows.get ⟨i, hi⟩) (parentKey fname)) := by
  set p := parentKey fname with hpdef
  have hfp : fname ≠ p := by
    intro he
    rw [he] at hnew
    rw [hnew] at hp
    cases hp
  -- evaluate addFlat step by step
  have hup : aupsert fs (p ++ ".value") ptype = fs ++ [(p ++ ".value", ptype)] :=
    aupsert_of_none _ _ _ hpv
  have hfs1 : alookup (adel (aupsert fs (p ++ ".value") ptype) p) fname = none := by
    rw [alookup_adel_ne _ _ _ hfp, hup, alookup_append_single, hnew]
    show (if p ++ ".value" = fname then some ptype else none) = none
    exact if_neg (fun h => hfn h.symm)
  have hstep : reconcileFields fs c.rows [(fname, get_sql_type fname v)]
      = (adel (aupsert fs (p ++ ".value") ptype) p ++ [(fname, get_sql_type fname v)],
         c.rows.map (arename p (p ++ ".value")), none) := by
    simp only [reconcileFields, hnew, hp, hpv, ← hpdef]
    simp only [Option.isSome_none, Bool.false_eq_true, if_false, hfs1]
    simp [aupsert_of_none _ _ _ hfs1, reconcileFields]
  have haddFlat : addFlat c (.cons fname v .nil)
      = insertRow
        (Coll.mk (some (adel (aupsert fs (p ++ ".value") ptype) p
            ++ [(fname, get_sql_type fname v)]))
          (c.rows.map (arename p (p ++ ".value"))))
        (.cons fname v .nil) := by
    simp only [addFlat, hfs, getFieldsForItem, hstep]
  have hval : alookup (adel (aupsert fs (p ++ ".value") ptype) p) (p ++ ".value")
      = some ptype := by
    rw [alookup_adel_ne _ _ _ (fun h => ne_append_value p h.symm), hup,
      alookup_append_single, hpv]
    simp
  refine ⟨?_, ?_, ?_, ?_, ?_⟩
  · rw [haddFlat]
    rfl
  · rw [haddFlat]
    simp only [insertRow, Option.getD_some]
    rw [alookup_append_single, hfs1]
    simp
  · rw [haddFlat]
    simp only [insertRow, Option.getD_some]
    exact alookup_append_left _ _ _ _ hval
  · rw [haddFlat]
    simp only [insertRow, Option.getD_some]
    rw [alookup_append_single, alookup_adel_self]
    simp [hfp]
  · intro i hi
    rw [haddFlat]
    simp only [insertRow]
    have hi2 : i < (c.rows.map (arename p (p ++ ".value"))).length + 1 := by
      simp only [List.length_map]
      omega
    refine ⟨by simpa using hi2, ?_⟩
    have hget : ((c.rows.map (arename p (p ++ ".value"))
          ++ [((adel (aupsert fs (p ++ ".value") ptype) p
            ++ [(fname, get_sql_type fname v)]).map
              (fun q => (q.1, sqlLiteral (((PropL.cons fname v .nil).lookup q.1).getD .vnone))))]).get
            ⟨i, by simpa using hi2⟩)
        = arename p (p ++ ".value") (c.rows.get ⟨i, hi⟩) := by
      rw [List.get_append_left]
      · simp
      · simpa using hi
    rw [hget]
    exact alookup_arename p (p ++ ".value") _ (hrows _ (c.rows.get_mem _ _))

/-- C3, witness: the spec's own scenario — `x` first a scalar, then a
composite field arrives; the old value reads back under `x.value`. -/
theorem C3_promotion_witness :
    ((addFlat (addFlat emptyColl (.cons "x" (.int 5) .nil)).1
        (.cons "x.a" (.int 1) .nil)).2 = none ∧
     alookup ((addFlat (addFlat emptyColl (.cons "x" (.int 5) .nil)).1
        (.cons "x.a" (.int 1) .nil)).1.fields.getD []) "x.a"
        = some "VARCHAR" ∧
     ((addFlat (addFlat emptyColl (.cons "x" (.int 5) .nil)).1
        (.cons "x.a" (.int 1) .nil)).1.rows.map
          (fun r => alookup r ("x" ++ ".value"))) = [some (.sint 5), some .null]) := by
  have h := C3_promotion (addFlat emptyColl (.cons "x" (.int 5) .nil)).1
    [("x", "VARCHAR")] "x.a" (.int 1) "VARCHAR"
    (by decide) (by decide) (by decide) (by decide) (by decide)
    (by decide)
  exact ⟨h.1, by decide, by decide⟩


/-! ## Claim C6 -/

/-- C6, counterexample.  A scalar key arriving for a dotted path that
already exists as a composite of deeper columns is *not* reported as any
schema-conflict error: `add` succeeds and simply appends the scalar
column next to the composite one (there is no `SchemaConflict` anywhere
in the code). -/
theorem C6_conflict_counterexample :
    (let c1 := (addFlat emptyColl (.cons "x.a" (.int 1) .nil)).1
     let r := addFlat c1 (.cons "x" (.int 2) .nil)
     r.2 = none ∧ (r.1.fields.getD []).map Prod.fst = ["x.a", "x"] ∧
       r.1.rows.length = 2) := by
  decide

/-- C6 (amended): `add` never reports a schema conflict.  A new key whose
first-level prefix is *not* an existing column — including a scalar key
for a path that exists only as a composite of deeper columns — is
accepted silently: the column is appended to the schema, typed by
`get_sql_type`, and the row is inserted. -/
theorem C6_no_conflict (c : Coll) (fs : List (String × String)) (key : String)
    (v : PyVal)
    (hfs : c.fields = some fs)
    (hnew : alookup fs key = none)
    (hpar : alookup fs (parentKey key) = none) :
    (addFlat c (.cons key v .nil)).2 = none ∧
    (addFlat c (.cons key v .nil)).1.fields
      = some (fs ++ [(key, get_sql_type key v)]) ∧
    (addFlat c (.cons key v .nil)).1.rows.length = c.rows.length + 1 := by
  have hstep : reconcileFields fs c.rows [(key, get_sql_type key v)]
      = (fs ++ [(key, get_sql_type key v)], c.rows, none) := by
    simp only [reconcileFields, hnew, hpar]
    simp [aupsert_of_none _ _ _ hnew, reconcileFields]
  have haddFlat : addFlat c (.cons key v .nil)
      = insertRow (Coll.mk (some (fs ++ [(key, get_sql_type key v)])) c.rows)
        (.cons key v .nil) := by
    simp only [addFlat, hfs, getFieldsForItem, hstep]
  rw [haddFlat]
  refine ⟨rfl, rfl, ?_⟩
  simp [insertRow]

/-- C6, witness. -/
theorem C6_no_conflict_witness :
    ((addFlat (addFlat emptyColl (.cons "x.a" (.int 1) .nil)).1
        (.cons "x" (.int 2) .nil)).2 = none ∧
     (addFlat (addFlat emptyColl (.cons "x.a" (.int 1) .nil)).1
        (.cons "x" (.int 2) .nil)).1.fields
        = some ([("x.a", "VARCHAR")] ++ [("x", get_sql_type "x" (.int 2))]) ∧
     (addFlat (addFlat emptyColl (.cons "x.a" (.int 1) .nil)).1
        (.cons "x" (.int 2) .nil)).1.rows.length
        = (addFlat emptyColl (.cons "x.a" (.int 1) .nil)).1.rows.length + 1) :=
  C6_no_conflict (addFlat emptyColl (.cons "x.a" (.int 1) .nil)).1
    [("x.a", "VARCHAR")] "x" (.int 2) (by decide) (by decide) (by decide)

/-! ## Claim C8 -/

/-- The new-field loop never shrinks the schema, keeps keys
duplicate-free, and keeps the row count (proved together, as the loop
threads all three). -/
theorem reconcileFields_mono (newFs : List (String × String)) :
    ∀ (fs : List (String × String)) (rows : List Row),
      (fs.map Prod.fst).Nodup →
      fs.length ≤ (reconcileFields fs rows newFs).1.length ∧
      ((reconcileFields fs rows newFs).1.map Prod.fst).Nodup ∧
      (reconcileFields fs rows newFs).2.1.length = rows.length := by
  induction newFs with
  | nil => intro fs rows hnd; exact ⟨le_refl _, hnd, rfl⟩
  | cons pnew restNew ih =>
    intro fs rows hnd
    obtain ⟨fname, ftype⟩ := pnew
    by_cases hin : (alookup fs fname).isSome
    · simpa [reconcileFields, hin] using ih fs rows hnd
    · have hnone : alookup fs fname = none := by
        cases h : alookup fs fname
        · rfl
        · rw [h] at hin; simp at hin
      cases hpar : alookup fs (parentKey fname) with
      | none =>
        simp only [reconcileFields, hnone, hpar]
        simp only [Option.isSome_none, Bool.false_eq_true, if_false]
        rw [aupsert_of_none _ _ _ hnone]
        have hnd' : ((fs ++ [(fname, ftype)]).map Prod.fst).Nodup := by
          have := nodup_aupsert fs fname ftype hnd
          rwa [aupsert_of_none _ _ _ hnone] at this
        have h3 := ih (fs ++ [(fname, ftype)]) rows hnd'
        refine ⟨le_trans ?_ h3.1, h3.2.1, h3.2.2⟩
        simp
      | some ptype =>
        by_cases hpv : (alookup fs (parentKey fname ++ ".value")).isSome
        · simp only [reconcileFields, hnone, hpar, hpv, if_true]
          exact ⟨le_refl _, hnd, rfl⟩
        · have hpvn : alookup fs (parentKey fname ++ ".value") = none := by
            cases h : alookup fs (parentKey fname ++ ".value")
            · rfl
            · rw [h] at hpv; simp at hpv
          have hup : aupsert fs (parentKey fname ++ ".value") ptype
              = fs ++ [(parentKey fname ++ ".value", ptype)] :=
            aupsert_of_none _ _ _ hpvn
          have hndup : ((aupsert fs (parentKey fname ++ ".value") ptype).map
              Prod.fst).Nodup := nodup_aupsert _ _ _ hnd
          have hlenup : (aupsert fs (parentKey fname ++ ".value") ptype).length
              = fs.length + 1 := by rw [hup]; simp
          have hsomep : (alookup (aupsert fs (parentKey fname ++ ".value") ptype)
              (parentKey fname)).isSome := by
            rw [hup, alookup_append_left _ _ _ ptype hpar]
            rfl
          have hlen1 : (adel (aupsert fs (parentKey fname ++ ".value") ptype)
              (parentKey fname)).length = fs.length := by
            rw [length_adel_nodup _ _ hndup hsomep, hlenup]
            omega
          have hnd1 : ((adel (aupsert fs (parentKey fname ++ ".value") ptype)
              (parentKey fname)).map Prod.fst).Nodup := nodup_adel _ _ hndup
          simp only [reconcileFields, hnone, hpar, hpv]
          simp only [Option.isSome_none, Bool.false_eq_true, if_false]
          by_cases hdup : (alookup (adel (aupsert fs
              (parentKey fname ++ ".value") ptype) (parentKey fname))
              fname).isSome
          · simp only [hdup, if_true]
            refine ⟨?_, nodup_aupsert _ _ _ hnd1, by simp⟩
            have hge := length_aupsert_ge (adel (aupsert fs
              (parentKey fname ++ ".value") ptype) (parentKey fname)) fname ftype
            omega
          · have hdupn : alookup (adel (aupsert fs
                (parentKey fname ++ ".value") ptype) (parentKey fname))
                fname = none := by
              cases h : alookup (adel (aupsert fs
                (parentKey fname ++ ".value") ptype) (parentKey fname)) fname
              · rfl
              · rw [h] at hdup; simp at hdup
            simp only [hdupn, Option.isSome_none, Bool.false_eq_true, if_false]
            have hnd2 : (((adel (aupsert fs (parentKey fname ++ ".value") ptype)
                (parentKey fname)) ++ [(fname, ftype)]).map Prod.fst).Nodup := by
              have := nodup_aupsert _ fname ftype hnd1
              rwa [aupsert_of_none _ _ _ hdupn] at this
            rw [aupsert_of_none _ _ _ hdupn]
            have h3 := ih _ (rows.map (arename (parentKey fname)
              (parentKey fname ++ ".value"))) hnd2
            refine ⟨le_trans ?_ h3.1, h3.2.1, ?_⟩
            · simp [hlen1]
            · rw [h3.2.2]
              simp

/-- C8 (confirmed): on every collection whose schema has no duplicate
column names (an invariant of sqlite tables), `add` never decreases the
number of columns — a promotion rename replaces one name by another —
and never removes a stored row. -/
theorem C8_schema_monotone (c : Coll) (item : PropL)
    (hnd : match c.fields with
           | some fs => (fs.map Prod.fst).Nodup
           | none => True) :
    schemaCount c ≤ schemaCount (addFlat c item).1 ∧
    c.rows.length ≤ (addFlat c item).1.rows.length := by
  cases hfs : c.fields with
  | none =>
    simp only [addFlat, hfs]
    by_cases he : (getFieldsForItem item).isEmpty
    · simp [he, schemaCount, hfs]
    · simp only [he, Bool.false_eq_true, if_false]
      simp [insertRow, schemaCount, hfs]
  | some fs =>
    rw [hfs] at hnd
    have h := reconcileFields_mono (getFieldsForItem item) fs c.rows hnd
    simp only [addFlat, hfs]
    cases herr : (reconcileFields fs c.rows (getFieldsForItem item)).2.2 with
    | some e =>
      have : reconcileFields fs c.rows (getFieldsForItem item)
          = ((reconcileFields fs c.rows (getFieldsForItem item)).1,
             (reconcileFields fs c.rows (getFieldsForItem item)).2.1, some e) := by
        rw [← herr]
      rw [this]
      simp only [schemaCount, hfs]
      exact ⟨h.1, le_of_eq h.2.2.symm⟩
    | none =>
      have : reconcileFields fs c.rows (getFieldsForItem item)
          = ((reconcileFields fs c.rows (getFieldsForItem item)).1,
             (reconcileFields fs c.rows (getFieldsForItem item)).2.1, none) := by
        rw [← herr]
      rw [this]
      simp only [insertRow, schemaCount, hfs]
      constructor
      · exact h.1
      · rw [List.length_append, h.2.2]
        simp

/-- C8, witness: adding a composite field over an existing scalar (the
promotion rename) does not decrease the column count. -/
theorem C8_schema_monotone_witness :
    schemaCount (addFlat emptyColl (.cons "x" (.int 5) .nil)).1
      ≤ schemaCount (addFlat (addFlat emptyColl (.cons "x" (.int 5) .nil)).1
          (.cons "x.a" (.int 1) .nil)).1 ∧
    (addFlat emptyColl (.cons "x" (.int 5) .nil)).1.rows.length
      ≤ (addFlat (addFlat emptyColl (.cons "x" (.int 5) .nil)).1
          (.cons "x.a" (.int 1) .nil)).1.rows.length :=
  C8_schema_monotone (addFlat emptyColl (.cons "x" (.int 5) .nil)).1
    (.cons "x.a" (.int 1) .nil)
    (show (List.map Prod.fst
      [("x", get_sql_type "x" (PyVal.int 5))]).Nodup by decide)


/-! ## Claim C7 -/

/-- A fold of table-preserving steps preserves the table. -/
theorem foldl_table_eq {α : Type} (f : Store → α → Store)
    (hf : ∀ st x, (f st x).table = st.table) :
    ∀ (l : List α) (s : Store), (l.foldl f s).table = s.table := by
  intro l
  induction l with
  | nil => intro s; rfl
  | cons x xs ih => intro s; rw [List.foldl_cons, ih, hf]

/-- `_create_index` never touches the backing table. -/
theorem createIndex_table (s : Store) (f : String) :
    (createIndex s f).table = s.table := by
  unfold createIndex
  split
  · rfl
  · split <;> rfl

/-- `_create_view` never touches the backing table. -/
theorem createView_table (s : Store) (eqc : List (String × PyVal))
    (inc : List (String × List PyVal))
    (rc : List (String × (Option PyVal × Option PyVal)))
    (keys : List String) (lim : Option Int) :
    (createView s eqc inc rc keys lim).1.table = s.table := by
  unfold createView
  split <;> rfl

/-- C7 (confirmed): every query operation — equality select, range
select, membership select, `sort_by`, `limit` — returns a derived result
and leaves the receiver's backing table identical, hence its row count
(`__len__`) and its schema (column list and column count) unchanged.
(Queries do add indexes and temporary views on the shared connection, but
never rows or columns.) -/
theorem C7_query_frame (s : Store) (eqc : List (String × PyVal))
    (inc : List (String × List PyVal))
    (rc : List (String × (Option PyVal × Option PyVal)))
    (keys : List String) (n : Int) :
    ((selectByValue s eqc).1.table = s.table ∧
     lenColl (selectByValue s eqc).1 = lenColl s ∧
     schemaCount (selectByValue s eqc).1.table = schemaCount s.table) ∧
    ((selectByRange s rc).1.table = s.table ∧
     lenColl (selectByRange s rc).1 = lenColl s ∧
     schemaCount (selectByRange s rc).1.table = schemaCount s.table) ∧
    ((selectByValues s inc).1.table = s.table ∧
     lenColl (selectByValues s inc).1 = lenColl s ∧
     schemaCount (selectByValues s inc).1.table = schemaCount s.table) ∧
    ((sortBy s keys).1.table = s.table ∧
     lenColl (sortBy s keys).1 = lenColl s ∧
     schemaCount (sortBy s keys).1.table = schemaCount s.table) ∧
    ((limitColl s n).1.table = s.table ∧
     lenColl (limitColl s n).1 = lenColl s ∧
     schemaCount (limitColl s n).1.table = schemaCount s.table) := by
  have h1 : (selectByValue s eqc).1.table = s.table := by
    simp only [selectByValue]
    rw [createView_table]
    exact foldl_table_eq _ (fun st x => createIndex_table st x.1) eqc s
  have h2 : (selectByRange s rc).1.table = s.table := by
    simp only [selectByRange]
    rw [createView_table]
    exact foldl_table_eq _ (fun st x => createIndex_table st x.1) rc s
  have h3 : (selectByValues s inc).1.table = s.table := by
    simp only [selectByValues]
    rw [createView_table]
    exact foldl_table_eq _ (fun st x => createIndex_table st x.1) inc s
  have h4 : (sortBy s keys).1.table = s.table := by
    unfold sortBy
    split
    · split <;> rfl
    · rename_i fs _
      show (createView (keys.foldl _ s) [] [] [] keys none).1.table = s.table
      rw [createView_table]
      refine foldl_table_eq _ ?_ keys s
      intro st k
      by_cases hk : (alookup fs k).isSome
      · simp only [hk, if_true]
        exact createIndex_table st k
      · simp [hk]
  have h5 : (limitColl s n).1.table = s.table := by
    unfold limitColl
    rw [createView_table]
  have hlen : ∀ s' : Store, s'.table = s.table → lenColl s' = lenColl s := by
    intro s' h
    unfold lenColl
    rw [h]
  exact ⟨⟨h1, hlen _ h1, by rw [h1]⟩, ⟨h2, hlen _ h2, by rw [h2]⟩,
    ⟨h3, hlen _ h3, by rw [h3]⟩, ⟨h4, hlen _ h4, by rw [h4]⟩,
    ⟨h5, hlen _ h5, by rw [h5]⟩⟩


/-! ## Claim C10 -/

/-- `_create_view` yields `create_collection()` while the schema is
unknown. -/
theorem createView_freshEmpty (s : Store) (eqc : List (String × PyVal))
    (inc : List (String × List PyVal))
    (rc : List (String × (Option PyVal × Option PyVal)))
    (keys : List String) (lim : Option Int)
    (h : s.table.fields = none) :
    (createView s eqc inc rc keys lim).2 = .freshEmpty := by
  simp [createView, h]

/-- C10, counterexample.  On a schema-less collection `sort_by` with any
key does *not* return a fresh empty collection: the membership test
`field_name in self._fields` runs on `None` and raises `TypeError`. -/
theorem C10_sortBy_counterexample :
    (sortBy { table := emptyColl, views := [], indexes := [] } ["k"]).2
      = .error .typeError := by
  decide

/-- C10 (amended): on a collection whose schema is still unknown,
`len()` is 0, iteration yields nothing, `get_unique_values` returns the
empty set for any field names, and the queries `select_by_value`,
`select_by_range`, `select_by_values` and `limit` — plus `sort_by` with
no keys — return a fresh empty collection; but `sort_by` with at least
one key raises `TypeError` instead. -/
theorem C10_empty_schema (s : Store) (names : List String)
    (eqc : List (String × PyVal)) (inc : List (String × List PyVal))
    (rc : List (String × (Option PyVal × Option PyVal)))
    (n : Int) (k : String) (ks : List String)
    (hfs : s.table.fields = none) :
    lenColl s = 0 ∧
    iterColl s = [] ∧
    (getUniqueValues s names).2 = .ok [] ∧
    (selectByValue s eqc).2 = .freshEmpty ∧
    (selectByRange s rc).2 = .freshEmpty ∧
    (selectByValues s inc).2 = .freshEmpty ∧
    (limitColl s n).2 = .freshEmpty ∧
    (sortBy s []).2 = .ok .freshEmpty ∧
    (sortBy s (k :: ks)).2 = .error .typeError := by
  have hfold : ∀ {α : Type} (f : Store → α → Store)
      (hf : ∀ st x, (f st x).table = st.table) (l : List α),
      (l.foldl f s).table.fields = none := by
    intro α f hf l
    rw [foldl_table_eq f hf l s, hfs]
  refine ⟨?_, ?_, ?_, ?_, ?_, ?_, ?_, ?_, ?_⟩
  · simp [lenColl, hfs]
  · simp [iterColl, hfs]
  · simp [getUniqueValues, hfs]
  · simp only [selectByValue]
    exact createView_freshEmpty _ _ _ _ _ _
      (hfold _ (fun st x => createIndex_table st x.1) eqc)
  · simp only [selectByRange]
    exact createView_freshEmpty _ _ _ _ _ _
      (hfold _ (fun st x => createIndex_table st x.1) rc)
  · simp only [selectByValues]
    exact createView_freshEmpty _ _ _ _ _ _
      (hfold _ (fun st x => createIndex_table st x.1) inc)
  · simp only [limitColl]
    exact createView_freshEmpty _ _ _ _ _ _ hfs
  · simp [sortBy, hfs, createView]
  · simp [sortBy, hfs]

/-- C10, witness. -/
theorem C10_empty_schema_witness :
    lenColl { table := emptyColl, views := [], indexes := [] } = 0 ∧
    iterColl { table := emptyColl, views := [], indexes := [] } = [] ∧
    (getUniqueValues { table := emptyColl, views := [], indexes := [] }
      ["f"]).2 = .ok [] ∧
    (selectByValue { table := emptyColl, views := [], indexes := [] }
      [("a", .int 1)]).2 = .freshEmpty ∧
    (selectByRange { table := emptyColl, views := [], indexes := [] }
      []).2 = .freshEmpty ∧
    (selectByValues { table := emptyColl, views := [], indexes := [] }
      []).2 = .freshEmpty ∧
    (limitColl { table := emptyColl, views := [], indexes := [] }
      3).2 = .freshEmpty ∧
    (sortBy { table := emptyColl, views := [], indexes := [] } []).2
      = .ok .freshEmpty ∧
    (sortBy { table := emptyColl, views := [], indexes := [] }
      ("k" :: [])).2 = .error .typeError :=
  C10_empty_schema { table := emptyColl, views := [], indexes := [] }
    ["f"] [("a", .int 1)] [] [] 3 "k" [] (by decide)


/-! ## Claim C9 -/

/-- `d[k] = v` then `d[k]` gives back `v`. -/
theorem lookup_upsert : ∀ (d : PropL) (k : String) (v : PyVal),
    (d.upsert k v).lookup k = some v
  | .nil, k, v => by simp [PropL.upsert, PropL.lookup]
  | .cons k' v' rest, k, v => by
    by_cases h : k' = k
    · simp [PropL.upsert, h, PropL.lookup]
    · simp [PropL.upsert, h, PropL.lookup, lookup_upsert rest k v]

/-- The row loop stamps row `i` (0-based, after the header) with id
`resourceName ++ ":" ++ toString (rownum + i + 2)`, whatever the record
held before. -/
theorem readCsvGo_id (resourceName : String) (header : List String) :
    ∀ (rows : List (List String)) (rownum : Nat) (records : List PropL),
      readCsvGo resourceName header rownum rows = .ok records →
      ∀ (i : Nat) (hi : i < records.length),
        (records.get ⟨i, hi⟩).lookup "id"
          = some (.str (resourceName ++ ":" ++ toString (rownum + i + 2))) := by
  intro rows
  induction rows with
  | nil =>
    intro rownum records h i hi
    simp only [readCsvGo, Except.ok.injEq] at h
    subst h
    exact absurd hi (by simp)
  | cons row rest ih =>
    intro rownum records h i hi
    simp only [readCsvGo] at h
    cases hexp : expandDict (zipToProp header
        (row.map (fun v => if v = "" then PyVal.vnone else .str v))) with
    | error e => rw [hexp] at h; simp [Bind.bind, Except.bind] at h
    | ok record =>
      rw [hexp] at h
      cases hrec : readCsvGo resourceName header (rownum + 1) rest with
      | error e =>
        rw [hrec] at h; simp [Bind.bind, Except.bind] at h
      | ok tail =>
        rw [hrec] at h
        simp only [Bind.bind, Except.bind, Except.ok.injEq] at h
        subst h
        cases i with
        | zero =>
          simp only [List.get]
          exact lookup_upsert record "id" _
        | succ j =>
          have hj : j < tail.length := by
            simpa using hi
          have := ih (rownum + 1) tail hrec j hj
          simp only [List.get] at this ⊢
          rw [this]
          have harith : rownum + 1 + j + 2 = rownum + (j + 1) + 2 := by omega
          rw [harith]

/-- C9, counterexample.  A CSV record that supplies its own `id` does
*not* keep it: `record["id"] = f"{resource_name}:{rownum+2}"` is
assigned unconditionally, so the supplied value `myid` is overwritten by
`res:2`. -/
theorem C9_id_counterexample :
    ((readCsvRecords "res" ["id", "x"] [["myid", "1"]]).map
        (fun rs => rs.map (fun r => r.lookup "id")))
      = .ok [some (.str "res:2")] ∧
    ((readCsvRecords "res" ["id", "x"] [["myid", "1"]]).map
        (fun rs => rs.map (fun r => r.lookup "id")))
      ≠ .ok [some (.str "myid")] := by
  decide

/-- C9 (amended): on a successful CSV import, *every* record — whether
or not the file supplied an `id` column — ends up with the synthetic
identifier `"{resource_name}:{row_number}"`, where `row_number` is the
record's 1-based row number in the file (data row `i`, counting from 0,
is file row `i + 2` because the header is row 1); a supplied identifier
is overwritten, not kept. -/
theorem C9_synthetic_id (resourceName : String) (header : List String)
    (rows : List (List String)) (records : List PropL)
    (h : readCsvRecords resourceName header rows = .ok records) :
    ∀ (i : Nat) (hi : i < records.length),
      (records.get ⟨i, hi⟩).lookup "id"
        = some (.str (resourceName ++ ":" ++ toString (i + 2))) := by
  intro i hi
  have := readCsvGo_id resourceName header rows 0 records h i hi
  simpa using this

/-- C9, witness: the import of the counterexample row, with its `id`
stamped `res:2`. -/
theorem C9_synthetic_id_witness :
    readCsvRecords "res" ["id", "x"] [["myid", "1"]]
        = .ok [.cons "id" (.str "res:2") (.cons "x" (.str "1") .nil)] ∧
    ([PropL.cons "id" (.str "res:2")
        (.cons "x" (.str "1") .nil)].get ⟨0, by decide⟩).lookup "id"
      = some (.str ("res" ++ ":" ++ toString (0 + 2))) :=
  ⟨by decide,
   C9_synthetic_id "res" ["id", "x"] [["myid", "1"]]
     [.cons "id" (.str "res:2") (.cons "x" (.str "1") .nil)]
     (by decide) 0 (by decide)⟩


/-! ## Claim C2: the flatten/unflatten round trip

Scaffolding: the well-formed domain on which the round trip holds, and
the explicit flat form `_collapse_dict` produces on it. -/

/-- A key without a `.` (a one-segment path). -/
def noDot (s : String) : Bool := s.data.all (· ≠ '.')

/-- A key claimed by the boolean serializer (`is_`/`has_`-flagged). -/
def flagK (k : String) : Bool :=
  firstUnderscoreSeg k == "is" || firstUnderscoreSeg k == "has"

/-- The type indicator the encoder appends for a value, if any. -/
def tagOf : PyVal → Option String
  | .int _ => some "int"
  | .float _ => some "float"
  | .angle _ => some "degrees"
  | .datetime _ _ => some "timestamp"
  | .timedelta _ => some "timedelta"
  | .point _ _ => some "wgs84"
  | .cell _ => some "cell"
  | .geo _ => some "geo"
  | _ => none

/-- The flat key (or first-level key prefix) an entry gets. -/
def topKey (k : String) (v : PyVal) : String :=
  match tagOf v with
  | some tn => addTypeIndicator tn k
  | none => k

mutual
/-- A value the flattening engine round-trips under a key with flag
status `flag`.  Strings (and the tagged string forms) survive only on
unflagged keys (the boolean decoder coerces them), booleans only on
flagged keys (the fallback assert rejects them elsewhere), nested maps
only unflagged (`LocationInfo(**value)`-free identity path) and nonempty
(an empty map leaves no flat keys and vanishes); points must be in
range, cells complete with positive fields. -/
def wfVal (flag : Bool) : PyVal → Bool
  | .vnone => true
  | .str _ => !flag
  | .floatStr _ => !flag
  | .isoStr _ _ => !flag
  | .cellUid _ => !flag
  | .bool _ => flag
  | .int _ => true
  | .float _ => true
  | .angle _ => true
  | .datetime _ _ => true
  | .timedelta _ => true
  | .point lon lat =>
    decide ((-90 ≤ lat ∧ lat ≤ 90) ∧ (-180 ≤ lon ∧ lon ≤ 180))
  | .cell c => CellIdentity.cellOK c
  | .geo m => wfItems m && !(m == .nil)
  | .dict m => !flag && (wfItems m && !(m == .nil))

/-- An item (dict) the flattening engine round-trips: single-segment
keys without type-indicator suffixes, unique per level, each value
well-formed for its key's flag status. -/
def wfItems : PropL → Bool
  | .nil => true
  | .cons k v rest =>
    noDot k && cleanKey k && (rest.lookup k == none)
      && wfVal (flagK k) v && wfItems rest
end

mutual
/-- The flat entries `_collapse_dict` produces for one entry. -/
def flatVal (k : String) : PyVal → PropL
  | .vnone => .cons k .vnone .nil
  | .str s => .cons k (.str s) .nil
  | .floatStr q => .cons k (.floatStr q) .nil
  | .isoStr us tz => .cons k (.isoStr us tz) .nil
  | .cellUid cs => .cons k (.cellUid cs) .nil
  | .bool b => .cons k (.bool b) .nil
  | .int n => .cons (addTypeIndicator "int" k) (.int n) .nil
  | .float q => .cons (addTypeIndicator "float" k) (.float q) .nil
  | .angle q => .cons (addTypeIndicator "degrees" k) (.floatStr q) .nil
  | .datetime us tz =>
    .cons (addTypeIndicator "timestamp" k) (.isoStr us tz) .nil
  | .timedelta us =>
    .cons (addTypeIndicator "timedelta" k)
      (.floatStr ((us : ℚ) / 1000000)) .nil
  | .point lon lat =>
    PropL.prefixKeys (addTypeIndicator "wgs84" k ++ ".")
      (.cons "lat_float" (.float lat) (.cons "lon_float" (.float lon) .nil))
  | .cell c =>
    PropL.prefixKeys (addTypeIndicator "cell" k ++ ".")
      (.cons "radio"
        (match CellIdentity.radio c with | some r => .str r | none => .vnone)
        (.cons "identifier" (.cellUid (CellIdentity.uidComps c)) .nil))
  | .geo m =>
    PropL.prefixKeys (addTypeIndicator "geo" k ++ ".") (flatItems m)
  | .dict m => PropL.prefixKeys (k ++ ".") (flatItems m)

/-- The flat dict `_collapse_dict` produces for a well-formed item. -/
def flatItems : PropL → PropL
  | .nil => .nil
  | .cons k v rest => (flatVal k v).append (flatItems rest)
end

/-- The first-level key prefixes of a well-formed item's flat form, in
entry order. -/
def segs : PropL → List String
  | .nil => []
  | .cons k v rest => topKey k v :: segs rest

/-! ### String lemmas for the key discipline -/

/-- `takeWhile` over a list all of whose elements pass. -/
theorem listTakeWhileAll {α : Type} (p : α → Bool) (l : List α)
    (h : l.all p = true) : l.takeWhile p = l := by
  induction l with
  | nil => rfl
  | cons x xs ih =>
    simp only [List.all_cons, Bool.and_eq_true] at h
    simp [List.takeWhile_cons, h.1, ih h.2]

/-- `takeWhile` stops exactly at the first failing element. -/
theorem listTakeWhileStop {α : Type} (p : α → Bool) (l r : List α) (x : α)
    (hl : l.all p = true) (hx : p x = false) :
    (l ++ x :: r).takeWhile p = l := by
  induction l with
  | nil => simp [List.takeWhile_cons, hx]
  | cons y ys ih =>
    simp only [List.all_cons, Bool.and_eq_true] at hl
    simp [List.takeWhile_cons, hl.1, ih hl.2]

/-- Strings with equal character data are equal. -/
theorem strDataEq (a b : String) (h : a.data = b.data) : a = b := by
  cases a; cases b; exact congrArg String.mk h

/-- A dot-free string has no dot in each half of an append. -/
theorem noDot_append (a b : String) :
    noDot (a ++ b) = (noDot a && noDot b) := by
  show (a.data ++ b.data).all _ = _
  exact List.all_append

/-- A dot-free string is its own first segment. -/
theorem firstDotSeg_of_noDot (s : String) (h : noDot s = true) :
    firstDotSeg s = s := by
  apply strDataEq
  show s.data.takeWhile _ = s.data
  exact listTakeWhileAll _ _ h

/-- The first segment of `s ++ "." ++ t` is `s`, when `s` is dot-free. -/
theorem firstDotSeg_append_dot (s t : String) (h : noDot s = true) :
    firstDotSeg (s ++ "." ++ t) = s := by
  apply strDataEq
  show ((s.data ++ ['.']) ++ t.data).takeWhile _ = s.data
  rw [List.append_assoc]
  exact listTakeWhileStop _ _ _ _ h (by decide)

/-- Any string extended on the right keeps its beginning. -/
theorem pyStartsWith_append (a b : String) :
    pyStartsWith (a ++ b) a = true := by
  show a.data.isPrefixOf (a.data ++ b.data) = true
  exact List.isPrefixOf_iff_prefix.mpr (List.prefix_append _ _)

/-- Any string extended on the left keeps its ending. -/
theorem pyEndsWith_append_self (a b : String) :
    pyEndsWith (a ++ b) b = true := by
  show b.data.isSuffixOf (a.data ++ b.data) = true
  exact List.isSuffixOf_iff_suffix.mpr (List.suffix_append _ _)

/-- Whatever starts with `s ++ "."`, for dot-free `s`, has first
segment `s`. -/
theorem firstDotSeg_of_startsWith (w s : String)
    (hp : pyStartsWith w (s ++ ".") = true) (h : noDot s = true) :
    firstDotSeg w = s := by
  obtain ⟨t, ht⟩ := List.isPrefixOf_iff_prefix.mp hp
  apply strDataEq
  show w.data.takeWhile _ = s.data
  rw [← ht]
  show ((s.data ++ ['.']) ++ t).takeWhile _ = s.data
  rw [List.append_assoc]
  exact listTakeWhileStop _ _ _ _ h (by decide)

/-- A dot-free string starts with no `s ++ "."`. -/
theorem noDot_not_startsWith (w s : String) (hw : noDot w = true) :
    pyStartsWith w (s ++ ".") = false := by
  cases hp : pyStartsWith w (s ++ ".") with
  | false => rfl
  | true =>
    exfalso
    obtain ⟨t, ht⟩ := List.isPrefixOf_iff_prefix.mp hp
    have : ('.' : Char) ∈ w.data := by
      rw [← ht]
      simp
    have := (List.all_eq_true.mp hw) '.' this
    simp at this

/-- Dropping the `s ++ "."` characters of `s ++ "." ++ t` leaves `t`. -/
theorem pyDrop_append_dot (s t : String) :
    pyDrop (s ++ "." ++ t) (s.length + 1) = t := by
  apply strDataEq
  show ((s.data ++ ['.']) ++ t.data).drop (s.data.length + 1) = t.data
  have hl : s.data.length + 1 = (s.data ++ ['.']).length := by simp
  rw [hl]
  exact List.drop_left _ _

/-- Right cancellation for string append. -/
theorem strApp_right_cancel (a b t : String) (h : a ++ t = b ++ t) :
    a = b := by
  apply strDataEq
  have hd : a.data ++ t.data = b.data ++ t.data := congrArg String.data h
  exact List.append_cancel_right hd

/-- Left cancellation for string append. -/
theorem strApp_left_cancel (p a b : String) (h : p ++ a = p ++ b) :
    a = b := by
  apply strDataEq
  have hd : p.data ++ a.data = p.data ++ b.data := congrArg String.data h
  exact List.append_cancel_left hd

/-- No two distinct type tags are suffixes of one another. -/
theorem tag_not_suffix (t1 t2 : String) (h1 : t1 ∈ typeNames)
    (h2 : t2 ∈ typeNames) (hne : t1 ≠ t2) :
    ¬ ("_" ++ t1).data <:+ ("_" ++ t2).data := by
  fin_cases h1 <;> fin_cases h2 <;> first | (exact absurd rfl hne) | decide

/-- Keys tagged with distinct type names differ, whatever they tag. -/
theorem tagged_ne_tagged (k1 k2 t1 t2 : String) (h1 : t1 ∈ typeNames)
    (h2 : t2 ∈ typeNames) (hne : t1 ≠ t2) :
    k1 ++ "_" ++ t1 ≠ k2 ++ "_" ++ t2 := by
  intro he
  have hs1 : ("_" ++ t1).data <:+ (k1 ++ "_" ++ t1).data := by
    rw [String.append_assoc]
    show ("_" ++ t1).data <:+ k1.data ++ ("_" ++ t1).data
    exact List.suffix_append _ _
  have hs2 : ("_" ++ t2).data <:+ (k1 ++ "_" ++ t1).data := by
    rw [he, String.append_assoc]
    show ("_" ++ t2).data <:+ k2.data ++ ("_" ++ t2).data
    exact List.suffix_append _ _
  rcases List.suffix_or_suffix_of_suffix hs1 hs2 with hh | hh
  · exact tag_not_suffix t1 t2 h1 h2 hne hh
  · exact tag_not_suffix t2 t1 h2 h1 (Ne.symm hne) hh

/-- A clean key never equals a tagged key. -/
theorem clean_ne_tagged (k1 k2 t : String) (hc : cleanKey k1 = true)
    (ht : t ∈ typeNames) : k1 ≠ k2 ++ "_" ++ t := by
  intro he
  have hend := (cleanKey_spec k1 hc t ht).2
  rw [he, String.append_assoc] at hend
  rw [pyEndsWith_append_self] at hend
  cases hend

/-- The tag of a value, when present, is one of the eight type names. -/
theorem tagOf_mem (v : PyVal) (t : String) (h : tagOf v = some t) :
    t ∈ typeNames := by
  cases v <;> simp [tagOf] at h <;> simp [← h, typeNames]

/-- On a clean key, `topKey` appends the tag. -/
theorem topKey_eq (k : String) (v : PyVal) (t : String)
    (hc : cleanKey k = true) (h : tagOf v = some t) :
    topKey k v = k ++ "_" ++ t := by
  have ht := tagOf_mem v t h
  have hs := cleanKey_spec k hc t ht
  simp only [topKey, h]
  exact addTypeIndicator_clean t k hs.1 hs.2

/-- `topKey` is injective across clean keys, whatever the values. -/
theorem topKey_inj (k1 k2 : String) (v1 v2 : PyVal)
    (hc1 : cleanKey k1 = true) (hc2 : cleanKey k2 = true)
    (h : topKey k1 v1 = topKey k2 v2) : k1 = k2 := by
  cases h1 : tagOf v1 with
  | none =>
    cases h2 : tagOf v2 with
    | none => simpa [topKey, h1, h2] using h
    | some t2 =>
      rw [show topKey k1 v1 = k1 by simp [topKey, h1],
        topKey_eq k2 v2 t2 hc2 h2] at h
      exact absurd h (clean_ne_tagged k1 k2 t2 hc1 (tagOf_mem v2 t2 h2))
  | some t1 =>
    cases h2 : tagOf v2 with
    | none =>
      rw [topKey_eq k1 v1 t1 hc1 h1,
        show topKey k2 v2 = k2 by simp [topKey, h2]] at h
      exact absurd h.symm (clean_ne_tagged k2 k1 t1 hc2 (tagOf_mem v1 t1 h1))
    | some t2 =>
      rw [topKey_eq k1 v1 t1 hc1 h1, topKey_eq k2 v2 t2 hc2 h2] at h
      by_cases hte : t1 = t2
      · subst hte
        rw [String.append_assoc, String.append_assoc] at h
        exact strApp_right_cancel _ _ _ h
      · exact absurd h
          (tagged_ne_tagged k1 k2 t1 t2 (tagOf_mem v1 t1 h1)
            (tagOf_mem v2 t2 h2) hte)

/-- The eight type names are dot-free, so tagging keeps `noDot`. -/
theorem noDot_topKey (k : String) (v : PyVal) (hk : noDot k = true)
    (hc : cleanKey k = true) : noDot (topKey k v) = true := by
  cases h : tagOf v with
  | none => simpa [topKey, h] using hk
  | some t =>
    rw [topKey_eq k v t hc h, String.append_assoc, noDot_append, hk]
    have ht := tagOf_mem v t h
    fin_cases ht <;> decide


/-! ### Dict (`PropL`) lemmas -/

/-- Keys of an append. -/
theorem pkeys_append : ∀ (a b : PropL),
    (a.append b).keys = a.keys ++ b.keys
  | .nil, b => rfl
  | .cons k v rest, b => by
    simp [PropL.append, PropL.keys, pkeys_append rest b]

/-- Absent key means not among the keys. -/
theorem plookup_eq_none_iff : ∀ (m : PropL) (k : String),
    m.lookup k = none ↔ k ∉ m.keys
  | .nil, k => by simp [PropL.lookup, PropL.keys]
  | .cons k' v rest, k => by
    by_cases h : k' = k
    · simp [PropL.lookup, PropL.keys, h]
    · simp [PropL.lookup, PropL.keys, h, plookup_eq_none_iff rest k,
        Ne.symm h]

/-- Lookup walks into the right part when absent on the left. -/
theorem plookup_append_none : ∀ (a b : PropL) (k : String),
    a.lookup k = none → (a.append b).lookup k = b.lookup k
  | .nil, b, k, _ => rfl
  | .cons k' v rest, b, k, h => by
    simp only [PropL.lookup] at h
    by_cases hk : k' = k
    · simp [hk] at h
    · simp only [PropL.append, PropL.lookup, if_neg hk]
      exact plookup_append_none rest b k (by simpa [hk] using h)

/-- Lookup stops in the left part when present there. -/
theorem plookup_append_some : ∀ (a b : PropL) (k : String) (v : PyVal),
    a.lookup k = some v → (a.append b).lookup k = some v
  | .nil, b, k, v, h => by simp [PropL.lookup] at h
  | .cons k' v' rest, b, k, v, h => by
    by_cases hk : k' = k
    · simpa [PropL.append, PropL.lookup, hk] using h
    · simp only [PropL.lookup, if_neg hk] at h
      simp only [PropL.append, PropL.lookup, if_neg hk]
      exact plookup_append_some rest b k v h

/-- Writing a fresh key appends the binding. -/
theorem pupsert_fresh : ∀ (m : PropL) (k : String) (v : PyVal),
    m.lookup k = none → m.upsert k v = m.append (.cons k v .nil)
  | .nil, k, v, _ => rfl
  | .cons k' v' rest, k, v, h => by
    simp only [PropL.lookup] at h
    by_cases hk : k' = k
    · simp [hk] at h
    · simp only [PropL.upsert, PropL.append, if_neg hk]
      rw [pupsert_fresh rest k v (by simpa [hk] using h)]

/-- Append is associative. -/
theorem pappend_assoc : ∀ (a b c : PropL),
    (a.append b).append c = a.append (b.append c)
  | .nil, b, c => rfl
  | .cons k v rest, b, c => by
    simp [PropL.append, pappend_assoc rest b c]


/-- Append with an empty right part. -/
theorem pappend_nil : ∀ (a : PropL), a.append .nil = a
  | .nil => rfl
  | .cons k v rest => by simp [PropL.append, pappend_nil rest]


/-- Replaying pairwise-fresh bindings appends them. -/
theorem pupsertMany_fresh : ∀ (b a : PropL),
    (∀ x ∈ b.keys, a.lookup x = none) → b.keys.Nodup →
    a.upsertMany b = a.append b
  | .nil, a, _, _ => by
    rw [show a.upsertMany .nil = a from rfl]
    exact (pappend_nil a).symm
  | .cons k v rest, a, hf, hnd => by
    simp only [PropL.keys, List.nodup_cons] at hnd
    have hk : a.lookup k = none := hf k (by simp [PropL.keys])
    show (a.upsert k v).upsertMany rest = a.append (.cons k v rest)
    rw [pupsert_fresh a k v hk]
    rw [pupsertMany_fresh rest (a.append (.cons k v .nil)) ?_ hnd.2]
    · rw [pappend_assoc]
      rfl
    · intro x hx
      rw [plookup_append_none a _ x (hf x (by simp [PropL.keys, hx]))]
      simp only [PropL.lookup]
      have : ¬ k = x := fun he => hnd.1 (he ▸ hx)
      simp [this]



/-- Keys after prefixing. -/
theorem pkeys_prefixKeys : ∀ (p : String) (m : PropL),
    (PropL.prefixKeys p m).keys = m.keys.map (p ++ ·)
  | p, .nil => rfl
  | p, .cons k v rest => by
    simp [PropL.prefixKeys, PropL.keys, pkeys_prefixKeys p rest]

/-- `subProps` distributes over append. -/
theorem psubProps_append : ∀ (a b : PropL) (s : String),
    (a.append b).subProps s = (a.subProps s).append (b.subProps s)
  | .nil, b, s => rfl
  | .cons k v rest, b, s => by
    simp only [PropL.append, PropL.subProps]
    split
    · simp [PropL.append, psubProps_append rest b s]
    · exact psubProps_append rest b s

/-- Stripping the prefix it just added returns the entries. -/
theorem psubProps_prefixKeys_self : ∀ (s : String) (m : PropL),
    PropL.subProps s (PropL.prefixKeys (s ++ ".") m) = m
  | s, .nil => rfl
  | s, .cons k v rest => by
    simp only [PropL.prefixKeys, PropL.subProps]
    have hsw : pyStartsWith ((s ++ ".") ++ k) (s ++ ".") = true :=
      pyStartsWith_append (s ++ ".") k
    rw [if_pos hsw, pyDrop_append_dot s k, psubProps_prefixKeys_self s rest]

/-- A dict all of whose keys miss a first segment has no `subProps`. -/
theorem psubProps_nil_of_seg : ∀ (m : PropL) (s : String),
    (∀ key ∈ m.keys, pyStartsWith key (s ++ ".") = false) →
    m.subProps s = .nil
  | .nil, s, _ => rfl
  | .cons k v rest, s, h => by
    simp only [PropL.subProps]
    rw [h k (by simp [PropL.keys])]
    simp only [Bool.false_eq_true, if_false]
    exact psubProps_nil_of_seg rest s
      (fun key hk => h key (by simp [PropL.keys, hk]))


/-! ### Structure of the flat form on the well-formed domain -/

/-- Unpacking `wfItems` at a cons. -/
theorem wf_cons (k : String) (v : PyVal) (rest : PropL)
    (h : wfItems (.cons k v rest) = true) :
    noDot k = true ∧ cleanKey k = true ∧ rest.lookup k = none
      ∧ wfVal (flagK k) v = true ∧ wfItems rest = true := by
  simp only [wfItems, Bool.and_eq_true, beq_iff_eq] at h
  exact ⟨h.1.1.1.1, h.1.1.1.2, h.1.1.2, h.1.2, h.2⟩

mutual
/-- The flat block of a well-formed entry is nonempty. -/
theorem flatVal_ne_nil : ∀ (v : PyVal) (k : String) (fl : Bool),
    wfVal fl v = true → flatVal k v ≠ .nil
  | .vnone, k, fl, _ => by simp [flatVal]
  | .str _, k, fl, _ => by simp [flatVal]
  | .floatStr _, k, fl, _ => by simp [flatVal]
  | .isoStr _ _, k, fl, _ => by simp [flatVal]
  | .cellUid _, k, fl, _ => by simp [flatVal]
  | .bool _, k, fl, _ => by simp [flatVal]
  | .int _, k, fl, _ => by simp [flatVal]
  | .float _, k, fl, _ => by simp [flatVal]
  | .angle _, k, fl, _ => by simp [flatVal]
  | .datetime _ _, k, fl, _ => by simp [flatVal]
  | .timedelta _, k, fl, _ => by simp [flatVal]
  | .point _ _, k, fl, _ => by simp [flatVal, PropL.prefixKeys]
  | .cell _, k, fl, _ => by simp [flatVal, PropL.prefixKeys]
  | .geo m, k, fl, h => by
    simp only [wfVal, Bool.and_eq_true, Bool.not_eq_true', beq_eq_false_iff_ne,
      ne_eq] at h
    have := flatItems_ne_nil m h.1 h.2
    simp only [flatVal]
    cases hf : flatItems m with
    | nil => exact absurd hf this
    | cons k2 v2 r2 => simp [PropL.prefixKeys]
  | .dict m, k, fl, h => by
    simp only [wfVal, Bool.and_eq_true, Bool.not_eq_true', beq_eq_false_iff_ne,
      ne_eq] at h
    have := flatItems_ne_nil m h.2.1 h.2.2
    simp only [flatVal]
    cases hf : flatItems m with
    | nil => exact absurd hf this
    | cons k2 v2 r2 => simp [PropL.prefixKeys]

/-- The flat form of a nonempty well-formed dict is nonempty. -/
theorem flatItems_ne_nil : ∀ (m : PropL),
    wfItems m = true → m ≠ .nil → flatItems m ≠ .nil
  | .nil, _, hne => absurd rfl hne
  | .cons k v rest, hwf, _ => by
    obtain ⟨_, _, _, hv, _⟩ := wf_cons k v rest hwf
    have hb := flatVal_ne_nil v k (flagK k) hv
    simp only [flatItems]
    cases hf : flatVal k v with
    | nil => exact absurd hf hb
    | cons k2 v2 r2 => simp [PropL.append]
end

/-- Every key of a well-formed entry's block has the entry's `topKey` as
its first segment. -/
theorem flatVal_keys_fds (k : String) (v : PyVal) (hk : noDot k = true)
    (hc : cleanKey k = true) :
    ∀ key ∈ (flatVal k v).keys, firstDotSeg key = topKey k v := by
  have hnd := noDot_topKey k v hk hc
  cases v with
  | vnone =>
    intro key hkey
    simp only [flatVal, PropL.keys, List.mem_cons, List.not_mem_nil,
      or_false] at hkey
    subst hkey
    exact firstDotSeg_of_noDot _ hnd
  | str t =>
    intro key hkey
    simp only [flatVal, PropL.keys, List.mem_cons, List.not_mem_nil,
      or_false] at hkey
    subst hkey
    exact firstDotSeg_of_noDot _ hnd
  | floatStr q =>
    intro key hkey
    simp only [flatVal, PropL.keys, List.mem_cons, List.not_mem_nil,
      or_false] at hkey
    subst hkey
    exact firstDotSeg_of_noDot _ hnd
  | isoStr us tz =>
    intro key hkey
    simp only [flatVal, PropL.keys, List.mem_cons, List.not_mem_nil,
      or_false] at hkey
    subst hkey
    exact firstDotSeg_of_noDot _ hnd
  | cellUid cs =>
    intro key hkey
    simp only [flatVal, PropL.keys, List.mem_cons, List.not_mem_nil,
      or_false] at hkey
    subst hkey
    exact firstDotSeg_of_noDot _ hnd
  | bool b =>
    intro key hkey
    simp only [flatVal, PropL.keys, List.mem_cons, List.not_mem_nil,
      or_false] at hkey
    subst hkey
    exact firstDotSeg_of_noDot _ hnd
  | int n =>
    intro key hkey
    simp only [flatVal, PropL.keys, List.mem_cons, List.not_mem_nil,
      or_false] at hkey
    subst hkey
    exact firstDotSeg_of_noDot _ hnd
  | float q =>
    intro key hkey
    simp only [flatVal, PropL.keys, List.mem_cons, List.not_mem_nil,
      or_false] at hkey
    subst hkey
    exact firstDotSeg_of_noDot _ hnd
  | angle q =>
    intro key hkey
    simp only [flatVal, PropL.keys, List.mem_cons, List.not_mem_nil,
      or_false] at hkey
    subst hkey
    exact firstDotSeg_of_noDot _ hnd
  | datetime us tz =>
    intro key hkey
    simp only [flatVal, PropL.keys, List.mem_cons, List.not_mem_nil,
      or_false] at hkey
    subst hkey
    exact firstDotSeg_of_noDot _ hnd
  | timedelta us =>
    intro key hkey
    simp only [flatVal, PropL.keys, List.mem_cons, List.not_mem_nil,
      or_false] at hkey
    subst hkey
    exact firstDotSeg_of_noDot _ hnd
  | point lon lat =>
    intro key hkey
    simp only [flatVal, pkeys_prefixKeys, List.mem_map, PropL.keys,
      List.mem_cons, List.not_mem_nil, or_false] at hkey
    rcases hkey with hkey | hkey
    · subst hkey
      show firstDotSeg (topKey k (.point lon lat) ++ "." ++ "lat_float")
        = topKey k (.point lon lat)
      exact firstDotSeg_append_dot _ _ hnd
    · subst hkey
      show firstDotSeg (topKey k (.point lon lat) ++ "." ++ "lon_float")
        = topKey k (.point lon lat)
      exact firstDotSeg_append_dot _ _ hnd
  | cell c =>
    intro key hkey
    simp only [flatVal, pkeys_prefixKeys, List.mem_map, PropL.keys,
      List.mem_cons, List.not_mem_nil, or_false] at hkey
    rcases hkey with hkey | hkey
    · subst hkey
      show firstDotSeg (topKey k (.cell c) ++ "." ++ "radio")
        = topKey k (.cell c)
      exact firstDotSeg_append_dot _ _ hnd
    · subst hkey
      show firstDotSeg (topKey k (.cell c) ++ "." ++ "identifier")
        = topKey k (.cell c)
      exact firstDotSeg_append_dot _ _ hnd
  | geo m =>
    intro key hkey
    simp only [flatVal, pkeys_prefixKeys, List.mem_map] at hkey
    obtain ⟨x, hx, hkey⟩ := hkey
    rw [← hkey]
    show firstDotSeg (topKey k (.geo m) ++ "." ++ x) = topKey k (.geo m)
    exact firstDotSeg_append_dot _ x hnd
  | dict m =>
    intro key hkey
    simp only [flatVal, pkeys_prefixKeys, List.mem_map] at hkey
    obtain ⟨x, hx, hkey⟩ := hkey
    rw [← hkey]
    show firstDotSeg (topKey k (.dict m) ++ "." ++ x) = topKey k (.dict m)
    exact firstDotSeg_append_dot _ x hnd


/-- A fresh clean key's `topKey` is not among the later segments. -/
theorem seg_notin : ∀ (rest : PropL) (k : String) (v : PyVal),
    wfItems rest = true → cleanKey k = true → k ∉ rest.keys →
    topKey k v ∉ segs rest
  | .nil, k, v, _, _, _ => by simp [segs]
  | .cons k2 v2 r2, k, v, hwf, hc, hk => by
    obtain ⟨_, hc2, hlk2, _, hr2⟩ := wf_cons k2 v2 r2 hwf
    simp only [segs, List.mem_cons, not_or]
    constructor
    · intro he
      have := topKey_inj k k2 v v2 hc hc2 he
      exact hk (by simp [PropL.keys, this])
    · exact seg_notin r2 k v hr2 hc
        (fun hm => hk (by simp [PropL.keys, hm]))

/-- The segments of a well-formed item are pairwise distinct. -/
theorem segs_nodup : ∀ (m : PropL), wfItems m = true → (segs m).Nodup
  | .nil, _ => by simp [segs]
  | .cons k v rest, hwf => by
    obtain ⟨_, hc, hlk, _, hr⟩ := wf_cons k v rest hwf
    simp only [segs, List.nodup_cons]
    exact ⟨seg_notin rest k v hr hc ((plookup_eq_none_iff rest k).mp hlk),
      segs_nodup rest hr⟩

/-- Every flat key's first segment is one of the item's segments. -/
theorem flatItems_keys_fds : ∀ (m : PropL), wfItems m = true →
    ∀ key ∈ (flatItems m).keys, firstDotSeg key ∈ segs m
  | .nil, _, key, hkey => by simp [flatItems, PropL.keys] at hkey
  | .cons k v rest, hwf, key, hkey => by
    obtain ⟨hk, hc, _, _, hr⟩ := wf_cons k v rest hwf
    rw [show flatItems (.cons k v rest) = (flatVal k v).append (flatItems rest)
      from rfl, pkeys_append, List.mem_append] at hkey
    simp only [segs, List.mem_cons]
    rcases hkey with hkey | hkey
    · exact .inl (flatVal_keys_fds k v hk hc key hkey)
    · exact .inr (flatItems_keys_fds rest hr key hkey)

mutual
/-- The keys of a well-formed entry's block are pairwise distinct. -/
theorem flatVal_keys_nodup : ∀ (v : PyVal) (k : String) (fl : Bool),
    wfVal fl v = true → (flatVal k v).keys.Nodup
  | .vnone, k, fl, _ => by simp [flatVal, PropL.keys]
  | .str _, k, fl, _ => by simp [flatVal, PropL.keys]
  | .floatStr _, k, fl, _ => by simp [flatVal, PropL.keys]
  | .isoStr _ _, k, fl, _ => by simp [flatVal, PropL.keys]
  | .cellUid _, k, fl, _ => by simp [flatVal, PropL.keys]
  | .bool _, k, fl, _ => by simp [flatVal, PropL.keys]
  | .int _, k, fl, _ => by simp [flatVal, PropL.keys]
  | .float _, k, fl, _ => by simp [flatVal, PropL.keys]
  | .angle _, k, fl, _ => by simp [flatVal, PropL.keys]
  | .datetime _ _, k, fl, _ => by simp [flatVal, PropL.keys]
  | .timedelta _, k, fl, _ => by simp [flatVal, PropL.keys]
  | .point lon lat, k, fl, _ => by
    simp only [flatVal, pkeys_prefixKeys]
    refine List.Nodup.map (fun a b h => strApp_left_cancel _ a b h) ?_
    simp [PropL.keys]
  | .cell c, k, fl, _ => by
    simp only [flatVal, pkeys_prefixKeys]
    refine List.Nodup.map (fun a b h => strApp_left_cancel _ a b h) ?_
    simp [PropL.keys]
  | .geo m, k, fl, h => by
    simp only [wfVal, Bool.and_eq_true] at h
    simp only [flatVal, pkeys_prefixKeys]
    exact List.Nodup.map (fun a b hab => strApp_left_cancel _ a b hab)
      (flatItems_keys_nodup m h.1)
  | .dict m, k, fl, h => by
    simp only [wfVal, Bool.and_eq_true] at h
    simp only [flatVal, pkeys_prefixKeys]
    exact List.Nodup.map (fun a b hab => strApp_left_cancel _ a b hab)
      (flatItems_keys_nodup m h.2.1)

/-- The flat form of a well-formed item has pairwise-distinct keys. -/
theorem flatItems_keys_nodup : ∀ (m : PropL),
    wfItems m = true → (flatItems m).keys.Nodup
  | .nil, _ => by simp [flatItems, PropL.keys]
  | .cons k v rest, hwf => by
    obtain ⟨hk, hc, hlk, hv, hr⟩ := wf_cons k v rest hwf
    rw [show flatItems (.cons k v rest) = (flatVal k v).append (flatItems rest)
      from rfl, pkeys_append]
    refine List.Nodup.append (flatVal_keys_nodup v k (flagK k) hv)
      (flatItems_keys_nodup rest hr) ?_
    intro a ha hb
    have h1 := flatVal_keys_fds k v hk hc a ha
    have h2 := flatItems_keys_fds rest hr a hb
    rw [h1] at h2
    exact seg_notin rest k v hr hc ((plookup_eq_none_iff rest k).mp hlk) h2
end

/-- First-occurrence dedup of a constant run followed by anything. -/
theorem dedupFO_group : ∀ (l1 : List String) (s : String)
    (l2 : List String), l1 ≠ [] → (∀ x ∈ l1, x = s) →
    dedupFO (l1 ++ l2) = s :: (dedupFO l2).filter (· ≠ s)
  | [], s, l2, h, _ => absurd rfl h
  | x :: l1, s, l2, _, hall => by
    have hx : x = s := hall x (by simp)
    subst hx
    cases l1 with
    | nil => simp [dedupFO]
    | cons y t =>
      have hstep : dedupFO (x :: ((y :: t) ++ l2))
          = x :: (dedupFO ((y :: t) ++ l2)).filter (· ≠ x) := rfl
      show dedupFO (x :: ((y :: t) ++ l2))
        = x :: (dedupFO l2).filter (· ≠ x)
      rw [hstep, dedupFO_group (y :: t) x l2 (by simp)
        (fun z hz => hall z (by simp [hz]))]
      simp [List.filter_filter]

/-- On a well-formed item, the `top_level` prefixes of the flat form are
exactly the item's segments, in entry order. -/
theorem topLevel_flat : ∀ (m : PropL), wfItems m = true →
    topLevel (flatItems m) = segs m
  | .nil, _ => rfl
  | .cons k v rest, hwf => by
    obtain ⟨hk, hc, hlk, hv, hr⟩ := wf_cons k v rest hwf
    show dedupFO (((flatVal k v).append (flatItems rest)).keys.map
      firstDotSeg) = topKey k v :: segs rest
    rw [pkeys_append, List.map_append]
    have hne : (flatVal k v).keys.map firstDotSeg ≠ [] := by
      have hb := flatVal_ne_nil v k (flagK k) hv
      cases hfv : flatVal k v with
      | nil => exact absurd hfv hb
      | cons k2 v2 r2 => simp [PropL.keys]
    have hall : ∀ x ∈ (flatVal k v).keys.map firstDotSeg, x = topKey k v := by
      intro x hx
      rw [List.mem_map] at hx
      obtain ⟨key, hkey, hfd⟩ := hx
      rw [← hfd]
      exact flatVal_keys_fds k v hk hc key hkey
    rw [dedupFO_group _ (topKey k v) _ hne hall]
    rw [show dedupFO ((flatItems rest).keys.map firstDotSeg)
      = topLevel (flatItems rest) from rfl, topLevel_flat rest hr]
    congr 1
    apply List.filter_eq_self.mpr
    intro a ha
    have := seg_notin rest k v hr hc ((plookup_eq_none_iff rest k).mp hlk)
    simp only [ne_eq, decide_eq_true_eq]
    intro he
    exact this (he ▸ ha)


/-! ### The collapse direction: `_collapse_dict` computes the flat form -/

/-- A rendered float string passes through the encoder unchanged. -/
theorem serialize_val_floatStr (k : String) (q : ℚ) :
    serializeProp CELL_MEASUREMENT_SERIALIZERS [] k (.floatStr q)
      = .ok (k, .floatStr q) := by
  by_cases h1 : firstUnderscoreSeg k = "is" <;>
    by_cases h2 : firstUnderscoreSeg k = "has" <;>
      simp [serializeProp, CELL_MEASUREMENT_SERIALIZERS, serializeWgs84,
        serializeAngle, serializeTimestamp, serializeDuration, serializeCell,
        serializeLocationInfo, serializeInteger, serializeFloat,
        serializeBoolean, h1, h2]

/-- An ISO timestamp string passes through the encoder unchanged. -/
theorem serialize_val_isoStr (k : String) (us : Int) (tz : Option Int) :
    serializeProp CELL_MEASUREMENT_SERIALIZERS [] k (.isoStr us tz)
      = .ok (k, .isoStr us tz) := by
  by_cases h1 : firstUnderscoreSeg k = "is" <;>
    by_cases h2 : firstUnderscoreSeg k = "has" <;>
      simp [serializeProp, CELL_MEASUREMENT_SERIALIZERS, serializeWgs84,
        serializeAngle, serializeTimestamp, serializeDuration, serializeCell,
        serializeLocationInfo, serializeInteger, serializeFloat,
        serializeBoolean, h1, h2]

/-- A rendered cell identifier string passes through the encoder
unchanged. -/
theorem serialize_val_cellUid (k : String) (cs : List (Option Int)) :
    serializeProp CELL_MEASUREMENT_SERIALIZERS [] k (.cellUid cs)
      = .ok (k, .cellUid cs) := by
  by_cases h1 : firstUnderscoreSeg k = "is" <;>
    by_cases h2 : firstUnderscoreSeg k = "has" <;>
      simp [serializeProp, CELL_MEASUREMENT_SERIALIZERS, serializeWgs84,
        serializeAngle, serializeTimestamp, serializeDuration, serializeCell,
        serializeLocationInfo, serializeInteger, serializeFloat,
        serializeBoolean, h1, h2]

/-- A value that is neither a dict nor a `LocationInfo` (the collapse
loop stores it as-is). -/
def notDictish : PyVal → Bool
  | .dict _ => false
  | .geo _ => false
  | _ => true

/-- One scalar step of the collapse loop. -/
theorem collapseGo_cons_scalar_eq (fuel : Nat) (bl : List SerId)
    (acc : PropL) (k : String) (v : PyVal) (rest : PropL) (key' : String)
    (v' : PyVal) (hstep : collapseStep bl k v = .ok (key', v'))
    (hnd : notDictish v' = true) :
    collapseGo (fuel + 1) bl acc (.cons k v rest)
      = collapseGo fuel bl (acc.upsert key' v') rest := by
  cases v' <;>
    first
      | (rw [show notDictish (PyVal.dict _) = false from rfl] at hnd
         cases hnd)
      | (rw [show notDictish (PyVal.geo _) = false from rfl] at hnd
         cases hnd)
      | simp only [collapseGo, hstep]

/-- One nested-map step of the collapse loop. -/
theorem collapseGo_cons_dict_eq (fuel : Nat) (bl : List SerId)
    (acc : PropL) (k : String) (v : PyVal) (rest : PropL) (key' : String)
    (minner : PropL)
    (hstep : collapseStep bl k v = .ok (key', .dict minner)) :
    collapseGo (fuel + 1) bl acc (.cons k v rest)
      = match collapseGo fuel bl .nil minner with
        | .error e => .error e
        | .ok sub =>
          collapseGo fuel bl
            (acc.upsertMany (sub.prefixKeys (key' ++ "."))) rest := by
  simp only [collapseGo, hstep]

/-- One `LocationInfo` step of the collapse loop. -/
theorem collapseGo_cons_geo_eq (fuel : Nat) (bl : List SerId)
    (acc : PropL) (k : String) (v : PyVal) (rest : PropL) (key' : String)
    (minner : PropL)
    (hstep : collapseStep bl k v = .ok (key', .geo minner)) :
    collapseGo (fuel + 1) bl acc (.cons k v rest)
      = match collapseGo fuel bl .nil minner with
        | .error e => .error e
        | .ok sub =>
          collapseGo fuel bl
            (acc.upsertMany (sub.prefixKeys (key' ++ "."))) rest := by
  simp only [collapseGo, hstep]


/-- Freshness and distinctness transport one scalar collapse step. -/
theorem collapse_step_scalar (fuel : Nat) (k key' : String) (v v' : PyVal)
    (rest acc : PropL)
    (hstep : collapseStep [] k v = .ok (key', v'))
    (hnd : notDictish v' = true)
    (hblock : flatVal k v = .cons key' v' .nil)
    (hkeysnd : (flatItems (.cons k v rest)).keys.Nodup)
    (hacc : ∀ x ∈ (flatItems (.cons k v rest)).keys, acc.lookup x = none)
    (ih : ∀ acc2 : PropL,
      (∀ x ∈ (flatItems rest).keys, acc2.lookup x = none) →
      collapseGo fuel [] acc2 rest = .ok (acc2.append (flatItems rest))) :
    collapseGo (fuel + 1) [] acc (.cons k v rest)
      = .ok (acc.append (flatItems (.cons k v rest))) := by
  have hfl : flatItems (.cons k v rest)
      = (flatVal k v).append (flatItems rest) := rfl
  have hkeys : (flatItems (.cons k v rest)).keys
      = key' :: (flatItems rest).keys := by
    rw [hfl, pkeys_append, hblock]
    rfl
  have hfresh : acc.lookup key' = none := by
    apply hacc
    rw [hkeys]
    simp
  have hnotin : key' ∉ (flatItems rest).keys := by
    rw [hkeys] at hkeysnd
    exact (List.nodup_cons.mp hkeysnd).1
  rw [collapseGo_cons_scalar_eq fuel [] acc k v rest key' v' hstep hnd,
    pupsert_fresh acc key' v' hfresh]
  rw [ih (acc.append (.cons key' v' .nil)) ?_]
  · rw [pappend_assoc, hfl, hblock]
  · intro x hx
    rw [plookup_append_none acc _ x (hacc x (by rw [hkeys]; simp [hx]))]
    simp only [PropL.lookup]
    have : ¬ key' = x := fun he => hnotin (he ▸ hx)
    simp [this]

/-- Freshness and distinctness transport one composite collapse step
(the `isinstance(value, dict)` branch, for a serialized dict). -/
theorem collapse_step_dictlike (fuel : Nat) (k key' : String) (v : PyVal)
    (minner : PropL) (rest acc : PropL)
    (hstep : collapseStep [] k v = .ok (key', .dict minner))
    (hblock : flatVal k v
      = PropL.prefixKeys (key' ++ ".") (flatItems minner))
    (hsub : collapseGo fuel [] .nil minner = .ok (flatItems minner))
    (hkeysnd : (flatItems (.cons k v rest)).keys.Nodup)
    (hacc : ∀ x ∈ (flatItems (.cons k v rest)).keys, acc.lookup x = none)
    (ih : ∀ acc2 : PropL,
      (∀ x ∈ (flatItems rest).keys, acc2.lookup x = none) →
      collapseGo fuel [] acc2 rest = .ok (acc2.append (flatItems rest))) :
    collapseGo (fuel + 1) [] acc (.cons k v rest)
      = .ok (acc.append (flatItems (.cons k v rest))) := by
  have hfl : flatItems (.cons k v rest)
      = (flatVal k v).append (flatItems rest) := rfl
  have hkeys : (flatItems (.cons k v rest)).keys
      = (flatVal k v).keys ++ (flatItems rest).keys := by
    rw [hfl, pkeys_append]
  have hbnd : (flatVal k v).keys.Nodup := by
    rw [hkeys] at hkeysnd
    exact hkeysnd.of_append_left
  have hdisj : ∀ x ∈ (flatVal k v).keys, x ∉ (flatItems rest).keys := by
    rw [hkeys] at hkeysnd
    intro x hx
    exact fun hy => (List.disjoint_of_nodup_append hkeysnd) hx hy
  rw [collapseGo_cons_dict_eq fuel [] acc k v rest key' minner hstep, hsub]
  show collapseGo fuel []
    (acc.upsertMany ((flatItems minner).prefixKeys (key' ++ "."))) rest = _
  rw [← hblock]
  rw [pupsertMany_fresh (flatVal k v) acc ?_ hbnd]
  · rw [ih ((acc.append (flatVal k v))) ?_]
    · rw [pappend_assoc, hfl]
    · intro x hx
      rw [plookup_append_none acc _ x (hacc x (by rw [hkeys]; simp [hx]))]
      rw [plookup_eq_none_iff]
      intro hmem
      exact hdisj x hmem hx
  · intro x hx
    exact hacc x (by rw [hkeys]; simp [hx])

/-- Like `collapse_step_dictlike`, for the `LocationInfo` arm. -/
theorem collapse_step_geolike (fuel : Nat) (k key' : String) (v : PyVal)
    (minner : PropL) (rest acc : PropL)
    (hstep : collapseStep [] k v = .ok (key', .geo minner))
    (hblock : flatVal k v
      = PropL.prefixKeys (key' ++ ".") (flatItems minner))
    (hsub : collapseGo fuel [] .nil minner = .ok (flatItems minner))
    (hkeysnd : (flatItems (.cons k v rest)).keys.Nodup)
    (hacc : ∀ x ∈ (flatItems (.cons k v rest)).keys, acc.lookup x = none)
    (ih : ∀ acc2 : PropL,
      (∀ x ∈ (flatItems rest).keys, acc2.lookup x = none) →
      collapseGo fuel [] acc2 rest = .ok (acc2.append (flatItems rest))) :
    collapseGo (fuel + 1) [] acc (.cons k v rest)
      = .ok (acc.append (flatItems (.cons k v rest))) := by
  have hfl : flatItems (.cons k v rest)
      = (flatVal k v).append (flatItems rest) := rfl
  have hkeys : (flatItems (.cons k v rest)).keys
      = (flatVal k v).keys ++ (flatItems rest).keys := by
    rw [hfl, pkeys_append]
  have hbnd : (flatVal k v).keys.Nodup := by
    rw [hkeys] at hkeysnd
    exact hkeysnd.of_append_left
  have hdisj : ∀ x ∈ (flatVal k v).keys, x ∉ (flatItems rest).keys := by
    rw [hkeys] at hkeysnd
    intro x hx
    exact fun hy => (List.disjoint_of_nodup_append hkeysnd) hx hy
  rw [collapseGo_cons_geo_eq fuel [] acc k v rest key' minner hstep, hsub]
  show collapseGo fuel []
    (acc.upsertMany ((flatItems minner).prefixKeys (key' ++ "."))) rest = _
  rw [← hblock]
  rw [pupsertMany_fresh (flatVal k v) acc ?_ hbnd]
  · rw [ih ((acc.append (flatVal k v))) ?_]
    · rw [pappend_assoc, hfl]
    · intro x hx
      rw [plookup_append_none acc _ x (hacc x (by rw [hkeys]; simp [hx]))]
      rw [plookup_eq_none_iff]
      intro hmem
      exact hdisj x hmem hx
  · intro x hx
    exact hacc x (by rw [hkeys]; simp [hx])


/-- On a well-formed item, `_collapse_dict`'s worker produces exactly
the flat form, appended to the accumulator (no key is ever
overwritten). -/
theorem collapseGo_flat : ∀ (n : Nat) (m : PropL), plW m ≤ n →
    wfItems m = true → ∀ (fuel : Nat), plW m + 1 ≤ fuel → ∀ (acc : PropL),
    (∀ x ∈ (flatItems m).keys, acc.lookup x = none) →
    collapseGo fuel [] acc m = .ok (acc.append (flatItems m))
  | _, .nil, _, _, 0, hfuel, _, _ => by simp [plW] at hfuel
  | _, .nil, _, _, fuel + 1, _, acc, _ => by
    show Except.ok acc = Except.ok (acc.append PropL.nil)
    rw [pappend_nil]
  | _, .cons k v rest, _, _, 0, hfuel, _, _ => by
    simp only [plW] at hfuel
    omega
  | 0, .cons k v rest, hn, _, _ + 1, _, _, _ => by
    exfalso
    have := pvW_pos v
    simp only [plW] at hn
    omega
  | n + 1, .cons k v rest, hn, hwf, fuel + 1, hfuel, acc, hacc => by
    obtain ⟨hk, hc, hlk, hv, hr⟩ := wf_cons k v rest hwf
    have hnd2 := flatItems_keys_nodup (.cons k v rest) hwf
    simp only [plW] at hn hfuel
    have hvpos := pvW_pos v
    have hplr : plW rest ≤ n := by omega
    have hfuelr : plW rest + 1 ≤ fuel := by omega
    have ihrest : ∀ acc2 : PropL,
        (∀ x ∈ (flatItems rest).keys, acc2.lookup x = none) →
        collapseGo fuel [] acc2 rest = .ok (acc2.append (flatItems rest)) :=
      fun acc2 hacc2 => collapseGo_flat n rest hplr hr fuel hfuelr acc2 hacc2
    cases v with
    | vnone =>
      exact collapse_step_scalar fuel k k .vnone .vnone rest acc rfl rfl rfl
        hnd2 hacc ihrest
    | str t =>
      exact collapse_step_scalar fuel k k (.str t) (.str t) rest acc
        (serialize_val_str k t) rfl rfl hnd2 hacc ihrest
    | floatStr q =>
      exact collapse_step_scalar fuel k k (.floatStr q) (.floatStr q) rest acc
        (serialize_val_floatStr k q) rfl rfl hnd2 hacc ihrest
    | isoStr us tz =>
      exact collapse_step_scalar fuel k k (.isoStr us tz) (.isoStr us tz)
        rest acc (serialize_val_isoStr k us tz) rfl rfl hnd2 hacc ihrest
    | cellUid cs =>
      exact collapse_step_scalar fuel k k (.cellUid cs) (.cellUid cs) rest acc
        (serialize_val_cellUid k cs) rfl rfl hnd2 hacc ihrest
    | bool b =>
      simp only [wfVal] at hv
      have hf : firstUnderscoreSeg k = "is" ∨ firstUnderscoreSeg k = "has" := by
        simp only [flagK, Bool.or_eq_true, beq_iff_eq] at hv
        exact hv
      exact collapse_step_scalar fuel k k (.bool b) (.bool b) rest acc
        (serialize_val_bool k hf b) rfl rfl hnd2 hacc ihrest
    | int n2 =>
      exact collapse_step_scalar fuel k (addTypeIndicator "int" k) (.int n2)
        (.int n2) rest acc (serialize_val_int k n2) rfl rfl hnd2 hacc ihrest
    | float q =>
      exact collapse_step_scalar fuel k (addTypeIndicator "float" k)
        (.float q) (.float q) rest acc (serialize_val_float k q) rfl rfl
        hnd2 hacc ihrest
    | angle q =>
      exact collapse_step_scalar fuel k (addTypeIndicator "degrees" k)
        (.angle q) (.floatStr q) rest acc (serialize_val_angle k q) rfl rfl
        hnd2 hacc ihrest
    | datetime us tz =>
      exact collapse_step_scalar fuel k (addTypeIndicator "timestamp" k)
        (.datetime us tz) (.isoStr us tz) rest acc
        (serialize_val_datetime k us tz) rfl rfl hnd2 hacc ihrest
    | timedelta us =>
      exact collapse_step_scalar fuel k (addTypeIndicator "timedelta" k)
        (.timedelta us) (.floatStr ((us : ℚ) / 1000000)) rest acc
        (serialize_val_timedelta k us) rfl rfl hnd2 hacc ihrest
    | point lon lat =>
      have hwfin : wfItems (.cons "lat" (.float lat)
          (.cons "lon" (.float lon) .nil)) = true := rfl
      simp only [pvW] at hn hfuel
      have hplin : plW (.cons "lat" (.float lat)
          (.cons "lon" (.float lon) .nil)) ≤ n := by
        show 4 ≤ n
        omega
      have hfuelin : plW (.cons "lat" (.float lat)
          (.cons "lon" (.float lon) .nil)) + 1 ≤ fuel := by
        show 5 ≤ fuel
        omega
      have hsub := collapseGo_flat n _ hplin hwfin fuel hfuelin .nil
        (fun x hx => rfl)
      have hin : flatItems (.cons "lat" (.float lat)
            (.cons "lon" (.float lon) .nil))
          = .cons "lat_float" (.float lat)
              (.cons "lon_float" (.float lon) .nil) := by
        simp [flatItems, flatVal, PropL.append,
          show addTypeIndicator "float" "lat" = "lat_float" from by decide,
          show addTypeIndicator "float" "lon" = "lon_float" from by decide]
      refine collapse_step_dictlike fuel k (addTypeIndicator "wgs84" k)
        (.point lon lat) _ rest acc (serialize_val_point k lon lat) ?_
        hsub hnd2 hacc ihrest
      rw [hin]
      rfl
    | cell c =>
      simp only [pvW] at hn hfuel
      cases hradio : CellIdentity.radio c with
      | some r =>
        have hwfin : wfItems (.cons "radio" (.str r) (.cons "identifier"
            (.cellUid (CellIdentity.uidComps c)) .nil)) = true := rfl
        have hplin : plW (.cons "radio" (.str r) (.cons "identifier"
            (.cellUid (CellIdentity.uidComps c)) .nil)) ≤ n := by
          show 4 ≤ n
          omega
        have hfuelin : plW (.cons "radio" (.str r) (.cons "identifier"
            (.cellUid (CellIdentity.uidComps c)) .nil)) + 1 ≤ fuel := by
          show 5 ≤ fuel
          omega
        have hsub := collapseGo_flat n _ hplin hwfin fuel hfuelin .nil
          (fun x hx => rfl)
        have hstep : collapseStep [] k (.cell c)
            = .ok (addTypeIndicator "cell" k,
                .dict (.cons "radio" (.str r) (.cons "identifier"
                  (.cellUid (CellIdentity.uidComps c)) .nil))) := by
          rw [show collapseStep [] k (.cell c)
            = serializeProp CELL_MEASUREMENT_SERIALIZERS [] k (.cell c)
            from rfl, serialize_val_cell k c, hradio]
        refine collapse_step_dictlike fuel k (addTypeIndicator "cell" k)
          (.cell c) _ rest acc hstep ?_ hsub hnd2 hacc ihrest
        show PropL.prefixKeys (addTypeIndicator "cell" k ++ ".")
            (.cons "radio"
              (match CellIdentity.radio c with
               | some r => .str r | none => .vnone)
              (.cons "identifier"
                (.cellUid (CellIdentity.uidComps c)) .nil)) = _
        rw [hradio]
        rfl
      | none =>
        have hwfin : wfItems (.cons "radio" .vnone (.cons "identifier"
            (.cellUid (CellIdentity.uidComps c)) .nil)) = true := rfl
        have hplin : plW (.cons "radio" .vnone (.cons "identifier"
            (.cellUid (CellIdentity.uidComps c)) .nil)) ≤ n := by
          show 4 ≤ n
          omega
        have hfuelin : plW (.cons "radio" .vnone (.cons "identifier"
            (.cellUid (CellIdentity.uidComps c)) .nil)) + 1 ≤ fuel := by
          show 5 ≤ fuel
          omega
        have hsub := collapseGo_flat n _ hplin hwfin fuel hfuelin .nil
          (fun x hx => rfl)
        have hstep : collapseStep [] k (.cell c)
            = .ok (addTypeIndicator "cell" k,
                .dict (.cons "radio" .vnone (.cons "identifier"
                  (.cellUid (CellIdentity.uidComps c)) .nil))) := by
          rw [show collapseStep [] k (.cell c)
            = serializeProp CELL_MEASUREMENT_SERIALIZERS [] k (.cell c)
            from rfl, serialize_val_cell k c, hradio]
        refine collapse_step_dictlike fuel k (addTypeIndicator "cell" k)
          (.cell c) _ rest acc hstep ?_ hsub hnd2 hacc ihrest
        show PropL.prefixKeys (addTypeIndicator "cell" k ++ ".")
            (.cons "radio"
              (match CellIdentity.radio c with
               | some r => .str r | none => .vnone)
              (.cons "identifier"
                (.cellUid (CellIdentity.uidComps c)) .nil)) = _
        rw [hradio]
        rfl
    | geo m2 =>
      simp only [wfVal, Bool.and_eq_true, Bool.not_eq_true',
        beq_eq_false_iff_ne, ne_eq] at hv
      simp only [pvW] at hn hfuel
      have hplin : plW m2 ≤ n := by omega
      have hfuelin : plW m2 + 1 ≤ fuel := by omega
      have hsub := collapseGo_flat n m2 hplin hv.1 fuel hfuelin .nil
        (fun x hx => rfl)
      exact collapse_step_geolike fuel k (addTypeIndicator "geo" k)
        (.geo m2) m2 rest acc (serialize_val_geo k m2) rfl hsub hnd2 hacc
        ihrest
    | dict m2 =>
      simp only [wfVal, Bool.and_eq_true, Bool.not_eq_true',
        beq_eq_false_iff_ne, ne_eq] at hv
      simp only [pvW] at hn hfuel
      have hplin : plW m2 ≤ n := by omega
      have hfuelin : plW m2 + 1 ≤ fuel := by omega
      have hsub := collapseGo_flat n m2 hplin hv.2.1 fuel hfuelin .nil
        (fun x hx => rfl)
      exact collapse_step_dictlike fuel k k (.dict m2) m2 rest acc
        (serialize_val_dict k m2) rfl hsub hnd2 hacc ihrest

/-- On a well-formed item, `_collapse_dict` returns exactly the flat
form. -/
theorem collapseDict_flat (m : PropL) (hwf : wfItems m = true) :
    collapseDict [] m = .ok (flatItems m) :=
  collapseGo_flat (plW m) m (le_refl _) hwf (plW m + 1) (le_refl _) .nil
    (fun x hx => rfl)


/-! ### The expand direction: decoding each flat entry -/

/-- Decoding an `_int`-tagged integer recovers the entry. -/
theorem des_int (k : String) (hc : cleanKey k = true) (n : Int) :
    deserializeProp CELL_MEASUREMENT_SERIALIZERS (addTypeIndicator "int" k)
      (.int n) = .ok (k, .int n) := by
  obtain ⟨hne, hsuf⟩ := cleanKey_spec k hc "int" (by decide)
  have h := roundTrip_int k hne hsuf n
  unfold roundTripProp at h
  rw [serialize_val_int] at h
  exact h

/-- Decoding a `_float`-tagged float recovers the entry. -/
theorem des_float (k : String) (hc : cleanKey k = true) (q : ℚ) :
    deserializeProp CELL_MEASUREMENT_SERIALIZERS (addTypeIndicator "float" k)
      (.float q) = .ok (k, .float q) := by
  obtain ⟨hne, hsuf⟩ := cleanKey_spec k hc "float" (by decide)
  have h := roundTrip_float k hne hsuf q
  unfold roundTripProp at h
  rw [serialize_val_float] at h
  exact h

/-- Decoding a `_degrees`-tagged rendered angle recovers the entry. -/
theorem des_angle (k : String) (hc : cleanKey k = true) (q : ℚ) :
    deserializeProp CELL_MEASUREMENT_SERIALIZERS
      (addTypeIndicator "degrees" k) (.floatStr q) = .ok (k, .angle q) := by
  obtain ⟨hne, hsuf⟩ := cleanKey_spec k hc "degrees" (by decide)
  have h := roundTrip_angle k hne hsuf q
  unfold roundTripProp at h
  rw [serialize_val_angle] at h
  exact h

/-- Decoding a `_timestamp`-tagged ISO string recovers the entry. -/
theorem des_datetime (k : String) (hc : cleanKey k = true) (us : Int)
    (tz : Option Int) :
    deserializeProp CELL_MEASUREMENT_SERIALIZERS
      (addTypeIndicator "timestamp" k) (.isoStr us tz)
      = .ok (k, .datetime us tz) := by
  obtain ⟨hne, hsuf⟩ := cleanKey_spec k hc "timestamp" (by decide)
  have h := roundTrip_datetime k hne hsuf us tz
  unfold roundTripProp at h
  rw [serialize_val_datetime] at h
  exact h

/-- Decoding a `_timedelta`-tagged rendered duration recovers the
entry. -/
theorem des_timedelta (k : String) (hc : cleanKey k = true) (us : Int) :
    deserializeProp CELL_MEASUREMENT_SERIALIZERS
      (addTypeIndicator "timedelta" k) (.floatStr ((us : ℚ) / 1000000))
      = .ok (k, .timedelta us) := by
  obtain ⟨hne, hsuf⟩ := cleanKey_spec k hc "timedelta" (by decide)
  have h := roundTrip_timedelta k hne hsuf us
  unfold roundTripProp at h
  rw [serialize_val_timedelta] at h
  exact h

/-- Decoding a `_wgs84`-tagged lat/lon dict recovers the point. -/
theorem des_point (k : String) (hc : cleanKey k = true) (lon lat : ℚ)
    (h1 : -90 ≤ lat) (h2 : lat ≤ 90) (h3 : -180 ≤ lon) (h4 : lon ≤ 180) :
    deserializeProp CELL_MEASUREMENT_SERIALIZERS
      (addTypeIndicator "wgs84" k)
      (.dict (.cons "lat" (.float lat) (.cons "lon" (.float lon) .nil)))
      = .ok (k, .point lon lat) := by
  obtain ⟨hne, hsuf⟩ := cleanKey_spec k hc "wgs84" (by decide)
  have h := roundTrip_point k hne hsuf lon lat h1 h2 h3 h4
  unfold roundTripProp at h
  rw [serialize_val_point] at h
  exact h

/-- Decoding a `_cell`-tagged radio/identifier dict recovers the cell. -/
theorem des_cell (k : String) (hc : cleanKey k = true) (c : CellIdentity)
    (hok : CellIdentity.cellOK c = true) :
    deserializeProp CELL_MEASUREMENT_SERIALIZERS
      (addTypeIndicator "cell" k)
      (.dict (.cons "radio"
        (match CellIdentity.radio c with | some r => .str r | none => .vnone)
        (.cons "identifier" (.cellUid (CellIdentity.uidComps c)) .nil)))
      = .ok (k, .cell c) := by
  obtain ⟨hne, hsuf⟩ := cleanKey_spec k hc "cell" (by decide)
  have h := roundTrip_cell k hne hsuf c hok
  unfold roundTripProp at h
  rw [serialize_val_cell] at h
  exact h

/-- Decoding a `_geo`-tagged expanded dict rebuilds the
`LocationInfo`. -/
theorem des_geo_dict (k : String) (hc : cleanKey k = true) (m : PropL) :
    deserializeProp CELL_MEASUREMENT_SERIALIZERS (addTypeIndicator "geo" k)
      (.dict m) = .ok (k, .geo m) := by
  obtain ⟨hne, hsuf⟩ := cleanKey_spec k hc "geo" (by decide)
  rw [addTypeIndicator_clean "geo" k hne hsuf]
  show deserializeProp CELL_MEASUREMENT_SERIALIZERS (k ++ "_" ++ "geo")
    (.dict m) = Except.ok (k, PyVal.geo m)
  rw [deserialize_tag_geo]
  simp only [serializeLocationInfo]
  rw [String.append_assoc, removeTypeIndicator_append]

/-- Decoding a boolean under a clean flagged key returns it. -/
theorem des_bool (k : String) (hc : cleanKey k = true)
    (hf : firstUnderscoreSeg k = "is" ∨ firstUnderscoreSeg k = "has")
    (b : Bool) :
    deserializeProp CELL_MEASUREMENT_SERIALIZERS k (.bool b)
      = .ok (k, .bool b) := by
  have h := roundTrip_bool k hc hf b
  unfold roundTripProp at h
  rw [serialize_val_bool k hf b] at h
  exact h

/-- On a clean unflagged key, no serializer claims the entry: the
decoder passes the pair through unchanged. -/
theorem des_clean_noflag (k : String) (hc : cleanKey k = true)
    (hnf : flagK k = false) (v : PyVal) :
    deserializeProp CELL_MEASUREMENT_SERIALIZERS k v = .ok (k, v) := by
  simp only [cleanKey, typeNames, List.all_cons, List.all_nil, Bool.and_true,
    Bool.and_eq_true, bne_iff_ne, ne_eq, Bool.not_eq_true'] at hc
  obtain ⟨⟨h1, h1e⟩, ⟨h2, h2e⟩, ⟨h3, h3e⟩, ⟨h4, h4e⟩, ⟨h5, h5e⟩, ⟨h6, h6e⟩,
    ⟨h7, h7e⟩, ⟨h8, h8e⟩⟩ := hc
  simp only [flagK, Bool.or_eq_false_iff, beq_eq_false_iff_ne, ne_eq] at hnf
  simp only [deserializeProp, CELL_MEASUREMENT_SERIALIZERS, serializeWgs84,
    serializeAngle, serializeTimestamp, serializeDuration, serializeCell,
    serializeLocationInfo, serializeInteger, serializeFloat, serializeBoolean,
    basicIsDedictable]
  simp_all


/-- A key with the stripped-prefix shape never equals the bare
segment. -/
theorem append_dot_ne (p x : String) : p ++ "." ++ x ≠ p := by
  intro h
  have := congrArg String.length h
  rw [length_strApp, length_strApp] at this
  have h1 : (".".length : Nat) = 1 := by decide
  omega

/-- A block of prefixed keys has no binding for the bare segment. -/
theorem plookup_prefixKeys_none : ∀ (p : String) (m : PropL),
    (PropL.prefixKeys (p ++ ".") m).lookup p = none
  | p, .nil => rfl
  | p, .cons k v rest => by
    simp only [PropL.prefixKeys, PropL.lookup]
    rw [if_neg]
    · exact plookup_prefixKeys_none p rest
    · show ¬ (p ++ ".") ++ k = p
      exact append_dot_ne p k

/-- One `None`-valued step of the expand loop. -/
theorem expandGo_cons_vnone_eq (fuel : Nat) (fields acc : PropL)
    (item : String) (rest : List String)
    (hlook : fields.lookup item = some .vnone) :
    expandGo (fuel + 1) fields acc (item :: rest)
      = expandGo fuel fields (acc.upsert item .vnone) rest := by
  simp only [expandGo, hlook]

/-- One atomic-valued step of the expand loop. -/
theorem expandGo_cons_scalar_eq (fuel : Nat) (fields acc : PropL)
    (item : String) (rest : List String) (v : PyVal) (k2 : String)
    (v2 : PyVal) (hlook : fields.lookup item = some v) (hnn : v ≠ .vnone)
    (hdes : deserializeProp CELL_MEASUREMENT_SERIALIZERS item v
      = .ok (k2, v2)) :
    expandGo (fuel + 1) fields acc (item :: rest)
      = expandGo fuel fields (acc.upsert k2 v2) rest := by
  cases v <;> first
    | exact absurd rfl hnn
    | simp only [expandGo, hlook, hdes]

/-- One composite step of the expand loop. -/
theorem expandGo_cons_comp_eq (fuel : Nat) (fields acc : PropL)
    (item : String) (rest : List String) (sub : PropL) (k2 : String)
    (v2 : PyVal) (hlook : fields.lookup item = none)
    (hsub : expandGo fuel (fields.subProps item) .nil
      (topLevel (fields.subProps item)) = .ok sub)
    (hdes : deserializeProp CELL_MEASUREMENT_SERIALIZERS item (.dict sub)
      = .ok (k2, v2)) :
    expandGo (fuel + 1) fields acc (item :: rest)
      = expandGo fuel fields (acc.upsert k2 v2) rest := by
  simp only [expandGo, hlook, hsub, hdes]


/-- Transport of one atomic entry through the expand loop. -/
theorem expand_step_scalar (fuel : Nat) (k : String) (v payload : PyVal)
    (rest fpre acc : PropL)
    (hk : noDot k = true) (hc : cleanKey k = true)
    (hlk : rest.lookup k = none) (hr : wfItems rest = true)
    (hblock : flatVal k v = .cons (topKey k v) payload .nil)
    (hdes : (payload = .vnone ∧ v = .vnone) ∨
      (payload ≠ .vnone ∧ deserializeProp CELL_MEASUREMENT_SERIALIZERS
        (topKey k v) payload = .ok (k, v)))
    (hfpre : ∀ key ∈ fpre.keys, firstDotSeg key ∉ segs (.cons k v rest))
    (hacc : ∀ x ∈ (PropL.cons k v rest).keys, acc.lookup x = none)
    (ih : ∀ (fpre2 acc2 : PropL),
      (∀ key ∈ fpre2.keys, firstDotSeg key ∉ segs rest) →
      (∀ x ∈ rest.keys, acc2.lookup x = none) →
      expandGo fuel (fpre2.append (flatItems rest)) acc2 (segs rest)
        = .ok (acc2.append rest)) :
    expandGo (fuel + 1) (fpre.append (flatItems (.cons k v rest))) acc
      (segs (.cons k v rest)) = .ok (acc.append (.cons k v rest)) := by
  have hsnodot := noDot_topKey k v hk hc
  have hsnotin : topKey k v ∉ segs rest :=
    seg_notin rest k v hr hc ((plookup_eq_none_iff rest k).mp hlk)
  have hfpre_s : fpre.lookup (topKey k v) = none := by
    rw [plookup_eq_none_iff]
    intro hmem
    exact hfpre _ hmem (by
      rw [firstDotSeg_of_noDot _ hsnodot]
      exact List.mem_cons_self _ _)
  have hlook : (fpre.append (flatItems (.cons k v rest))).lookup (topKey k v)
      = some payload := by
    rw [show flatItems (.cons k v rest)
      = (flatVal k v).append (flatItems rest) from rfl, hblock]
    rw [plookup_append_none fpre _ _ hfpre_s]
    show (PropL.cons (topKey k v) payload (flatItems rest)).lookup
      (topKey k v) = some payload
    simp [PropL.lookup]
  have hreassoc : fpre.append (flatItems (.cons k v rest))
      = (fpre.append (flatVal k v)).append (flatItems rest) := by
    rw [show flatItems (.cons k v rest)
      = (flatVal k v).append (flatItems rest) from rfl, pappend_assoc]
  have hacck : acc.lookup k = none := hacc k (by simp [PropL.keys])
  have hupk : acc.upsert k v = acc.append (.cons k v .nil) :=
    pupsert_fresh acc k v hacck
  have hstep : expandGo (fuel + 1)
      (fpre.append (flatItems (.cons k v rest))) acc
      (segs (.cons k v rest))
      = expandGo fuel (fpre.append (flatItems (.cons k v rest)))
          (acc.upsert k v) (segs rest) := by
    rcases hdes with ⟨hp, hv⟩ | ⟨hnn, hdes⟩
    · subst hp
      subst hv
      exact expandGo_cons_vnone_eq fuel _ acc k (segs rest) hlook
    · exact expandGo_cons_scalar_eq fuel _ acc (topKey k v) (segs rest)
        payload k v hlook hnn hdes
  rw [hstep, hupk, hreassoc]
  rw [ih (fpre.append (flatVal k v)) (acc.append (.cons k v .nil)) ?_ ?_]
  · rw [pappend_assoc]
    rfl
  · intro key hkey
    rw [pkeys_append] at hkey
    rcases List.mem_append.mp hkey with hkey | hkey
    · exact fun hmem => hfpre key hkey (List.mem_cons_of_mem _ hmem)
    · rw [hblock] at hkey
      simp only [PropL.keys, List.mem_cons, List.not_mem_nil, or_false]
        at hkey
      subst hkey
      rw [firstDotSeg_of_noDot _ hsnodot]
      exact hsnotin
  · intro x hx
    rw [plookup_append_none acc _ x (hacc x (by simp [PropL.keys, hx]))]
    simp only [PropL.lookup]
    have hkx : ¬ k = x :=
      fun he => ((plookup_eq_none_iff rest k).mp hlk) (he ▸ hx)
    simp [hkx]

/-- Transport of one composite entry through the expand loop. -/
theorem expand_step_comp (fuel : Nat) (k : String) (v : PyVal)
    (minner : PropL) (rest fpre acc : PropL)
    (hk : noDot k = true) (hc : cleanKey k = true)
    (hlk : rest.lookup k = none) (hr : wfItems rest = true)
    (hblock : flatVal k v
      = PropL.prefixKeys (topKey k v ++ ".") (flatItems minner))
    (hsubexp : expandGo fuel (flatItems minner) .nil
      (topLevel (flatItems minner)) = .ok minner)
    (hdes : deserializeProp CELL_MEASUREMENT_SERIALIZERS (topKey k v)
      (.dict minner) = .ok (k, v))
    (hwfin : wfItems minner = true)
    (hfpre : ∀ key ∈ fpre.keys, firstDotSeg key ∉ segs (.cons k v rest))
    (hacc : ∀ x ∈ (PropL.cons k v rest).keys, acc.lookup x = none)
    (ih : ∀ (fpre2 acc2 : PropL),
      (∀ key ∈ fpre2.keys, firstDotSeg key ∉ segs rest) →
      (∀ x ∈ rest.keys, acc2.lookup x = none) →
      expandGo fuel (fpre2.append (flatItems rest)) acc2 (segs rest)
        = .ok (acc2.append rest)) :
    expandGo (fuel + 1) (fpre.append (flatItems (.cons k v rest))) acc
      (segs (.cons k v rest)) = .ok (acc.append (.cons k v rest)) := by
  have hsnodot := noDot_topKey k v hk hc
  have hsnotin : topKey k v ∉ segs rest :=
    seg_notin rest k v hr hc ((plookup_eq_none_iff rest k).mp hlk)
  have hfpre_s : fpre.lookup (topKey k v) = none := by
    rw [plookup_eq_none_iff]
    intro hmem
    exact hfpre _ hmem (by
      rw [firstDotSeg_of_noDot _ hsnodot]
      exact List.mem_cons_self _ _)
  have hrest_s : (flatItems rest).lookup (topKey k v) = none := by
    rw [plookup_eq_none_iff]
    intro hmem
    have := flatItems_keys_fds rest hr _ hmem
    rw [firstDotSeg_of_noDot _ hsnodot] at this
    exact hsnotin this
  have hlookn : (fpre.append (flatItems (.cons k v rest))).lookup
      (topKey k v) = none := by
    rw [show flatItems (.cons k v rest)
      = (flatVal k v).append (flatItems rest) from rfl, hblock]
    rw [plookup_append_none fpre _ _ hfpre_s]
    rw [plookup_append_none _ _ _
      (plookup_prefixKeys_none (topKey k v) (flatItems minner))]
    exact hrest_s
  have hsubeq : (fpre.append (flatItems (.cons k v rest))).subProps
      (topKey k v) = flatItems minner := by
    rw [show flatItems (.cons k v rest)
      = (flatVal k v).append (flatItems rest) from rfl, hblock]
    rw [psubProps_append, psubProps_append]
    rw [psubProps_prefixKeys_self]
    rw [psubProps_nil_of_seg fpre (topKey k v) ?_,
      psubProps_nil_of_seg (flatItems rest) (topKey k v) ?_]
    · show (flatItems minner).append PropL.nil = flatItems minner
      rw [pappend_nil]
    · intro key hkey
      cases hsw : pyStartsWith key (topKey k v ++ ".") with
      | false => rfl
      | true =>
        exfalso
        have := flatItems_keys_fds rest hr key hkey
        rw [firstDotSeg_of_startsWith key _ hsw hsnodot] at this
        exact hsnotin this
    · intro key hkey
      cases hsw : pyStartsWith key (topKey k v ++ ".") with
      | false => rfl
      | true =>
        exfalso
        apply hfpre key hkey
        rw [firstDotSeg_of_startsWith key _ hsw hsnodot]
        exact List.mem_cons_self _ _
  have hsub2 : expandGo fuel
      ((fpre.append (flatItems (.cons k v rest))).subProps (topKey k v))
      .nil (topLevel ((fpre.append (flatItems (.cons k v rest))).subProps
        (topKey k v))) = .ok minner := by
    rw [hsubeq]
    exact hsubexp
  have hstep : expandGo (fuel + 1)
      (fpre.append (flatItems (.cons k v rest))) acc
      (segs (.cons k v rest))
      = expandGo fuel (fpre.append (flatItems (.cons k v rest)))
          (acc.upsert k v) (segs rest) :=
    expandGo_cons_comp_eq fuel _ acc (topKey k v) (segs rest)
      minner k v hlookn hsub2 hdes
  have hreassoc : fpre.append (flatItems (.cons k v rest))
      = (fpre.append (flatVal k v)).append (flatItems rest) := by
    rw [show flatItems (.cons k v rest)
      = (flatVal k v).append (flatItems rest) from rfl, pappend_assoc]
  have hacck : acc.lookup k = none := hacc k (by simp [PropL.keys])
  have hupk : acc.upsert k v = acc.append (.cons k v .nil) :=
    pupsert_fresh acc k v hacck
  rw [hstep, hupk, hreassoc]
  rw [ih (fpre.append (flatVal k v)) (acc.append (.cons k v .nil)) ?_ ?_]
  · rw [pappend_assoc]
    rfl
  · intro key hkey
    rw [pkeys_append] at hkey
    rcases List.mem_append.mp hkey with hkey | hkey
    · exact fun hmem => hfpre key hkey (List.mem_cons_of_mem _ hmem)
    · rw [hblock, pkeys_prefixKeys] at hkey
      obtain ⟨x, hx, hkeyeq⟩ := List.mem_map.mp hkey
      rw [← hkeyeq]
      rw [show (topKey k v ++ ".") ++ x = topKey k v ++ "." ++ x from rfl]
      rw [firstDotSeg_append_dot _ _ hsnodot]
      exact hsnotin
  · intro x hx
    rw [plookup_append_none acc _ x (hacc x (by simp [PropL.keys, hx]))]
    simp only [PropL.lookup]
    have hkx : ¬ k = x :=
      fun he => ((plookup_eq_none_iff rest k).mp hlk) (he ▸ hx)
    simp [hkx]


/-- On a well-formed item, `_expand_dict`'s worker rebuilds exactly the
item, whatever already-decoded prefix `fpre` shares the flat dict and
whatever the accumulator already holds under other keys. -/
theorem expandGo_flat : ∀ (n : Nat) (m : PropL), plW m ≤ n →
    wfItems m = true → ∀ (fpre : PropL),
    (∀ key ∈ fpre.keys, firstDotSeg key ∉ segs m) →
    ∀ (fuel : Nat), plW m + 1 ≤ fuel → ∀ (acc : PropL),
    (∀ x ∈ m.keys, acc.lookup x = none) →
    expandGo fuel (fpre.append (flatItems m)) acc (segs m)
      = .ok (acc.append m)
  | _, .nil, _, _, _, _, 0, hfuel, _, _ => by simp [plW] at hfuel
  | _, .nil, _, _, fpre, _, fuel + 1, _, acc, _ => by
    show Except.ok acc = Except.ok (acc.append PropL.nil)
    rw [pappend_nil]
  | _, .cons k v rest, _, _, _, _, 0, hfuel, _, _ => by
    simp only [plW] at hfuel
    omega
  | 0, .cons k v rest, hn, _, _, _, _ + 1, _, _, _ => by
    exfalso
    have := pvW_pos v
    simp only [plW] at hn
    omega
  | n + 1, .cons k v rest, hn, hwf, fpre, hfpre, fuel + 1, hfuel, acc,
      hacc => by
    obtain ⟨hk, hc, hlk, hv, hr⟩ := wf_cons k v rest hwf
    simp only [plW] at hn hfuel
    have hvpos := pvW_pos v
    have hplr : plW rest ≤ n := by omega
    have hfuelr : plW rest + 1 ≤ fuel := by omega
    have ihrest : ∀ (fpre2 acc2 : PropL),
        (∀ key ∈ fpre2.keys, firstDotSeg key ∉ segs rest) →
        (∀ x ∈ rest.keys, acc2.lookup x = none) →
        expandGo fuel (fpre2.append (flatItems rest)) acc2 (segs rest)
          = .ok (acc2.append rest) :=
      fun fpre2 acc2 h1 h2 =>
        expandGo_flat n rest hplr hr fpre2 h1 fuel hfuelr acc2 h2
    cases v with
    | vnone =>
      exact expand_step_scalar fuel k .vnone .vnone rest fpre acc hk hc hlk
        hr rfl (.inl ⟨rfl, rfl⟩) hfpre hacc ihrest
    | str t =>
      simp only [wfVal, Bool.not_eq_true'] at hv
      exact expand_step_scalar fuel k (.str t) (.str t) rest fpre acc hk hc
        hlk hr rfl (.inr ⟨by simp, des_clean_noflag k hc hv (.str t)⟩)
        hfpre hacc ihrest
    | floatStr q =>
      simp only [wfVal, Bool.not_eq_true'] at hv
      exact expand_step_scalar fuel k (.floatStr q) (.floatStr q) rest fpre
        acc hk hc hlk hr rfl
        (.inr ⟨by simp, des_clean_noflag k hc hv (.floatStr q)⟩)
        hfpre hacc ihrest
    | isoStr us tz =>
      simp only [wfVal, Bool.not_eq_true'] at hv
      exact expand_step_scalar fuel k (.isoStr us tz) (.isoStr us tz) rest
        fpre acc hk hc hlk hr rfl
        (.inr ⟨by simp, des_clean_noflag k hc hv (.isoStr us tz)⟩)
        hfpre hacc ihrest
    | cellUid cs =>
      simp only [wfVal, Bool.not_eq_true'] at hv
      exact expand_step_scalar fuel k (.cellUid cs) (.cellUid cs) rest fpre
        acc hk hc hlk hr rfl
        (.inr ⟨by simp, des_clean_noflag k hc hv (.cellUid cs)⟩)
        hfpre hacc ihrest
    | bool b =>
      simp only [wfVal] at hv
      have hf : firstUnderscoreSeg k = "is" ∨ firstUnderscoreSeg k = "has" := by
        simp only [flagK, Bool.or_eq_true, beq_iff_eq] at hv
        exact hv
      exact expand_step_scalar fuel k (.bool b) (.bool b) rest fpre acc hk
        hc hlk hr rfl (.inr ⟨by simp, des_bool k hc hf b⟩) hfpre hacc ihrest
    | int n2 =>
      exact expand_step_scalar fuel k (.int n2) (.int n2) rest fpre acc hk
        hc hlk hr rfl (.inr ⟨by simp, des_int k hc n2⟩) hfpre hacc ihrest
    | float q =>
      exact expand_step_scalar fuel k (.float q) (.float q) rest fpre acc hk
        hc hlk hr rfl (.inr ⟨by simp, des_float k hc q⟩) hfpre hacc ihrest
    | angle q =>
      exact expand_step_scalar fuel k (.angle q) (.floatStr q) rest fpre acc
        hk hc hlk hr rfl (.inr ⟨by simp, des_angle k hc q⟩) hfpre hacc
        ihrest
    | datetime us tz =>
      exact expand_step_scalar fuel k (.datetime us tz) (.isoStr us tz) rest
        fpre acc hk hc hlk hr rfl
        (.inr ⟨by simp, des_datetime k hc us tz⟩) hfpre hacc ihrest
    | timedelta us =>
      exact expand_step_scalar fuel k (.timedelta us)
        (.floatStr ((us : ℚ) / 1000000)) rest fpre acc hk hc hlk hr rfl
        (.inr ⟨by simp, des_timedelta k hc us⟩) hfpre hacc ihrest
    | point lon lat =>
      simp only [wfVal, decide_eq_true_eq] at hv
      obtain ⟨⟨h1, h2⟩, h3, h4⟩ := hv
      have hwfin : wfItems (.cons "lat" (.float lat)
          (.cons "lon" (.float lon) .nil)) = true := rfl
      simp only [pvW] at hn hfuel
      have hplin : plW (.cons "lat" (.float lat)
          (.cons "lon" (.float lon) .nil)) ≤ n := by
        show 4 ≤ n
        omega
      have hfuelin : plW (.cons "lat" (.float lat)
          (.cons "lon" (.float lon) .nil)) + 1 ≤ fuel := by
        show 5 ≤ fuel
        omega
      have hin : flatItems (.cons "lat" (.float lat)
            (.cons "lon" (.float lon) .nil))
          = .cons "lat_float" (.float lat)
              (.cons "lon_float" (.float lon) .nil) := by
        simp [flatItems, flatVal, PropL.append,
          show addTypeIndicator "float" "lat" = "lat_float" from by decide,
          show addTypeIndicator "float" "lon" = "lon_float" from by decide]
      have hsubexp : expandGo fuel
          (flatItems (.cons "lat" (.float lat)
            (.cons "lon" (.float lon) .nil))) .nil
          (topLevel (flatItems (.cons "lat" (.float lat)
            (.cons "lon" (.float lon) .nil))))
          = .ok (.cons "lat" (.float lat)
              (.cons "lon" (.float lon) .nil)) := by
        rw [topLevel_flat _ hwfin]
        exact expandGo_flat n _ hplin hwfin .nil
          (by intro key hkey; simp [PropL.keys] at hkey) fuel hfuelin .nil
          (fun x hx => rfl)
      refine expand_step_comp fuel k (.point lon lat) _ rest fpre acc hk hc
        hlk hr ?_ hsubexp (des_point k hc lon lat h1 h2 h3 h4) hwfin hfpre
        hacc ihrest
      rw [hin]
      rfl
    | cell c =>
      simp only [wfVal] at hv
      simp only [pvW] at hn hfuel
      have hdes := des_cell k hc c hv
      cases hradio : CellIdentity.radio c with
      | some r =>
        rw [hradio] at hdes
        have hwfin : wfItems (.cons "radio" (.str r) (.cons "identifier"
            (.cellUid (CellIdentity.uidComps c)) .nil)) = true := rfl
        have hplin : plW (.cons "radio" (.str r) (.cons "identifier"
            (.cellUid (CellIdentity.uidComps c)) .nil)) ≤ n := by
          show 4 ≤ n
          omega
        have hfuelin : plW (.cons "radio" (.str r) (.cons "identifier"
            (.cellUid (CellIdentity.uidComps c)) .nil)) + 1 ≤ fuel := by
          show 5 ≤ fuel
          omega
        have hsubexp : expandGo fuel
            (flatItems (.cons "radio" (.str r) (.cons "identifier"
              (.cellUid (CellIdentity.uidComps c)) .nil))) .nil
            (topLevel (flatItems (.cons "radio" (.str r) (.cons "identifier"
              (.cellUid (CellIdentity.uidComps c)) .nil))))
            = .ok (.cons "radio" (.str r) (.cons "identifier"
                (.cellUid (CellIdentity.uidComps c)) .nil)) := by
          rw [topLevel_flat _ hwfin]
          exact expandGo_flat n _ hplin hwfin .nil
            (by intro key hkey; simp [PropL.keys] at hkey) fuel hfuelin
            .nil (fun x hx => rfl)
        refine expand_step_comp fuel k (.cell c) _ rest fpre acc hk hc hlk
          hr ?_ hsubexp hdes hwfin hfpre hacc ihrest
        show PropL.prefixKeys (addTypeIndicator "cell" k ++ ".")
            (.cons "radio"
              (match CellIdentity.radio c with
               | some r => .str r | none => .vnone)
              (.cons "identifier"
                (.cellUid (CellIdentity.uidComps c)) .nil)) = _
        rw [hradio]
        rfl
      | none =>
        rw [hradio] at hdes
        have hwfin : wfItems (.cons "radio" .vnone (.cons "identifier"
            (.cellUid (CellIdentity.uidComps c)) .nil)) = true := rfl
        have hplin : plW (.cons "radio" .vnone (.cons "identifier"
            (.cellUid (CellIdentity.uidComps c)) .nil)) ≤ n := by
          show 4 ≤ n
          omega
        have hfuelin : plW (.cons "radio" .vnone (.cons "identifier"
            (.cellUid (CellIdentity.uidComps c)) .nil)) + 1 ≤ fuel := by
          show 5 ≤ fuel
          omega
        have hsubexp : expandGo fuel
            (flatItems (.cons "radio" .vnone (.cons "identifier"
              (.cellUid (CellIdentity.uidComps c)) .nil))) .nil
            (topLevel (flatItems (.cons "radio" .vnone (.cons "identifier"
              (.cellUid (CellIdentity.uidComps c)) .nil))))
            = .ok (.cons "radio" .vnone (.cons "identifier"
                (.cellUid (CellIdentity.uidComps c)) .nil)) := by
          rw [topLevel_flat _ hwfin]
          exact expandGo_flat n _ hplin hwfin .nil
            (by intro key hkey; simp [PropL.keys] at hkey) fuel hfuelin
            .nil (fun x hx => rfl)
        refine expand_step_comp fuel k (.cell c) _ rest fpre acc hk hc hlk
          hr ?_ hsubexp hdes hwfin hfpre hacc ihrest
        show PropL.prefixKeys (addTypeIndicator "cell" k ++ ".")
            (.cons "radio"
              (match CellIdentity.radio c with
               | some r => .str r | none => .vnone)
              (.cons "identifier"
                (.cellUid (CellIdentity.uidComps c)) .nil)) = _
        rw [hradio]
        rfl
    | geo m2 =>
      simp only [wfVal, Bool.and_eq_true, Bool.not_eq_true',
        beq_eq_false_iff_ne, ne_eq] at hv
      simp only [pvW] at hn hfuel
      have hplin : plW m2 ≤ n := by omega
      have hfuelin : plW m2 + 1 ≤ fuel := by omega
      have hsubexp : expandGo fuel (flatItems m2) .nil
          (topLevel (flatItems m2)) = .ok m2 := by
        rw [topLevel_flat m2 hv.1]
        exact expandGo_flat n m2 hplin hv.1 .nil
          (by intro key hkey; simp [PropL.keys] at hkey) fuel hfuelin .nil
          (fun x hx => rfl)
      exact expand_step_comp fuel k (.geo m2) m2 rest fpre acc hk hc hlk hr
        rfl hsubexp (des_geo_dict k hc m2) hv.1 hfpre hacc ihrest
    | dict m2 =>
      simp only [wfVal, Bool.and_eq_true, Bool.not_eq_true',
        beq_eq_false_iff_ne, ne_eq] at hv
      simp only [pvW] at hn hfuel
      have hplin : plW m2 ≤ n := by omega
      have hfuelin : plW m2 + 1 ≤ fuel := by omega
      have hsubexp : expandGo fuel (flatItems m2) .nil
          (topLevel (flatItems m2)) = .ok m2 := by
        rw [topLevel_flat m2 hv.2.1]
        exact expandGo_flat n m2 hplin hv.2.1 .nil
          (by intro key hkey; simp [PropL.keys] at hkey) fuel hfuelin .nil
          (fun x hx => rfl)
      exact expand_step_comp fuel k (.dict m2) m2 rest fpre acc hk hc hlk hr
        rfl hsubexp (des_clean_noflag k hc hv.1 (.dict m2)) hv.2.1 hfpre
        hacc ihrest


/-- `fieldsW` adds over an append. -/
theorem fieldsW_append : ∀ (a b : PropL),
    fieldsW (a.append b) = fieldsW a + fieldsW b
  | .nil, b => by simp [PropL.append, fieldsW]
  | .cons k v rest, b => by
    simp only [PropL.append, fieldsW, fieldsW_append rest b]
    omega

/-- `fieldsW` after prefixing every key with `p`. -/
theorem fieldsW_prefixKeys : ∀ (p : String) (m : PropL),
    fieldsW (PropL.prefixKeys p m) = PropL.length m * p.length + fieldsW m
  | p, .nil => by simp [PropL.prefixKeys, fieldsW, PropL.length]
  | p, .cons k v rest => by
    simp only [PropL.prefixKeys, fieldsW, PropL.length,
      fieldsW_prefixKeys p rest, length_strApp]
    ring

/-- A nonempty dict has at least one entry. -/
theorem plength_pos (m : PropL) (h : m ≠ .nil) : 1 ≤ PropL.length m := by
  cases m with
  | nil => exact absurd rfl h
  | cons k v rest => simp [PropL.length]

/-- `add_type_indicator` never returns the empty string. -/
theorem addTypeIndicator_len_pos (tn k : String) (htn : 1 ≤ tn.length) :
    1 ≤ (addTypeIndicator tn k).length := by
  unfold addTypeIndicator
  split
  · rename_i hcond
    simp only [Bool.or_eq_true, decide_eq_true_eq] at hcond
    rcases hcond with h | h
    · rw [h]
      exact htn
    · have hs := List.isSuffixOf_iff_suffix.mp h
      have hle := hs.length_le
      have hd : ("_" ++ tn).data.length = 1 + tn.data.length := by
        show ("_".data ++ tn.data).length = 1 + tn.data.length
        rw [List.length_append]
        rfl
      show 1 ≤ k.data.length
      omega
  · rw [length_strApp, length_strApp]
    omega

mutual
/-- Each well-formed entry's weight is at most twice the key weight of
its flat block. -/
theorem pvW_le_flat : ∀ (v : PyVal) (k : String) (fl : Bool),
    wfVal fl v = true → 1 + pvW v ≤ 2 * fieldsW (flatVal k v)
  | .vnone, k, fl, _ => by simp [flatVal, fieldsW, pvW]
  | .str _, k, fl, _ => by simp [flatVal, fieldsW, pvW]
  | .floatStr _, k, fl, _ => by simp [flatVal, fieldsW, pvW]
  | .isoStr _ _, k, fl, _ => by simp [flatVal, fieldsW, pvW]
  | .cellUid _, k, fl, _ => by simp [flatVal, fieldsW, pvW]
  | .bool _, k, fl, _ => by simp [flatVal, fieldsW, pvW]
  | .int _, k, fl, _ => by simp [flatVal, fieldsW, pvW]
  | .float _, k, fl, _ => by simp [flatVal, fieldsW, pvW]
  | .angle _, k, fl, _ => by simp [flatVal, fieldsW, pvW]
  | .datetime _ _, k, fl, _ => by simp [flatVal, fieldsW, pvW]
  | .timedelta _, k, fl, _ => by simp [flatVal, fieldsW, pvW]
  | .point _ _, k, fl, _ => by
    simp only [flatVal, pvW, PropL.prefixKeys, fieldsW, length_strApp]
    have h9 : ("lat_float" : String).length = 9 := by decide
    have h9b : ("lon_float" : String).length = 9 := by decide
    omega
  | .cell c, k, fl, _ => by
    simp only [flatVal, pvW, PropL.prefixKeys, fieldsW, length_strApp]
    have h5 : ("radio" : String).length = 5 := by decide
    have h10 : ("identifier" : String).length = 10 := by decide
    omega
  | .geo m, k, fl, h => by
    simp only [wfVal, Bool.and_eq_true, Bool.not_eq_true',
      beq_eq_false_iff_ne, ne_eq] at h
    have hrec := plW_le_flat m h.1
    have hne := flatItems_ne_nil m h.1 h.2
    have hL := plength_pos _ hne
    have hTI := addTypeIndicator_len_pos "geo" k (by decide)
    simp only [flatVal, pvW, fieldsW_prefixKeys, length_strApp]
    have h1 : ("." : String).length = 1 := by decide
    rw [h1]
    have hmul : 2 ≤ PropL.length (flatItems m)
        * ((addTypeIndicator "geo" k).length + 1) := by
      calc 2 = 1 * 2 := by omega
        _ ≤ PropL.length (flatItems m)
              * ((addTypeIndicator "geo" k).length + 1) :=
          Nat.mul_le_mul hL (by omega)
    omega
  | .dict m, k, fl, h => by
    simp only [wfVal, Bool.and_eq_true, Bool.not_eq_true',
      beq_eq_false_iff_ne, ne_eq] at h
    have hrec := plW_le_flat m h.2.1
    have hne := flatItems_ne_nil m h.2.1 h.2.2
    have hL := plength_pos _ hne
    simp only [flatVal, pvW, fieldsW_prefixKeys, length_strApp]
    have h1 : ("." : String).length = 1 := by decide
    rw [h1]
    have hmul : 1 ≤ PropL.length (flatItems m) * (k.length + 1) := by
      calc 1 = 1 * 1 := by omega
        _ ≤ PropL.length (flatItems m) * (k.length + 1) :=
          Nat.mul_le_mul hL (by omega)
    omega

/-- A well-formed item's weight is at most twice the key weight of its
flat form. -/
theorem plW_le_flat : ∀ (m : PropL), wfItems m = true →
    plW m ≤ 2 * fieldsW (flatItems m)
  | .nil, _ => by simp [plW, flatItems, fieldsW]
  | .cons k v rest, hwf => by
    obtain ⟨_, _, _, hv, hr⟩ := wf_cons k v rest hwf
    have h1 := pvW_le_flat v k (flagK k) hv
    have h2 := plW_le_flat rest hr
    show 1 + pvW v + plW rest
      ≤ 2 * fieldsW ((flatVal k v).append (flatItems rest))
    rw [fieldsW_append]
    omega
end

/-- `fieldsW` of a nonempty flat form is positive. -/
theorem fieldsW_flat_pos (m : PropL) (hwf : wfItems m = true)
    (hne : m ≠ .nil) : 1 ≤ fieldsW (flatItems m) := by
  have := flatItems_ne_nil m hwf hne
  cases hf : flatItems m with
  | nil => exact absurd hf this
  | cons k v rest => simp [fieldsW]; omega

/-- On a well-formed item, `_expand_dict` undoes `_collapse_dict`. -/
theorem expandDict_flat (m : PropL) (hwf : wfItems m = true) :
    expandDict (flatItems m) = .ok m := by
  unfold expandDict
  rw [topLevel_flat m hwf]
  have hfuel : plW m + 1 ≤ fieldsW (flatItems m) * fieldsW (flatItems m)
      + (segs m).length + 1 := by
    cases hm : m with
    | nil => simp [plW]
    | cons k v rest =>
      rw [← hm]
      have hb := plW_le_flat m hwf
      have hf1 : 1 ≤ fieldsW (flatItems m) :=
        fieldsW_flat_pos m hwf (by rw [hm]; intro h; cases h)
      have hlen : 1 ≤ (segs m).length := by
        rw [hm]
        simp [segs]
      rcases Nat.lt_or_ge (fieldsW (flatItems m)) 2 with hf | hf
      · have : fieldsW (flatItems m) = 1 := by omega
        rw [this] at hb ⊢
        omega
      · have : 2 * fieldsW (flatItems m)
            ≤ fieldsW (flatItems m) * fieldsW (flatItems m) :=
          Nat.mul_le_mul_right _ hf
        omega
  have h := expandGo_flat (plW m) m (le_refl _) hwf .nil
    (by intro key hkey; simp [PropL.keys] at hkey) _ hfuel .nil
    (fun x hx => rfl)
  exact h


/-! ### Python `==` on the round-tripped result -/

/-- The cell classes' `__eq__` is reflexive. -/
theorem cellPyEq_refl (c : CellIdentity) :
    CellIdentity.cellPyEq c c = true := by
  cases c <;> simp [CellIdentity.cellPyEq]

/-- Membership of a binding in a dict. -/
def pentryMem : PropL → String → PyVal → Prop
  | .nil, _, _ => False
  | .cons k v rest, k2, v2 => (k = k2 ∧ v = v2) ∨ pentryMem rest k2 v2

/-- A binding's key is among the keys. -/
theorem pentryMem_key : ∀ (m : PropL) (k : String) (v : PyVal),
    pentryMem m k v → k ∈ m.keys
  | .nil, k, v, h => absurd h (by simp [pentryMem])
  | .cons k1 v1 rest, k, v, h => by
    rcases h with ⟨hk, _⟩ | h
    · simp [PropL.keys, hk]
    · simp [PropL.keys, pentryMem_key rest k v h]

/-- In a well-formed dict every binding is what lookup finds (keys are
unique). -/
theorem wf_pentry_lookup : ∀ (m : PropL), wfItems m = true →
    ∀ (k : String) (v : PyVal), pentryMem m k v → m.lookup k = some v
  | .nil, _, k, v, h => absurd h (by simp [pentryMem])
  | .cons k1 v1 rest, hwf, k, v, h => by
    obtain ⟨_, _, hlk, _, hr⟩ := wf_cons k1 v1 rest hwf
    rcases h with ⟨hk, hv⟩ | h
    · simp [PropL.lookup, hk, hv]
    · have hne : k1 ≠ k := by
        intro he
        exact (plookup_eq_none_iff rest k1).mp hlk
          (he ▸ pentryMem_key rest k v h)
      simp only [PropL.lookup, if_neg hne]
      exact wf_pentry_lookup rest hr k v h

mutual
/-- Python `==` is reflexive on well-formed values. -/
theorem pyEqVal_refl : ∀ (v : PyVal) (fl : Bool),
    wfVal fl v = true → pyEqVal v v = true
  | .vnone, _, _ => rfl
  | .str t, _, _ => by
    show (t == t) = true
    simp
  | .floatStr q, _, _ => by
    show (q == q) = true
    simp
  | .isoStr us tz, _, _ => by
    show ((us == us) && (tz == tz)) = true
    simp
  | .cellUid cs, _, _ => by
    show (cs == cs) = true
    simp
  | .bool b, _, _ => by
    show (b == b) = true
    simp
  | .int n, _, _ => by
    show (n == n) = true
    simp
  | .float q, _, _ => by
    show (q == q) = true
    simp
  | .angle q, _, _ => by
    show (q == q) = true
    simp
  | .datetime us tz, _, _ => by
    show ((us == us) && (tz.isSome == tz.isSome)) = true
    simp
  | .timedelta us, _, _ => by
    show (us == us) = true
    simp
  | .point lon lat, _, _ => by
    show ((lon == lon) && (lat == lat)) = true
    simp
  | .cell c, _, _ => by
    show CellIdentity.cellPyEq c c = true
    exact cellPyEq_refl c
  | .geo m, fl, h => by
    simp only [wfVal, Bool.and_eq_true] at h
    show (PropL.length m == PropL.length m && pyEqSub m m) = true
    rw [pyEqSub_walk m m h.1 (fun k v hm => wf_pentry_lookup m h.1 k v hm)]
    simp
  | .dict m, fl, h => by
    simp only [wfVal, Bool.and_eq_true] at h
    show (PropL.length m == PropL.length m && pyEqSub m m) = true
    rw [pyEqSub_walk m m h.2.1
      (fun k v hm => wf_pentry_lookup m h.2.1 k v hm)]
    simp

/-- Every left binding of a well-formed dict is matched in a dict where
lookup finds it. -/
theorem pyEqSub_walk : ∀ (m1 m2 : PropL), wfItems m1 = true →
    (∀ (k : String) (v : PyVal), pentryMem m1 k v → m2.lookup k = some v) →
    pyEqSub m1 m2 = true
  | .nil, m2, _, _ => rfl
  | .cons k v rest, m2, hwf, hag => by
    obtain ⟨_, _, _, hv, hr⟩ := wf_cons k v rest hwf
    show ((match m2.lookup k with
      | some v2 => pyEqVal v v2
      | none => false) && pyEqSub rest m2) = true
    rw [hag k v (.inl ⟨rfl, rfl⟩)]
    show (pyEqVal v v && pyEqSub rest m2) = true
    rw [pyEqVal_refl v _ hv,
      pyEqSub_walk rest m2 hr (fun k2 v2 hm => hag k2 v2 (.inr hm))]
    rfl
end

/-- Python `==` is reflexive on well-formed items. -/
theorem pyEqItem_refl (m : PropL) (hwf : wfItems m = true) :
    pyEqItem m m = true := by
  simp only [pyEqItem, Bool.and_eq_true, beq_self_eq_true, true_and]
  exact pyEqSub_walk m m hwf (fun k v hm => wf_pentry_lookup m hwf k v hm)

/-! ### Claim C2 -/

/-- `unflatten(flatten(item))` with the full registry and no blacklist
(the composition `add` applies on the way in and `__iter__` on the way
out). -/
def roundTripItem (m : PropL) : Except PyErr PropL :=
  match collapseDict [] m with
  | .error e => .error e
  | .ok flat => expandDict flat

/-- C2, counterexample.  The claim fails on items a collection accepts:
(1) a string field under a key that ends in a type tag comes back
retyped and renamed (`{"a_int": "5"}` unflattens to `{"a": 5}`, not
equal under Python `==`); (2) a string under an `is_`-flagged key comes
back as a boolean; (3) a dotted key changes shape into a nested map;
(4) a nested map with a `bool` under a non-flagged key does not even
flatten (`AssertionError`). -/
theorem C2_flatten_counterexample :
    (roundTripItem (.cons "a_int" (.str "5") .nil)
        = .ok (.cons "a" (.int 5) .nil) ∧
      pyEqItem (.cons "a" (.int 5) .nil) (.cons "a_int" (.str "5") .nil)
        = false) ∧
    (roundTripItem (.cons "is_x" (.str "true") .nil)
        = .ok (.cons "is_x" (.bool true) .nil) ∧
      pyEqItem (.cons "is_x" (.bool true) .nil)
        (.cons "is_x" (.str "true") .nil) = false) ∧
    (roundTripItem (.cons "a.b" (.int 1) .nil)
        = .ok (.cons "a" (.dict (.cons "b" (.int 1) .nil)) .nil) ∧
      pyEqItem (.cons "a" (.dict (.cons "b" (.int 1) .nil)) .nil)
        (.cons "a.b" (.int 1) .nil) = false) ∧
    roundTripItem (.cons "x" (.bool true) .nil)
      = .error .assertionError := by
  refine ⟨⟨by decide, by decide⟩, ⟨by decide, by decide⟩,
    ⟨by decide, by decide⟩, by decide⟩

/-- C2 (amended): `unflatten(flatten(item)) == item` holds — indeed the
rebuilt dict is identical — for every item in the well-formed domain
`wfItems`: single-segment keys carrying no type-indicator suffix,
unique per nesting level; strings only under unflagged keys, booleans
only under `is_`/`has_`-flagged keys, nested maps unflagged and
nonempty at every level, geo points within range and cell identifiers
complete with positive fields.  Outside that domain the counterexamples
show the composition renames, retypes, restructures or raises. -/
theorem C2_flatten_roundtrip (m : PropL) (hwf : wfItems m = true) :
    roundTripItem m = .ok m ∧ pyEqItem m m = true := by
  constructor
  · unfold roundTripItem
    rw [collapseDict_flat m hwf]
    exact expandDict_flat m hwf
  · exact pyEqItem_refl m hwf

/-- C2, witness: a measurement-shaped item with an integer, a string, a
flagged boolean, a geo point, a timestamp, a cell identifier, a nested
map and a `LocationInfo` survives the round trip unchanged. -/
theorem C2_flatten_roundtrip_witness :
    roundTripItem (.cons "n" (.int 5)
      (.cons "t" (.str "x")
        (.cons "is_on" (.bool true)
          (.cons "loc" (.point 4 52)
            (.cons "when" (.datetime 1000 none)
              (.cons "c" (.cell (.gsm (some 204) (some 8) (some 100)
                  (some 200)))
                (.cons "d" (.dict (.cons "a" (.int 1) .nil))
                  (.cons "g" (.geo (.cons "city" (.str "X") .nil))
                    .nil))))))))
      = .ok (.cons "n" (.int 5)
        (.cons "t" (.str "x")
          (.cons "is_on" (.bool true)
            (.cons "loc" (.point 4 52)
              (.cons "when" (.datetime 1000 none)
                (.cons "c" (.cell (.gsm (some 204) (some 8) (some 100)
                    (some 200)))
                  (.cons "d" (.dict (.cons "a" (.int 1) .nil))
                    (.cons "g" (.geo (.cons "city" (.str "X") .nil))
                      .nil)))))))) ∧
    pyEqItem (.cons "n" (.int 5)
      (.cons "t" (.str "x")
        (.cons "is_on" (.bool true)
          (.cons "loc" (.point 4 52)
            (.cons "when" (.datetime 1000 none)
              (.cons "c" (.cell (.gsm (some 204) (some 8) (some 100)
                  (some 200)))
                (.cons "d" (.dict (.cons "a" (.int 1) .nil))
                  (.cons "g" (.geo (.cons "city" (.str "X") .nil))
                    .nil))))))))
      (.cons "n" (.int 5)
      (.cons "t" (.str "x")
        (.cons "is_on" (.bool true)
          (.cons "loc" (.point 4 52)
            (.cons "when" (.datetime 1000 none)
              (.cons "c" (.cell (.gsm (some 204) (some 8) (some 100)
                  (some 200)))
                (.cons "d" (.dict (.cons "a" (.int 1) .nil))
                  (.cons "g" (.geo (.cons "city" (.str "X") .nil))
                    .nil)))))))) = true :=
  C2_flatten_roundtrip _ (by decide)

end Telcell
